import Mathlib

/-!
# Verification of the pesummary metafile aggregation core

A shallow embedding, in Lean 4, of the metafile aggregation and
serialization core of the `pesummary` package:

* `pesummary/core/file/meta_file.py` — the `_MetaFile` builder
  (`_make_dictionary`), the custom JSON encoder (`PESummaryJsonEncoder`),
  the JSON/HDF5 serializers (`save_to_json`, `save_to_hdf5`) and the
  soft-link de-duplication pass (`_create_softlinks`);
* `pesummary/core/file/formats/pesummary.py` — the canonical aggregate
  reader (`PESummary._grab_data_from_dictionary`);
* `pesummary/gw/file/meta_file.py` — the GW builder
  (`GWMetaFile._make_dictionary`, `_make_dictionary_structure`,
  `_add_data`);
* `pesummary/core/file/read.py` — format detection and dispatch
  (`read`, `_read`, and the structural signature predicates);
* `pesummary/gw/file/formats/lalinference.py` — the derived-column
  expansion performed by `_grab_data_from_lalinference_file`.

Python run-time values are embedded as the inductive type `PyVal`;
decoded JSON documents (the result of `json.load`) as the inductive
type `JSON`.  Machine floats are modelled as exact rationals (claims
about sample values are stated "up to floating-point serialization
precision", which the exact model subsumes); the float `nan` is a
distinguished constructor since the codec prints it as a bare `NaN`
token.  Fallible Python code is modelled with `Option`/`Except`, and
`raise` with error values.
-/

/-! ## Python and JSON value models -/

/-- A decoded JSON document, as produced by `json.load`: objects keep the
textual key order of the file (for documents written by
`json.dump(..., sort_keys=True)` this is sorted order).  `nan` models the
bare `NaN` token emitted by Python's `json.dump` for float NaN, which
`json.load` turns back into a float NaN. -/
inductive JSON where
  | null
  | bool (b : Bool)
  | num (q : ℚ)
  | nan
  | str (s : String)
  | arr (xs : List JSON)
  | obj (kvs : List (String × JSON))

mutual

/-- Structural decidable equality for `JSON` (written by hand because the
deriving handler does not support the nested occurrence in `arr`/`obj`). -/
def JSON.deq : (a b : JSON) → Decidable (a = b)
  | .null, .null => isTrue rfl
  | .bool a, .bool b =>
    if h : a = b then isTrue (by rw [h]) else isFalse (by simp [h])
  | .num a, .num b =>
    if h : a = b then isTrue (by rw [h]) else isFalse (by simp [h])
  | .nan, .nan => isTrue rfl
  | .str a, .str b =>
    if h : a = b then isTrue (by rw [h]) else isFalse (by simp [h])
  | .arr a, .arr b =>
    match JSON.deqList a b with
    | isTrue h => isTrue (by rw [h])
    | isFalse h => isFalse (by simp [h])
  | .obj a, .obj b =>
    match JSON.deqKV a b with
    | isTrue h => isTrue (by rw [h])
    | isFalse h => isFalse (by simp [h])
  | .null, .bool _ => isFalse (by simp)
  | .null, .num _ => isFalse (by simp)
  | .null, .nan => isFalse (by simp)
  | .null, .str _ => isFalse (by simp)
  | .null, .arr _ => isFalse (by simp)
  | .null, .obj _ => isFalse (by simp)
  | .bool _, .null => isFalse (by simp)
  | .bool _, .num _ => isFalse (by simp)
  | .bool _, .nan => isFalse (by simp)
  | .bool _, .str _ => isFalse (by simp)
  | .bool _, .arr _ => isFalse (by simp)
  | .bool _, .obj _ => isFalse (by simp)
  | .num _, .null => isFalse (by simp)
  | .num _, .bool _ => isFalse (by simp)
  | .num _, .nan => isFalse (by simp)
  | .num _, .str _ => isFalse (by simp)
  | .num _, .arr _ => isFalse (by simp)
  | .num _, .obj _ => isFalse (by simp)
  | .nan, .null => isFalse (by simp)
  | .nan, .bool _ => isFalse (by simp)
  | .nan, .num _ => isFalse (by simp)
  | .nan, .str _ => isFalse (by simp)
  | .nan, .arr _ => isFalse (by simp)
  | .nan, .obj _ => isFalse (by simp)
  | .str _, .null => isFalse (by simp)
  | .str _, .bool _ => isFalse (by simp)
  | .str _, .num _ => isFalse (by simp)
  | .str _, .nan => isFalse (by simp)
  | .str _, .arr _ => isFalse (by simp)
  | .str _, .obj _ => isFalse (by simp)
  | .arr _, .null => isFalse (by simp)
  | .arr _, .bool _ => isFalse (by simp)
  | .arr _, .num _ => isFalse (by simp)
  | .arr _, .nan => isFalse (by simp)
  | .arr _, .str _ => isFalse (by simp)
  | .arr _, .obj _ => isFalse (by simp)
  | .obj _, .null => isFalse (by simp)
  | .obj _, .bool _ => isFalse (by simp)
  | .obj _, .num _ => isFalse (by simp)
  | .obj _, .nan => isFalse (by simp)
  | .obj _, .str _ => isFalse (by simp)
  | .obj _, .arr _ => isFalse (by simp)
termination_by structural a => a

def JSON.deqList : (a b : List JSON) → Decidable (a = b)
  | [], [] => isTrue rfl
  | [], _ :: _ => isFalse (by simp)
  | _ :: _, [] => isFalse (by simp)
  | x :: xs, y :: ys =>
    match JSON.deq x y, JSON.deqList xs ys with
    | isTrue h1, isTrue h2 => isTrue (by rw [h1, h2])
    | isFalse h1, _ => isFalse (by simp [h1])
    | isTrue _, isFalse h2 => isFalse (by simp [h2])
termination_by structural a => a

def JSON.deqKV : (a b : List (String × JSON)) → Decidable (a = b)
  | [], [] => isTrue rfl
  | [], _ :: _ => isFalse (by simp)
  | _ :: _, [] => isFalse (by simp)
  | (k1, v1) :: xs, (k2, v2) :: ys =>
    match String.decEq k1 k2, JSON.deq v1 v2, JSON.deqKV xs ys with
    | isTrue h0, isTrue h1, isTrue h2 => isTrue (by rw [h0, h1, h2])
    | isFalse h0, _, _ => isFalse (by simp [h0])
    | isTrue _, isFalse h1, _ => isFalse (by simp [h1])
    | isTrue _, isTrue _, isFalse h2 => isFalse (by simp [h2])
termination_by structural a => a

end

instance : DecidableEq JSON := JSON.deq

/-- A Python run-time value, as held in the builder's `self.data`
dictionary before serialization.  `num` covers native `int`/`float`;
`npint`/`npfloat`/`npbool` are the numpy scalar types that the JSON
encoder's `default` hook handles; `nan` is `float("nan")`;
`pyfunc`/`pyclass` stand for function and class objects (carrying the
string `str(obj)` evaluates to); `unserializable` stands for any object
the base `json.JSONEncoder.default` rejects with `TypeError`. -/
inductive PyVal where
  | none
  | bool (b : Bool)
  | npbool (b : Bool)
  | num (q : ℚ)
  | npint (n : ℤ)
  | npfloat (q : ℚ)
  | nan
  | str (s : String)
  | list (xs : List PyVal)
  | ndarray (xs : List PyVal)
  | dict (kvs : List (String × PyVal))
  | pyfunc (s : String)
  | pyclass (s : String)
  | unserializable

/-- Python dictionary assignment `d[k] = v` on an association list:
replace the value at the first occurrence of `k`, else append `(k, v)`
at the end (Python dicts preserve insertion order). -/
def pyAssign (kvs : List (String × α)) (k : String) (v : α) :
    List (String × α) :=
  match kvs with
  | [] => [(k, v)]
  | (k1, v1) :: rest =>
    if k1 = k then (k1, v) :: rest else (k1, v1) :: pyAssign rest k v

/-- The keys of an association list, in order. -/
def keysOf (kvs : List (String × α)) : List String := kvs.map Prod.fst

/-- Byte-wise comparison of strings on code points, modelling the key
order used by `json.dump(..., sort_keys=True)`. -/
def charListLt : List Char → List Char → Bool
  | [], [] => false
  | [], _ :: _ => true
  | _ :: _, [] => false
  | a :: as, b :: bs =>
    if a.toNat < b.toNat then true
    else if b.toNat < a.toNat then false
    else charListLt as bs

def strLtb (a b : String) : Bool := charListLt a.data b.data

def strLeb (a b : String) : Bool := !strLtb b a

/-- Insertion of one key/value pair into a key-sorted association list. -/
def insPair (x : String × α) : List (String × α) → List (String × α)
  | [] => [x]
  | y :: ys => if strLeb x.1 y.1 then x :: y :: ys else y :: insPair x ys

/-- Key-sorting of an association list (insertion sort, a model of the
`sort_keys=True` behaviour of `json.dump`). -/
def sortPairs : List (String × α) → List (String × α)
  | [] => []
  | x :: xs => insPair x (sortPairs xs)

mutual

/-- `_MetaFile.save_to_json` serializes with
`json.dump(data, f, indent=4, sort_keys=True, cls=PESummaryJsonEncoder)`.
This function models the composite of that dump and a subsequent
`json.load`: the value a reader sees after a JSON round trip.  Native
`None`/`bool`/`int`/`float`/`str`/`list`/`dict` are handled by the base
encoder (object keys emitted in sorted order); every other type is passed
to `PESummaryJsonEncoder.default`
(`pesummary/core/file/meta_file.py`, lines 131-154):
`np.ndarray → obj.tolist()`, functions → `str(obj)`,
`np.integer → int(obj)`, `np.floating → float(obj)`,
`np.bool_ → str(obj)` (the strings `"True"`/`"False"`),
`type → str(obj)`; anything else falls through to
`json.JSONEncoder.default`, which raises `TypeError` (modelled as
`Option.none`).  Note that a *native* Python `bool` never reaches the
`default` hook: the base encoder serializes it as a JSON boolean. -/
def jsonDump : PyVal → Option JSON
  | .none => some .null
  | .bool b => some (.bool b)
  | .num q => some (.num q)
  | .nan => some .nan
  | .str s => some (.str s)
  | .list xs =>
    match jsonDumpList xs with
    | some ys => some (.arr ys)
    | Option.none => Option.none
  | .dict kvs =>
    match jsonDumpKVs kvs with
    | some kvs2 => some (.obj (sortPairs kvs2))
    | Option.none => Option.none
  | .ndarray xs =>
    match jsonDumpList xs with
    | some ys => some (.arr ys)
    | Option.none => Option.none
  | .npbool b => some (.str (if b then "True" else "False"))
  | .npint n => some (.num n)
  | .npfloat q => some (.num q)
  | .pyfunc s => some (.str s)
  | .pyclass s => some (.str s)
  | .unserializable => Option.none
termination_by structural a => a

def jsonDumpList : List PyVal → Option (List JSON)
  | [] => some []
  | x :: xs =>
    match jsonDump x, jsonDumpList xs with
    | some a, some b => some (a :: b)
    | _, _ => Option.none
termination_by structural a => a

def jsonDumpKVs : List (String × PyVal) → Option (List (String × JSON))
  | [] => some []
  | (k, v) :: rest =>
    match jsonDump v, jsonDumpKVs rest with
    | some a, some b => some ((k, a) :: b)
    | _, _ => Option.none
termination_by structural a => a

end

/-- C9.  The claim asserts that every boolean metadata value — a native
Python `bool` as well as a numpy bool — is serialized by the JSON codec
as the string `"True"`/`"False"`.  Counterexample: a native Python `True`
is serialized by the base encoder as the JSON boolean `true` (the
`default` hook of `PESummaryJsonEncoder` is only invoked for objects the
base encoder cannot handle), so it round-trips as a boolean, not as a
string. -/
theorem C9_counterexample :
    jsonDump (PyVal.dict [("x", PyVal.bool true)])
        = some (JSON.obj [("x", JSON.bool true)]) ∧
      JSON.bool true ≠ JSON.str "True" := by
  constructor
  · rfl
  · decide

/-- C9 (amended).  Only numpy booleans are serialized as the strings
`"True"`/`"False"` (and hence re-read as strings): they are the boolean
values that reach `PESummaryJsonEncoder.default`.  A native Python bool
is serialized natively as a JSON boolean and round-trips as a boolean. -/
theorem C9_amended_npbool_serializes_as_string (b : Bool) :
    jsonDump (PyVal.npbool b)
        = some (JSON.str (if b then "True" else "False")) ∧
      jsonDump (PyVal.bool b) = some (JSON.bool b) := by
  constructor <;> rfl

/-! ## Derived-column expansion (`LALInference._grab_data_from_lalinference_file`) -/

/-- A numeric sample value of the legacy sampler-native reader, kept
symbolic: `exp`/`arccos` are the numpy calls applied by the expansion.
Symbolic terms keep the embedding executable without a model of real
transcendental functions; equality of columns is what the claim is
about. -/
inductive RVal where
  | num (q : ℚ)
  | exp (x : RVal)
  | arccos (x : RVal)
  deriving DecidableEq, Repr

/-- The derived-column expansion of
`LALInference._grab_data_from_lalinference_file`
(`pesummary/gw/file/formats/lalinference.py`, lines 142-151): if
`logdistance` is among the parameter names, append a
`luminosity_distance` column holding `np.exp` of the `logdistance`
column; if `costheta_jn` is among the names, append a `theta_jn` column
holding `np.arccos` of the `costheta_jn` column.  `list.index` returns
the index of the first occurrence, and the second block indexes into the
names list already extended by the first.  (The subsequent spin-angle
block of the same function, lines 152-167, is a separate expansion and is
not modelled here.)  Out-of-range row access, which would raise
`IndexError` in Python, is modelled with a default; theorems only use
well-formed rows. -/
def expand_derived_columns (names : List String) (samples : List (List RVal)) :
    List String × List (List RVal) :=
  let step1 :=
    if "logdistance" ∈ names then
      let names1 := names ++ ["luminosity_distance"]
      (names1, samples.map (fun i =>
        i ++ [RVal.exp (i.getD (names1.indexOf "logdistance") (RVal.num 0))]))
    else (names, samples)
  if "costheta_jn" ∈ step1.1 then
    let names2 := step1.1 ++ ["theta_jn"]
    (names2, step1.2.map (fun i =>
      i ++ [RVal.arccos (i.getD (names2.indexOf "costheta_jn") (RVal.num 0))]))
  else step1

/-- C7.  The claim asserts the expansion is idempotent: applied to data
that already contains the derived columns it adds no duplicate columns.
Counterexample: the expansion triggers on the *presence of the source
column* (`logdistance`), not on the absence of the derived one, so
re-applying it to already-expanded data (which still carries
`logdistance`) appends a second `luminosity_distance` column. -/
theorem C7_counterexample :
    (expand_derived_columns
        (expand_derived_columns ["logdistance"] [[RVal.num 1]]).1
        (expand_derived_columns ["logdistance"] [[RVal.num 1]]).2).1
      = ["logdistance", "luminosity_distance", "luminosity_distance"] ∧
    ¬ List.Nodup
        (expand_derived_columns
          (expand_derived_columns ["logdistance"] [[RVal.num 1]]).1
          (expand_derived_columns ["logdistance"] [[RVal.num 1]]).2).1 := by
  constructor
  · rfl
  · decide

/-- C7 (amended).  The expansion is deterministic (a pure function of the
parameter list and sample rows), and whenever `logdistance` is present it
appends a `luminosity_distance` column — unconditionally, so it is *not*
idempotent: a second application appends a duplicate column (the
`luminosity_distance` count grows by two across two applications). -/
theorem C7_amended_not_idempotent (names : List String)
    (samples : List (List RVal))
    (h1 : "logdistance" ∈ names) (h2 : "costheta_jn" ∉ names) :
    (expand_derived_columns names samples).1
        = names ++ ["luminosity_distance"] ∧
      List.count "luminosity_distance"
          (expand_derived_columns
            (expand_derived_columns names samples).1
            (expand_derived_columns names samples).2).1
        = List.count "luminosity_distance" names + 2 := by
  have hlum : "costheta_jn" ∉ names ++ ["luminosity_distance"] := by
    intro h
    rcases List.mem_append.mp h with h | h
    · exact h2 h
    · simp at h
  have step1 : (expand_derived_columns names samples).1
      = names ++ ["luminosity_distance"] := by
    unfold expand_derived_columns
    rw [if_pos h1, if_neg hlum]
  refine ⟨step1, ?_⟩
  have h1b : "logdistance" ∈ names ++ ["luminosity_distance"] :=
    List.mem_append.mpr (Or.inl h1)
  have hlum2 : "costheta_jn"
      ∉ (names ++ ["luminosity_distance"]) ++ ["luminosity_distance"] := by
    intro h
    rcases List.mem_append.mp h with h | h
    · exact hlum h
    · simp at h
  have step2 : (expand_derived_columns
      (expand_derived_columns names samples).1
      (expand_derived_columns names samples).2).1
      = (names ++ ["luminosity_distance"]) ++ ["luminosity_distance"] := by
    rw [step1]
    unfold expand_derived_columns
    rw [if_pos h1b, if_neg hlum2]
  rw [step2]
  simp [List.count_append, List.count_singleton]

/-- Witness for `C7_amended_not_idempotent` at a concrete input. -/
theorem C7_amended_not_idempotent_witness :
    (expand_derived_columns ["logdistance"] [[RVal.num 1]]).1
        = ["logdistance"] ++ ["luminosity_distance"] ∧
      List.count "luminosity_distance"
          (expand_derived_columns
            (expand_derived_columns ["logdistance"] [[RVal.num 1]]).1
            (expand_derived_columns ["logdistance"] [[RVal.num 1]]).2).1
        = List.count "luminosity_distance" ["logdistance"] + 2 :=
  C7_amended_not_idempotent ["logdistance"] [[RVal.num 1]]
    (by decide) (by decide)

/-! ## Serializer commit behaviour (`save_to_json`) -/

/-- A file-system operation performed by the serializer.  `rename` is in
the vocabulary so that its absence from a serializer's trace can be
stated. -/
inductive FsOp where
  | openWrite (path : String)
  | writeDoc (path : String) (doc : JSON)
  | closeFile (path : String)
  | rename (src dst : String)
  deriving DecidableEq

/-- Contents of a file on disk: a completely written JSON document, or
the truncated/partially-written state left behind when a write was
interrupted. -/
inductive FileContent where
  | full (doc : JSON)
  | halfWritten
  deriving DecidableEq

/-- The file system: a mapping from paths to file contents. -/
def FS := List (String × FileContent)

def FsOp.isRename : FsOp → Bool
  | .rename _ _ => true
  | _ => false

def applyFsOp (fs : FS) : FsOp → FS
  | .openWrite p => pyAssign fs p .halfWritten
  | .writeDoc p doc => pyAssign fs p (.full doc)
  | .closeFile _ => fs
  | .rename src dst =>
    match List.lookup src fs with
    | some c => pyAssign (fs.filter (fun kv => kv.1 ≠ src)) dst c
    | Option.none => fs

def runFsOps (fs : FS) (ops : List FsOp) : FS := ops.foldl applyFsOp fs

/-- `_MetaFile.save_to_json` (`pesummary/core/file/meta_file.py`, lines
384-392): `with open(meta_file, "w") as f: json.dump(data, f, indent=4,
sort_keys=True, cls=PESummaryJsonEncoder)`.  The `open(meta_file, "w")`
creates/truncates the *final* metafile path directly; `json.dump` streams
into it.  If the encoder raises (an unserializable value), the context
manager closes the file — leaving whatever prefix was flushed — and the
exception propagates.  The result is the trace of file-system operations
together with the propagated exception, if any. -/
def save_to_json (data : PyVal) (meta_file : String) :
    List FsOp × Option String :=
  match jsonDump data with
  | some doc =>
    ([.openWrite meta_file, .writeDoc meta_file doc, .closeFile meta_file],
      Option.none)
  | Option.none =>
    ([.openWrite meta_file, .closeFile meta_file], some "TypeError")

theorem lookup_pyAssign_self (kvs : List (String × α)) (k : String) (v : α) :
    List.lookup k (pyAssign kvs k v) = some v := by
  induction kvs with
  | nil => simp [pyAssign, List.lookup]
  | cons hd tl ih =>
    obtain ⟨k1, v1⟩ := hd
    by_cases h : k1 = k
    · subst h
      simp [pyAssign, List.lookup]
    · have hb : (k == k1) = false := by
        simp [Ne.symm h]
      simp [pyAssign, h, List.lookup, ih, hb]

/-- C8.  The claim asserts that on any serialization failure no partial
aggregate file is left committed at the output path, the serializer
writing to a temporary path and renaming on success.  Counterexample:
`save_to_json` opens the final metafile path directly; when the encoder
fails on an unserializable value the exception propagates, the trace
performs no rename at all, and a partially-written file remains committed
at the output path. -/
theorem C8_counterexample :
    (save_to_json (PyVal.dict [("meta_data", PyVal.unserializable)])
        "samples/posterior_samples.json").2 = some "TypeError" ∧
      ((save_to_json (PyVal.dict [("meta_data", PyVal.unserializable)])
          "samples/posterior_samples.json").1.all
        (fun op => !op.isRename)) = true ∧
      List.lookup "samples/posterior_samples.json"
          (runFsOps []
            (save_to_json (PyVal.dict [("meta_data", PyVal.unserializable)])
              "samples/posterior_samples.json").1)
        = some FileContent.halfWritten := by
  refine ⟨rfl, rfl, rfl⟩

/-- C8 (amended).  `save_to_json` writes directly to the final metafile
path: its trace never contains a rename; on encoder failure the exception
propagates and the output path is left holding a partially-written file;
on success the output path holds the complete document.  (The HDF5
serializer `save_to_hdf5` likewise opens `h5py.File(meta_file, "w")`
directly.) -/
theorem C8_amended_direct_write (data : PyVal) (path : String) (fs : FS) :
    ((save_to_json data path).1.all (fun op => !op.isRename)) = true ∧
      (jsonDump data = Option.none →
        (save_to_json data path).2.isSome = true ∧
          List.lookup path (runFsOps fs (save_to_json data path).1)
            = some FileContent.halfWritten) ∧
      (∀ doc, jsonDump data = some doc →
        (save_to_json data path).2 = Option.none ∧
          List.lookup path (runFsOps fs (save_to_json data path).1)
            = some (FileContent.full doc)) := by
  refine ⟨?_, ?_, ?_⟩
  · unfold save_to_json
    cases jsonDump data <;> rfl
  · intro h
    unfold save_to_json
    rw [h]
    refine ⟨rfl, ?_⟩
    simp [runFsOps, applyFsOp, lookup_pyAssign_self]
  · intro doc h
    unfold save_to_json
    rw [h]
    refine ⟨rfl, ?_⟩
    simp [runFsOps, applyFsOp, lookup_pyAssign_self]

/-- Witness for `C8_amended_direct_write`: the failure clause at a
concrete unserializable input. -/
theorem C8_amended_direct_write_witness :
    (save_to_json (PyVal.dict [("meta_data", PyVal.unserializable)])
        "out/posterior_samples.json").2.isSome = true ∧
      List.lookup "out/posterior_samples.json"
          (runFsOps []
            (save_to_json (PyVal.dict [("meta_data", PyVal.unserializable)])
              "out/posterior_samples.json").1)
        = some FileContent.halfWritten :=
  (C8_amended_direct_write
    (PyVal.dict [("meta_data", PyVal.unserializable)])
    "out/posterior_samples.json" []).2.1 rfl

/-! ## Format detection and dispatch (`pesummary/core/file/read.py`) -/

/-- A Python exception, split into `ImportError` (handled specially by
`_read`) and everything else. -/
inductive PyErr where
  | importError (msg : String)
  | err (msg : String)
  deriving DecidableEq, Repr

/-- A candidate input file as the detection layer observes it: its
lowercase extension (`Read.extension_from_path`), and the outcome of
parsing it with `json.load` respectively opening it as an HDF5 container
(both abstracted to the same decoded tree). -/
structure ResultFile where
  ext : String
  jsonLoad : Except PyErr JSON
  hdfLoad : Except PyErr JSON

/-- Substring test on character lists (Python's `needle in hay`). -/
def charsContain (hay needle : List Char) : Bool :=
  if needle.isPrefixOf hay then true
  else
    match hay with
    | [] => false
    | _ :: t => charsContain t needle

def strContains (hay needle : String) : Bool :=
  charsContain hay.data needle.data

/-- The body of the `try` block shared by the bilby signature checks:
`if "bilby" in data["version"]`.  A missing key (`KeyError`) or a value
that does not support `in` (`TypeError`) is caught and yields `False`;
a string value is a substring test, a list value a membership test. -/
def bilbyVersionValue : Option JSON → Bool
  | some (.str s) => strContains s "bilby"
  | some (.arr xs) => xs.contains (.str "bilby")
  | _ => false

/-- `is_bilby_json_file` (`read.py`, lines 42-59).  The `json.load` call
sits *outside* the `try`/`except`, so a parse failure propagates; the
version check is inside it. -/
def is_bilby_json_file (f : ResultFile) : Except PyErr Bool :=
  match f.jsonLoad with
  | .error e => .error e
  | .ok data =>
    .ok (match data with
         | .obj kvs => bilbyVersionValue (kvs.lookup "version")
         | _ => bilbyVersionValue Option.none)

/-- `is_bilby_hdf5_file` (`read.py`, lines 24-39): the whole body is
inside `try`/`except Exception`, so it never raises. -/
def is_bilby_hdf5_file (f : ResultFile) : Except PyErr Bool :=
  .ok (match f.hdfLoad with
       | .error _ => false
       | .ok data =>
         match data with
         | .obj kvs => bilbyVersionValue (kvs.lookup "version")
         | _ => bilbyVersionValue Option.none)

/-- `_check_pesummary_file` (`read.py`, lines 163-183): `f.keys()` on a
non-mapping raises (outside any handler); `"version"` must be a top-level
key and every other top-level entry must be a mapping with a
`posterior_samples` key (any exception inside the `all(...)` is caught
and yields `False`). -/
def _check_pesummary_file (data : JSON) : Except PyErr Bool :=
  match data with
  | .obj kvs =>
    if (keysOf kvs).contains "version" = false then .ok false
    else
      .ok (kvs.all (fun kv =>
        if kv.1 = "version" then true
        else
          match kv.2 with
          | .obj kvs2 => (keysOf kvs2).contains "posterior_samples"
          | _ => false))
  | _ => .error (.err "AttributeError")

/-- `_check_pesummary_file_deprecated` (`read.py`, lines 139-160):
a top-level `posterior_samples` mapping identifies the legacy layout. -/
def _check_pesummary_file_deprecated (data : JSON) : Except PyErr Bool :=
  match data with
  | .obj kvs =>
    if (keysOf kvs).contains "posterior_samples" then
      .ok (match kvs.lookup "posterior_samples" with
           | some (.obj _) => true
           | _ => false)
    else .ok false
  | _ => .error (.err "AttributeError")

/-- `_is_pesummary_json_file`/`is_pesummary_json_file` (`read.py`, lines
101-125): `json.load` outside any handler, then the structural check. -/
def is_pesummary_json_file (f : ResultFile) : Except PyErr Bool :=
  match f.jsonLoad with
  | .error e => .error e
  | .ok data => _check_pesummary_file data

def is_pesummary_json_file_deprecated (f : ResultFile) :
    Except PyErr Bool :=
  match f.jsonLoad with
  | .error e => .error e
  | .ok data => _check_pesummary_file_deprecated data

/-- `is_pesummary_hdf5_file` (`read.py`, lines 62-98): `h5py.File` is
opened outside any handler, then the same structural check. -/
def is_pesummary_hdf5_file (f : ResultFile) : Except PyErr Bool :=
  match f.hdfLoad with
  | .error e => .error e
  | .ok data => _check_pesummary_file data

def is_pesummary_hdf5_file_deprecated (f : ResultFile) :
    Except PyErr Bool :=
  match f.hdfLoad with
  | .error e => .error e
  | .ok data => _check_pesummary_file_deprecated data

/-- The `CORE_HDF5_LOAD` table (`read.py`, lines 186-190).  The loader
bodies (`Bilby.load_file`, `PESummary.load_file`, ...) live in modules
outside the embedded sources, so they are parameters. -/
def CORE_HDF5_LOAD (bilbyLoad pesummaryLoad pesummaryDeprecatedLoad :
    ResultFile → Except PyErr α) :
    List ((ResultFile → Except PyErr Bool) × (ResultFile → Except PyErr α)) :=
  [(is_bilby_hdf5_file, bilbyLoad),
   (is_pesummary_hdf5_file, pesummaryLoad),
   (is_pesummary_hdf5_file_deprecated, pesummaryDeprecatedLoad)]

/-- The `CORE_JSON_LOAD` table (`read.py`, lines 192-196). -/
def CORE_JSON_LOAD (bilbyLoad pesummaryLoad pesummaryDeprecatedLoad :
    ResultFile → Except PyErr α) :
    List ((ResultFile → Except PyErr Bool) × (ResultFile → Except PyErr α)) :=
  [(is_bilby_json_file, bilbyLoad),
   (is_pesummary_json_file, pesummaryLoad),
   (is_pesummary_json_file_deprecated, pesummaryDeprecatedLoad)]

/-- `_read` (`read.py`, lines 203-231): iterate the `(check, load)`
pairs; a check that raises propagates (its call is not inside the `try`);
a matched loader failing with `ImportError` falls straight back to the
default loader; any other loader failure logs and continues; exhaustion
falls back to the default loader. -/
def _read (f : ResultFile)
    (load_options :
      List ((ResultFile → Except PyErr Bool) × (ResultFile → Except PyErr α)))
    (dflt : ResultFile → α) : Except PyErr α :=
  match load_options with
  | [] => .ok (dflt f)
  | (check, load) :: rest =>
    match check f with
    | .error e => .error e
    | .ok false => _read f rest dflt
    | .ok true =>
      match load f with
      | .ok r => .ok r
      | .error (.importError _) => .ok (dflt f)
      | .error (.err _) => _read f rest dflt

/-- `read` (`read.py`, lines 234-253): dispatch on the extension.
(Named `FileRead.read` because a bare `read` is ambiguous with a library
name.) -/
def FileRead.read (f : ResultFile)
    (HDF5_LOAD JSON_LOAD :
      List ((ResultFile → Except PyErr Bool) × (ResultFile → Except PyErr α)))
    (DEFAULT : ResultFile → α) : Except PyErr α :=
  if f.ext = "hdf5" ∨ f.ext = "h5" ∨ f.ext = "hdf" then
    _read f HDF5_LOAD DEFAULT
  else if f.ext = "json" then
    _read f JSON_LOAD DEFAULT
  else
    .ok (DEFAULT f)

/-- Modelled from the spec: the fallback/default loader
(`pesummary.core.file.formats.default.Default.load_file`, whose module is
not among the embedded sources).  Per §4.1 of the specification it "must
never raise for any bytes, reporting the data as opaque tabular draws if
nothing else matches"; it is therefore modelled as a total function. -/
inductive DefaultLoaded where
  | opaqueDraws (f : ResultFile)

def Default_load_file (f : ResultFile) : DefaultLoaded := .opaqueDraws f

/-- C6.  Format detection dispatches on the extension (`h5`/`hdf5`/`hdf`
to the HDF5 candidate table, `json` to the JSON candidate table, anything
else straight to the default loader); `_read` tries the `(predicate,
loader)` pairs in order, and whenever every predicate answers `False`, or
every matched loader fails (`ImportError` falls back immediately, any
other failure continues to the next candidate until exhaustion), the
result is exactly the unconditional default loader's — so as long as no
predicate itself raises, `read` never raises, whatever the loaders do. -/
theorem C6_dispatch_and_total_fallback {α : Type}
    (f : ResultFile)
    (bilbyH pesH pesDH bilbyJ pesJ pesDJ : ResultFile → Except PyErr α)
    (dflt : ResultFile → α) :
    ((f.ext = "hdf5" ∨ f.ext = "h5" ∨ f.ext = "hdf") →
        FileRead.read f (CORE_HDF5_LOAD bilbyH pesH pesDH)
            (CORE_JSON_LOAD bilbyJ pesJ pesDJ) dflt
          = _read f (CORE_HDF5_LOAD bilbyH pesH pesDH) dflt) ∧
      (¬ (f.ext = "hdf5" ∨ f.ext = "h5" ∨ f.ext = "hdf") → f.ext = "json" →
        FileRead.read f (CORE_HDF5_LOAD bilbyH pesH pesDH)
            (CORE_JSON_LOAD bilbyJ pesJ pesDJ) dflt
          = _read f (CORE_JSON_LOAD bilbyJ pesJ pesDJ) dflt) ∧
      (¬ (f.ext = "hdf5" ∨ f.ext = "h5" ∨ f.ext = "hdf") → f.ext ≠ "json" →
        FileRead.read f (CORE_HDF5_LOAD bilbyH pesH pesDH)
            (CORE_JSON_LOAD bilbyJ pesJ pesDJ) dflt
          = .ok (dflt f)) ∧
      (∀ opts : List ((ResultFile → Except PyErr Bool) ×
          (ResultFile → Except PyErr α)),
        (∀ p ∈ opts, p.1 f = .ok false) →
          _read f opts dflt = .ok (dflt f)) ∧
      (∀ opts : List ((ResultFile → Except PyErr Bool) ×
          (ResultFile → Except PyErr α)),
        (∀ p ∈ opts, ∃ b, p.1 f = .ok b) →
          ∃ r, _read f opts dflt = .ok r) ∧
      (∀ opts : List ((ResultFile → Except PyErr Bool) ×
          (ResultFile → Except PyErr α)),
        (∀ p ∈ opts, ∃ b, p.1 f = .ok b) →
        (∀ p ∈ opts, p.1 f = .ok true → ∃ e, p.2 f = .error e) →
          _read f opts dflt = .ok (dflt f)) := by
  refine ⟨?_, ?_, ?_, ?_, ?_, ?_⟩
  · intro h
    unfold FileRead.read
    rw [if_pos h]
  · intro h hj
    unfold FileRead.read
    rw [if_neg h, if_pos hj]
  · intro h hj
    unfold FileRead.read
    rw [if_neg h, if_neg hj]
  · intro opts hchecks
    induction opts with
    | nil => rfl
    | cons hd tl ih =>
      obtain ⟨check, load⟩ := hd
      have hc : check f = .ok false := hchecks (check, load) (by simp)
      unfold _read
      rw [hc]
      exact ih (fun p hp => hchecks p (List.mem_cons_of_mem _ hp))
  · intro opts hchecks
    induction opts with
    | nil => exact ⟨dflt f, rfl⟩
    | cons hd tl ih =>
      obtain ⟨check, load⟩ := hd
      obtain ⟨b, hb⟩ := hchecks (check, load) (by simp)
      have ihr := ih (fun p hp => hchecks p (List.mem_cons_of_mem _ hp))
      have hb2 : check f = Except.ok b := hb
      unfold _read
      rw [hb2]
      cases b with
      | false => exact ihr
      | true =>
        cases hload : load f with
        | ok r => exact ⟨r, rfl⟩
        | error e =>
          cases e with
          | importError m => exact ⟨dflt f, rfl⟩
          | err m => exact ihr
  · intro opts hchecks hfails
    induction opts with
    | nil => rfl
    | cons hd tl ih =>
      obtain ⟨check, load⟩ := hd
      obtain ⟨b, hb⟩ := hchecks (check, load) (by simp)
      have ihr := ih (fun p hp => hchecks p (List.mem_cons_of_mem _ hp))
        (fun p hp => hfails p (List.mem_cons_of_mem _ hp))
      have hb2 : check f = Except.ok b := hb
      unfold _read
      rw [hb2]
      cases b with
      | false => exact ihr
      | true =>
        obtain ⟨e, he⟩ := hfails (check, load) (by simp) hb2
        cases e with
        | importError m =>
          have he2 : load f = Except.error (.importError m) := he
          rw [he2]
        | err m =>
          have he2 : load f = Except.error (.err m) := he
          rw [he2]
          exact ihr

/-- A file every JSON-family predicate rejects. -/
def cPlainJsonFile : ResultFile :=
  { ext := "json", jsonLoad := .ok (.obj []), hdfLoad := .ok .null }

/-- A loader that always fails (stands for a reader whose body rejects
the file). -/
def cFailingLoad : ResultFile → Except PyErr Nat :=
  fun _ => .error (.err "load failed")

def cDefaultLoad : ResultFile → Nat := fun _ => 7

/-- A `json`-extension file that the bilby predicate matches (its
`version` contains `bilby`). -/
def cBilbyJsonFile : ResultFile :=
  { ext := "json", jsonLoad := .ok (.obj [("version", .str "bilby")]),
    hdfLoad := .ok .null }

/-- Witness for `C6_dispatch_and_total_fallback`: a `json`-extension file
that no predicate matches is read by the unconditional default loader,
and so is one whose matched loaders all fail. -/
theorem C6_dispatch_and_total_fallback_witness :
    (FileRead.read cPlainJsonFile
        (CORE_HDF5_LOAD cFailingLoad cFailingLoad cFailingLoad)
        (CORE_JSON_LOAD cFailingLoad cFailingLoad cFailingLoad)
        cDefaultLoad
      = .ok 7) ∧
    (FileRead.read cBilbyJsonFile
        (CORE_HDF5_LOAD cFailingLoad cFailingLoad cFailingLoad)
        (CORE_JSON_LOAD cFailingLoad cFailingLoad cFailingLoad)
        cDefaultLoad
      = .ok 7) := by
  constructor
  · have h := C6_dispatch_and_total_fallback cPlainJsonFile
      cFailingLoad cFailingLoad cFailingLoad
      cFailingLoad cFailingLoad cFailingLoad cDefaultLoad
    have h2 := h.2.1 (by decide) rfl
    have h4 := h.2.2.2.1
      (CORE_JSON_LOAD cFailingLoad cFailingLoad cFailingLoad)
      (by
        intro p hp
        rcases List.mem_cons.mp hp with h | hp
        · subst h
          rfl
        · rcases List.mem_cons.mp hp with h | hp
          · subst h
            rfl
          · rcases List.mem_cons.mp hp with h | hp
            · subst h
              rfl
            · simp at hp)
    rw [h2, h4]
    rfl
  · have h := C6_dispatch_and_total_fallback cBilbyJsonFile
      cFailingLoad cFailingLoad cFailingLoad
      cFailingLoad cFailingLoad cFailingLoad cDefaultLoad
    have h2 := h.2.1 (by decide) rfl
    have h6 := h.2.2.2.2.2
      (CORE_JSON_LOAD cFailingLoad cFailingLoad cFailingLoad)
      (by
        intro p hp
        rcases List.mem_cons.mp hp with h | hp
        · subst h
          exact ⟨true, rfl⟩
        · rcases List.mem_cons.mp hp with h | hp
          · subst h
            exact ⟨true, rfl⟩
          · rcases List.mem_cons.mp hp with h | hp
            · subst h
              exact ⟨false, rfl⟩
            · simp at hp)
      (by
        intro p hp _
        rcases List.mem_cons.mp hp with h | hp
        · subst h
          exact ⟨.err "load failed", rfl⟩
        · rcases List.mem_cons.mp hp with h | hp
          · subst h
            exact ⟨.err "load failed", rfl⟩
          · rcases List.mem_cons.mp hp with h | hp
            · subst h
              exact ⟨.err "load failed", rfl⟩
            · simp at hp)
    rw [h2, h6]
    rfl

/-- C10.  For a path with extension `json` whose contents are not valid
JSON, the detection predicates themselves raise — `is_bilby_json_file`
calls `json.load` outside any exception handler — so `read` propagates
the parse error instead of falling back to the default loader: detection
for the JSON family is not total. -/
theorem C10_invalid_json_raises {α : Type}
    (f : ResultFile) (e : PyErr)
    (bilbyH pesH pesDH bilbyJ pesJ pesDJ : ResultFile → Except PyErr α)
    (dflt : ResultFile → α)
    (hext : f.ext = "json") (hjson : f.jsonLoad = .error e) :
    FileRead.read f (CORE_HDF5_LOAD bilbyH pesH pesDH)
        (CORE_JSON_LOAD bilbyJ pesJ pesDJ) dflt
      = .error e := by
  unfold FileRead.read
  rw [hext]
  rw [if_neg (by decide), if_pos rfl]
  show _read f (CORE_JSON_LOAD bilbyJ pesJ pesDJ) dflt = .error e
  unfold CORE_JSON_LOAD _read
  have hc : is_bilby_json_file f = .error e := by
    unfold is_bilby_json_file
    rw [hjson]
  rw [hc]

/-- Witness for `C10_invalid_json_raises`: a concrete malformed-JSON
file. -/
theorem C10_invalid_json_raises_witness :
    FileRead.read (ResultFile.mk "json" (.error (.err "JSONDecodeError"))
          (.ok .null))
        (CORE_HDF5_LOAD cFailingLoad cFailingLoad cFailingLoad)
        (CORE_JSON_LOAD cFailingLoad cFailingLoad cFailingLoad)
        cDefaultLoad
      = .error (.err "JSONDecodeError") :=
  C10_invalid_json_raises
    (ResultFile.mk "json" (.error (.err "JSONDecodeError")) (.ok .null))
    (.err "JSONDecodeError")
    cFailingLoad cFailingLoad cFailingLoad
    cFailingLoad cFailingLoad cFailingLoad
    cDefaultLoad rfl rfl

/-! ## GW metafile builder (`pesummary/gw/file/meta_file.py`) -/

/-- Python truthiness (`if x:`) for the embedded values.  A numpy array
of more than one element would raise in Python; the values gated on
truthiness in the embedded flows are `None`, dicts, lists and strings. -/
def pyTruthy : PyVal → Bool
  | .none => false
  | .bool b => b
  | .npbool b => b
  | .num q => q ≠ 0
  | .npint n => n ≠ 0
  | .npfloat q => q ≠ 0
  | .nan => true
  | .str s => s ≠ ""
  | .list xs => !xs.isEmpty
  | .ndarray xs => !xs.isEmpty
  | .dict kvs => !kvs.isEmpty
  | .pyfunc _ => true
  | .pyclass _ => true
  | .unserializable => true

def asDictKVs : Option PyVal → List (String × PyVal)
  | some (.dict kvs) => kvs
  | _ => []

def asList : PyVal → List PyVal
  | .list xs => xs
  | .ndarray xs => xs
  | _ => []

def asStr : PyVal → String
  | .str s => s
  | _ => ""

/-- Python `list(x)`: identity contents for a list/array, the key list
for a dict. -/
def pyListOf : PyVal → PyVal
  | .list xs => .list xs
  | .ndarray xs => .list xs
  | .dict kvs => .list (kvs.map (fun kv => PyVal.str kv.1))
  | v => v

/-- `self.data[kind][label] = v` (the two-level dictionary assignment
used throughout `_add_data`; the flows modelled always create the `kind`
node first, a missing node is treated as empty). -/
def setIn2 (data : List (String × PyVal)) (kind label : String) (v : PyVal) :
    List (String × PyVal) :=
  pyAssign data kind
    (.dict (pyAssign (asDictKVs (data.lookup kind)) label v))

/-- `self.data[kind][label][key] = v` (used for per-detector PSD and
calibration entries). -/
def setIn3 (data : List (String × PyVal)) (kind label key : String)
    (v : PyVal) : List (String × PyVal) :=
  let node := asDictKVs (data.lookup kind)
  let sub := asDictKVs (node.lookup label)
  pyAssign data kind (.dict (pyAssign node label (.dict (pyAssign sub key v))))

/-- `GWMetaFile.convert_to_list` (`gw/file/meta_file.py`, lines
126-134): rows that are numpy arrays become lists; an element that is a
numpy array is replaced by `list(i)` — `i` being the whole *row*, as
written in the source. -/
def convert_to_list (data : PyVal) : PyVal :=
  match data with
  | .list rows =>
    .list (rows.map (fun i =>
      match i with
      | .ndarray xs =>
        .list (xs.map (fun j =>
          match j with
          | .ndarray _ => PyVal.list xs
          | _ => j))
      | .list xs =>
        .list (xs.map (fun j =>
          match j with
          | .ndarray _ => PyVal.list xs
          | _ => j))
      | v => v))
  | v => v

/-- `GWMetaFile._combine_psd_frequency_strain` (`gw/file/meta_file.py`,
lines 217-230). -/
def _combine_psd_frequency_strain (frequencies strains psd_labels : PyVal) :
    PyVal :=
  .dict ((List.range (asList frequencies).length).map (fun num =>
    (asStr ((asList psd_labels).getD num .none),
      .list (((asList ((asList frequencies).getD num .none)).zip
          (asList ((asList strains).getD num .none))).map
        (fun jk => PyVal.list [jk.1, jk.2])))))

/-- `GWMetaFile._combine_calibration_envelopes` (`gw/file/meta_file.py`,
lines 232-246): rows are truncated/selected to their first seven
entries. -/
def _combine_calibration_envelopes
    (calibration_envelopes calibration_labels : PyVal) : PyVal :=
  .dict ((List.range (asList calibration_envelopes).length).map (fun num =>
    (asStr ((asList calibration_labels).getD num .none),
      .list ((asList ((asList calibration_envelopes).getD num .none)).map
        (fun j =>
          .list ((List.range 7).map (fun k => (asList j).getD k .none)))))))

/-- Modelled from the spec: `self._add_label(key, label)` is defined on a
base class that is not among the embedded sources.  Per §4.3 (steps 3-4)
of the specification it creates the top-level node `key` if it is absent
and ensures an (empty) entry for `label` inside it, leaving any
pre-existing entry untouched. -/
def _add_label (data : List (String × PyVal)) (key label : String) :
    List (String × PyVal) :=
  let node := asDictKVs (data.lookup key)
  let node2 :=
    if (keysOf node).contains label then node
    else node ++ [(label, PyVal.dict [])]
  pyAssign data key (.dict node2)

/-- `GWMetaFile._add_data` (`gw/file/meta_file.py`, lines 272-315). -/
def _add_data (data : List (String × PyVal)) (label : String)
    (parameters samples injection version approximant psd calibration
      config pesummary_version meta_data : PyVal) :
    List (String × PyVal) :=
  let d := setIn2 data "posterior_samples" label
    (.dict [("parameter_names", pyListOf parameters),
            ("samples", convert_to_list samples)])
  let d := setIn2 d "injection_data" label
    (.dict [("injection_values", pyListOf injection)])
  let d := setIn2 d "version" label (.list [version])
  let d := setIn2 d "meta_data" label meta_data
  let d :=
    if pyTruthy psd then
      (asDictKVs (some psd)).foldl
        (fun acc kv => setIn3 acc "psds" label kv.1 kv.2) d
    else d
  let d :=
    if pyTruthy calibration then
      (asDictKVs (some calibration)).foldl
        (fun acc kv => setIn3 acc "calibration_envelope" label kv.1 kv.2) d
    else d
  let d := if pyTruthy config then setIn2 d "config_file" label config else d
  let d :=
    if pyTruthy approximant then setIn2 d "approximant" label approximant
    else d
  let d :=
    if pyTruthy pesummary_version then
      setIn2 d "version" "pesummary" (.list [pesummary_version])
    else d
  d

/-- One label of `GWMetaFile._make_dictionary_structure`
(`gw/file/meta_file.py`, lines 317-351): the mandatory nodes are always
given an entry; `psds` only when `psd` is truthy; `calibration_envelope`
when `calibration` is truthy *and* is a list with some truthy element, or
a dict; `config_file`/`approximant` whenever `config`/`approx` is truthy
— in particular a list all of whose entries are `None` is truthy. -/
def _make_dictionary_structure_step (psd approx calibration config : PyVal)
    (d : List (String × PyVal)) (i : String) : List (String × PyVal) :=
  let d := _add_label d "posterior_samples" i
  let d := _add_label d "injection_data" i
  let d := _add_label d "version" i
  let d := _add_label d "meta_data" i
  let d := if pyTruthy psd then _add_label d "psds" i else d
  let d :=
    if pyTruthy calibration then
      match calibration with
      | .list cs => if cs.any pyTruthy then _add_label d "calibration_envelope" i else d
      | .dict _ => _add_label d "calibration_envelope" i
      | _ => d
    else d
  let d := if pyTruthy config then _add_label d "config_file" i else d
  let d := if pyTruthy approx then _add_label d "approximant" i else d
  d

/-- `GWMetaFile._make_dictionary_structure` (`gw/file/meta_file.py`,
lines 317-351).  The `version` and `meta_data` arguments are accepted but
not used by the source, and are kept for fidelity. -/
def _make_dictionary_structure (data : List (String × PyVal))
    (label : List String)
    (version psd approx calibration config meta_data : PyVal) :
    List (String × PyVal) :=
  label.foldl (_make_dictionary_structure_step psd approx calibration config)
    data

/-- The existing-analysis side of `GWMetaFile._make_dictionary`: the
per-label state carried over from a previously serialized aggregate
(`self.existing_*`). -/
structure GWExistingData where
  label : List String
  parameters : List PyVal
  samples : List PyVal
  injection : List PyVal
  version : List PyVal
  approximant : List PyVal
  psd : PyVal
  calibration : PyVal
  config : PyVal
  metadata : List PyVal

/-- The new-analysis side of `GWMetaFile._make_dictionary`
(`self.labels`, `self.parameters`, ... as supplied by the input layer). -/
structure GWNewData where
  labels : List String
  parameters : List PyVal
  samples : List PyVal
  injection_data : List PyVal
  file_versions : List PyVal
  file_kwargs : List PyVal
  psds : PyVal
  psd_frequencies : List PyVal
  psd_strains : List PyVal
  psd_labels : List PyVal
  calibration_envelopes : List PyVal
  calibration_labels : List PyVal
  calibration : PyVal
  config : List PyVal
  approximant : PyVal

/-- One iteration of the existing-label loop of
`GWMetaFile._make_dictionary` (`gw/file/meta_file.py`, lines 165-176):
every existing label is re-added verbatim, with the *whole* existing
psd/calibration/config containers passed through. -/
def gwExistingStep (ex : GWExistingData) (d : List (String × PyVal))
    (num : ℕ) : List (String × PyVal) :=
  _add_data d (ex.label.getD num "")
    (ex.parameters.getD num .none)
    (ex.samples.getD num .none)
    (ex.injection.getD num .none)
    (ex.version.getD num .none)
    (ex.approximant.getD num .none)
    ex.psd ex.calibration ex.config
    .none
    (ex.metadata.getD num .none)

/-- One iteration of the new-label loop of `GWMetaFile._make_dictionary`
(`gw/file/meta_file.py`, lines 189-215).  The guard
`if i not in self.existing_label` silently skips a new record whose label
collides with an existing one.  `readConfig` stands for
`self._grab_config_data_from_data_file` (it opens an external
configuration file). -/
def gwNewStep (existingLabels : List String) (new : GWNewData)
    (pesummary_version : PyVal) (readConfig : PyVal → PyVal)
    (d : List (String × PyVal)) (num : ℕ) : List (String × PyVal) :=
  let i := new.labels.getD num ""
  if i ∈ existingLabels then d
  else
    let injection := PyVal.list
      ((asList (new.parameters.getD num .none)).map (fun p =>
        ((asDictKVs (some (new.injection_data.getD num .none))).lookup
            (asStr p)).getD .none))
    let psd :=
      if pyTruthy new.psds then
        _combine_psd_frequency_strain
          (new.psd_frequencies.getD num .none)
          (new.psd_strains.getD num .none)
          (new.psd_labels.getD num .none)
      else .none
    let calibration :=
      match new.calibration_envelopes.getD num .none with
      | .none => PyVal.none
      | env =>
        _combine_calibration_envelopes env
          (new.calibration_labels.getD num .none)
    let config :=
      if pyTruthy (.list new.config) ∧ num < new.config.length then
        readConfig (new.config.getD num .none)
      else .none
    let approximant :=
      if pyTruthy new.approximant then new.approximant
      else .list (List.replicate new.samples.length .none)
    _add_data d i
      (new.parameters.getD num .none)
      (new.samples.getD num .none)
      injection
      (new.file_versions.getD num .none)
      ((asList approximant).getD num .none)
      psd calibration config pesummary_version
      (new.file_kwargs.getD num .none)

/-- `GWMetaFile._make_dictionary` (`gw/file/meta_file.py`, lines
153-215), starting from `self.data = {}`: when an existing aggregate is
being merged, its labels are structured and re-added first; then the new
labels are structured, and each new label *not* present among the
existing labels is added (`if i not in self.existing_label`).  When no
existing aggregate is present `self.existing_label` is `[None]`, which no
string label matches, modelled as the empty list. -/
def gwMakeDictionary (existing : Option GWExistingData) (new : GWNewData)
    (pesummary_version : PyVal) (readConfig : PyVal → PyVal) :
    List (String × PyVal) :=
  let data : List (String × PyVal) := []
  let data :=
    match existing with
    | some ex =>
      let d := _make_dictionary_structure data ex.label
        (.list ex.version) ex.psd (.list ex.approximant) ex.calibration
        ex.config (.list ex.metadata)
      (List.range ex.label.length).foldl (gwExistingStep ex) d
    | Option.none => data
  let existingLabels :=
    match existing with
    | some ex => ex.label
    | Option.none => []
  let data := _make_dictionary_structure data new.labels
    (.list new.file_versions) new.psds new.approximant new.calibration
    (.list new.config) (.list new.file_kwargs)
  (List.range new.labels.length).foldl
    (gwNewStep existingLabels new pesummary_version readConfig) data

/-! ### Association-list and node lemmas -/

theorem lookup_pyAssign_other {α : Type} (kvs : List (String × α))
    (k k' : String) (v : α) (h : k ≠ k') :
    List.lookup k (pyAssign kvs k' v) = List.lookup k kvs := by
  induction kvs with
  | nil =>
    simp [pyAssign, List.lookup, beq_eq_false_iff_ne.mpr h]
  | cons hd tl ih =>
    obtain ⟨k1, v1⟩ := hd
    by_cases h1 : k1 = k'
    · subst h1
      simp [pyAssign, List.lookup, beq_eq_false_iff_ne.mpr h]
    · simp only [pyAssign, if_neg h1, List.lookup]
      by_cases h2 : k = k1
      · subst h2
        simp
      · simp [beq_eq_false_iff_ne.mpr h2, ih]

theorem keysOf_cons {α : Type} (a : String) (b : α)
    (l : List (String × α)) : keysOf ((a, b) :: l) = a :: keysOf l := rfl

theorem keysOf_append {α : Type} (l1 l2 : List (String × α)) :
    keysOf (l1 ++ l2) = keysOf l1 ++ keysOf l2 := by
  unfold keysOf
  exact List.map_append _ _ _

theorem keysOf_pyAssign {α : Type} (kvs : List (String × α)) (k : String)
    (v : α) :
    keysOf (pyAssign kvs k v)
      = if k ∈ keysOf kvs then keysOf kvs else keysOf kvs ++ [k] := by
  induction kvs with
  | nil => simp [pyAssign, keysOf]
  | cons hd tl ih =>
    obtain ⟨k1, v1⟩ := hd
    by_cases h1 : k1 = k
    · subst h1
      simp [pyAssign, keysOf]
    · have hne : ¬ k = k1 := fun h => h1 h.symm
      simp only [pyAssign, if_neg h1, keysOf_cons]
      by_cases h2 : k ∈ keysOf tl
      · rw [ih, if_pos h2, if_pos (List.mem_cons_of_mem _ h2)]
      · have hmem : ¬ k ∈ k1 :: keysOf tl := by
          intro hc
          rcases List.mem_cons.mp hc with hc | hc
          · exact hne hc
          · exact h2 hc
        rw [ih, if_neg h2, if_neg hmem]
        rfl

/-- Ordered no-duplicate insertion at the tail, the effect of a Python
dict assignment on the key list. -/
def insert1 (ks : List String) (l : String) : List String :=
  if l ∈ ks then ks else ks ++ [l]

def insertAll (ks : List String) (ls : List String) : List String :=
  ls.foldl insert1 ks

theorem insertAll_eq (ls : List String) :
    ∀ ks : List String, ls.Nodup →
      insertAll ks ls = ks ++ ls.filter (fun x => x ∉ ks) := by
  induction ls with
  | nil => intro ks _; simp [insertAll]
  | cons l rest ih =>
    intro ks hnd
    have hrest : rest.Nodup := hnd.of_cons
    have hl : l ∉ rest := (List.nodup_cons.mp hnd).1
    show insertAll (insert1 ks l) rest = _
    by_cases h : l ∈ ks
    · rw [show insert1 ks l = ks from if_pos h]
      rw [ih ks hrest]
      have : List.filter (fun x => decide (x ∉ ks)) (l :: rest)
          = List.filter (fun x => decide (x ∉ ks)) rest := by
        simp [List.filter, h]
      simp only [this]
    · rw [show insert1 ks l = ks ++ [l] from if_neg h]
      rw [ih (ks ++ [l]) hrest]
      have hfilter : List.filter (fun x => decide (x ∉ ks ++ [l])) rest
          = List.filter (fun x => decide (x ∉ ks)) rest := by
        apply List.filter_congr
        intro x hx
        have hxl : x ≠ l := fun hh => hl (hh ▸ hx)
        simp [List.mem_append, hxl]
      rw [hfilter]
      have : List.filter (fun x => decide (x ∉ ks)) (l :: rest)
          = l :: List.filter (fun x => decide (x ∉ ks)) rest := by
        simp [List.filter, h]
      rw [this]
      simp

theorem mem_insert1 (ks : List String) (l x : String) (h : x ∈ ks) :
    x ∈ insert1 ks l := by
  unfold insert1
  split
  · exact h
  · exact List.mem_append.mpr (Or.inl h)

theorem mem_insert1_self (ks : List String) (l : String) :
    l ∈ insert1 ks l := by
  unfold insert1
  split
  · assumption
  · simp

theorem mem_insertAll (ls : List String) :
    ∀ ks x, x ∈ ks → x ∈ insertAll ks ls := by
  induction ls with
  | nil => intro ks x h; exact h
  | cons l rest ih =>
    intro ks x h
    exact ih (insert1 ks l) x (mem_insert1 ks l x h)

theorem mem_insertAll_of_mem (ls : List String) :
    ∀ ks x, x ∈ ls → x ∈ insertAll ks ls := by
  induction ls with
  | nil => intro ks x h; simp at h
  | cons l rest ih =>
    intro ks x h
    rcases List.mem_cons.mp h with h | h
    · subst h
      exact mem_insertAll rest (insert1 ks x) x (mem_insert1_self ks x)
    · exact ih (insert1 ks l) x h

/-- The key list of the `kind` node of the builder's data dictionary. -/
def nodeKeys (d : List (String × PyVal)) (kind : String) : List String :=
  keysOf (asDictKVs (d.lookup kind))

/-- The entry of `label` inside the `kind` node. -/
def nodeVal (d : List (String × PyVal)) (kind label : String) :
    Option PyVal :=
  (asDictKVs (d.lookup kind)).lookup label

theorem nodeKeys_setIn2_self (d : List (String × PyVal))
    (kind label : String) (v : PyVal) :
    nodeKeys (setIn2 d kind label v) kind
      = insert1 (nodeKeys d kind) label := by
  unfold nodeKeys setIn2 insert1
  rw [lookup_pyAssign_self]
  simp only [asDictKVs]
  rw [keysOf_pyAssign]

theorem nodeKeys_setIn2_other (d : List (String × PyVal))
    (kind kind' label : String) (v : PyVal) (h : kind ≠ kind') :
    nodeKeys (setIn2 d kind' label v) kind = nodeKeys d kind := by
  unfold nodeKeys setIn2
  rw [lookup_pyAssign_other _ _ _ _ h]

theorem nodeVal_setIn2_self (d : List (String × PyVal))
    (kind label : String) (v : PyVal) :
    nodeVal (setIn2 d kind label v) kind label = some v := by
  unfold nodeVal setIn2
  rw [lookup_pyAssign_self]
  simp only [asDictKVs]
  rw [lookup_pyAssign_self]

theorem nodeVal_setIn2_other_label (d : List (String × PyVal))
    (kind label label' : String) (v : PyVal) (h : label ≠ label') :
    nodeVal (setIn2 d kind label' v) kind label = nodeVal d kind label := by
  unfold nodeVal setIn2
  rw [lookup_pyAssign_self]
  simp only [asDictKVs]
  rw [lookup_pyAssign_other _ _ _ _ h]

theorem nodeVal_setIn2_other_kind (d : List (String × PyVal))
    (kind kind' label label' : String) (v : PyVal) (h : kind ≠ kind') :
    nodeVal (setIn2 d kind' label' v) kind label = nodeVal d kind label := by
  unfold nodeVal setIn2
  rw [lookup_pyAssign_other _ _ _ _ h]

theorem nodeKeys_setIn3_other (d : List (String × PyVal))
    (kind kind' label key : String) (v : PyVal) (h : kind ≠ kind') :
    nodeKeys (setIn3 d kind' label key v) kind = nodeKeys d kind := by
  unfold nodeKeys setIn3
  rw [lookup_pyAssign_other _ _ _ _ h]

theorem nodeVal_setIn3_other (d : List (String × PyVal))
    (kind kind' label label' key : String) (v : PyVal) (h : kind ≠ kind') :
    nodeVal (setIn3 d kind' label' key v) kind label
      = nodeVal d kind label := by
  unfold nodeVal setIn3
  rw [lookup_pyAssign_other _ _ _ _ h]

theorem asDictKVs_some_dict (kvs : List (String × PyVal)) :
    asDictKVs (some (.dict kvs)) = kvs := rfl

theorem contains_iff_mem (l : List String) (x : String) :
    l.contains x = true ↔ x ∈ l := by
  induction l with
  | nil => simp
  | cons hd tl ih =>
    simp [List.contains] at ih ⊢

theorem lookup_append_single {α : Type} (node : List (String × α))
    (label label' : String) (v' : α) (h : label ≠ label') :
    List.lookup label (node ++ [(label', v')]) = List.lookup label node := by
  induction node with
  | nil => simp [List.lookup, beq_eq_false_iff_ne.mpr h]
  | cons hd tl ih =>
    obtain ⟨k1, v1⟩ := hd
    by_cases h1 : label = k1
    · subst h1
      simp [List.lookup]
    · simp [List.lookup, beq_eq_false_iff_ne.mpr h1, ih]

theorem lookup_append_of_mem {α : Type} (node : List (String × α))
    (label : String) (rest : List (String × α))
    (h : label ∈ keysOf node) :
    List.lookup label (node ++ rest) = List.lookup label node := by
  induction node with
  | nil => simp [keysOf] at h
  | cons hd tl ih =>
    obtain ⟨k1, v1⟩ := hd
    by_cases h1 : label = k1
    · subst h1
      simp [List.lookup]
    · have h2 : label ∈ keysOf tl := by
        rcases List.mem_cons.mp h with hc | hc
        · exact absurd hc h1
        · exact hc
      simp [List.lookup, beq_eq_false_iff_ne.mpr h1, ih h2]

theorem nodeKeys_add_label_self (d : List (String × PyVal))
    (key label : String) :
    nodeKeys (_add_label d key label) key
      = insert1 (nodeKeys d key) label := by
  unfold nodeKeys _add_label insert1
  rw [lookup_pyAssign_self, asDictKVs_some_dict]
  by_cases h : label ∈ keysOf (asDictKVs (d.lookup key))
  · rw [if_pos ((contains_iff_mem _ _).mpr h), if_pos h]
  · rw [if_neg (fun hc => h ((contains_iff_mem _ _).mp hc)), if_neg h]
    rw [keysOf_append]
    rfl

theorem nodeKeys_add_label_other (d : List (String × PyVal))
    (kind key label : String) (h : kind ≠ key) :
    nodeKeys (_add_label d key label) kind = nodeKeys d kind := by
  unfold nodeKeys _add_label
  rw [lookup_pyAssign_other _ _ _ _ h]

theorem nodeVal_add_label_pres (d : List (String × PyVal))
    (key label label' : String)
    (h : label ∈ nodeKeys d key ∨ label ≠ label') :
    nodeVal (_add_label d key label') key label = nodeVal d key label := by
  unfold nodeVal _add_label
  rw [lookup_pyAssign_self, asDictKVs_some_dict]
  by_cases hmem : label' ∈ keysOf (asDictKVs (d.lookup key))
  · rw [if_pos ((contains_iff_mem _ _).mpr hmem)]
  · rw [if_neg (fun hc => hmem ((contains_iff_mem _ _).mp hc))]
    rcases h with h | h
    · exact lookup_append_of_mem _ _ _ h
    · exact lookup_append_single _ _ _ _ h

theorem nodeVal_add_label_other (d : List (String × PyVal))
    (kind key label label' : String) (h : kind ≠ key) :
    nodeVal (_add_label d key label') kind label = nodeVal d kind label := by
  unfold nodeVal _add_label
  rw [lookup_pyAssign_other _ _ _ _ h]

/-! ### Preservation lemmas specialised to the `posterior_samples` node -/

theorem nk_ps_fold_setIn3 (kind' : String)
    (h : "posterior_samples" ≠ kind') (l : String)
    (kvs : List (String × PyVal)) :
    ∀ d, nodeKeys (kvs.foldl (fun acc kv => setIn3 acc kind' l kv.1 kv.2) d)
        "posterior_samples"
      = nodeKeys d "posterior_samples" := by
  induction kvs with
  | nil => intro d; rfl
  | cons hd tl ih =>
    intro d
    simp only [List.foldl_cons]
    rw [ih, nodeKeys_setIn3_other _ _ _ _ _ _ h]

theorem nk_ps_fold_setIn3_psds (l : String) (kvs : List (String × PyVal))
    (d : List (String × PyVal)) :
    nodeKeys (kvs.foldl (fun acc kv => setIn3 acc "psds" l kv.1 kv.2) d)
        "posterior_samples"
      = nodeKeys d "posterior_samples" :=
  nk_ps_fold_setIn3 _ (by decide) _ _ _

theorem nk_ps_fold_setIn3_cal (l : String) (kvs : List (String × PyVal))
    (d : List (String × PyVal)) :
    nodeKeys
        (kvs.foldl (fun acc kv => setIn3 acc "calibration_envelope" l kv.1 kv.2) d)
        "posterior_samples"
      = nodeKeys d "posterior_samples" :=
  nk_ps_fold_setIn3 _ (by decide) _ _ _

theorem nv_ps_fold_setIn3 (kind' : String)
    (h : "posterior_samples" ≠ kind') (l label : String)
    (kvs : List (String × PyVal)) :
    ∀ d, nodeVal (kvs.foldl (fun acc kv => setIn3 acc kind' l kv.1 kv.2) d)
        "posterior_samples" label
      = nodeVal d "posterior_samples" label := by
  induction kvs with
  | nil => intro d; rfl
  | cons hd tl ih =>
    intro d
    simp only [List.foldl_cons]
    rw [ih, nodeVal_setIn3_other _ _ _ _ _ _ _ h]

theorem nv_ps_fold_setIn3_psds (l label : String)
    (kvs : List (String × PyVal)) (d : List (String × PyVal)) :
    nodeVal (kvs.foldl (fun acc kv => setIn3 acc "psds" l kv.1 kv.2) d)
        "posterior_samples" label
      = nodeVal d "posterior_samples" label :=
  nv_ps_fold_setIn3 _ (by decide) _ _ _ _

theorem nv_ps_fold_setIn3_cal (l label : String)
    (kvs : List (String × PyVal)) (d : List (String × PyVal)) :
    nodeVal
        (kvs.foldl (fun acc kv => setIn3 acc "calibration_envelope" l kv.1 kv.2) d)
        "posterior_samples" label
      = nodeVal d "posterior_samples" label :=
  nv_ps_fold_setIn3 _ (by decide) _ _ _ _

theorem nk_ps_setIn2_injection (d : List (String × PyVal)) (l : String)
    (v : PyVal) :
    nodeKeys (setIn2 d "injection_data" l v) "posterior_samples"
      = nodeKeys d "posterior_samples" :=
  nodeKeys_setIn2_other _ _ _ _ _ (by decide)

theorem nk_ps_setIn2_version (d : List (String × PyVal)) (l : String)
    (v : PyVal) :
    nodeKeys (setIn2 d "version" l v) "posterior_samples"
      = nodeKeys d "posterior_samples" :=
  nodeKeys_setIn2_other _ _ _ _ _ (by decide)

theorem nk_ps_setIn2_meta (d : List (String × PyVal)) (l : String)
    (v : PyVal) :
    nodeKeys (setIn2 d "meta_data" l v) "posterior_samples"
      = nodeKeys d "posterior_samples" :=
  nodeKeys_setIn2_other _ _ _ _ _ (by decide)

theorem nk_ps_setIn2_config (d : List (String × PyVal)) (l : String)
    (v : PyVal) :
    nodeKeys (setIn2 d "config_file" l v) "posterior_samples"
      = nodeKeys d "posterior_samples" :=
  nodeKeys_setIn2_other _ _ _ _ _ (by decide)

theorem nk_ps_setIn2_approx (d : List (String × PyVal)) (l : String)
    (v : PyVal) :
    nodeKeys (setIn2 d "approximant" l v) "posterior_samples"
      = nodeKeys d "posterior_samples" :=
  nodeKeys_setIn2_other _ _ _ _ _ (by decide)

theorem nv_ps_setIn2_injection (d : List (String × PyVal)) (l label : String)
    (v : PyVal) :
    nodeVal (setIn2 d "injection_data" l v) "posterior_samples" label
      = nodeVal d "posterior_samples" label :=
  nodeVal_setIn2_other_kind _ _ _ _ _ _ (by decide)

theorem nv_ps_setIn2_version (d : List (String × PyVal)) (l label : String)
    (v : PyVal) :
    nodeVal (setIn2 d "version" l v) "posterior_samples" label
      = nodeVal d "posterior_samples" label :=
  nodeVal_setIn2_other_kind _ _ _ _ _ _ (by decide)

theorem nv_ps_setIn2_meta (d : List (String × PyVal)) (l label : String)
    (v : PyVal) :
    nodeVal (setIn2 d "meta_data" l v) "posterior_samples" label
      = nodeVal d "posterior_samples" label :=
  nodeVal_setIn2_other_kind _ _ _ _ _ _ (by decide)

theorem nv_ps_setIn2_config (d : List (String × PyVal)) (l label : String)
    (v : PyVal) :
    nodeVal (setIn2 d "config_file" l v) "posterior_samples" label
      = nodeVal d "posterior_samples" label :=
  nodeVal_setIn2_other_kind _ _ _ _ _ _ (by decide)

theorem nv_ps_setIn2_approx (d : List (String × PyVal)) (l label : String)
    (v : PyVal) :
    nodeVal (setIn2 d "approximant" l v) "posterior_samples" label
      = nodeVal d "posterior_samples" label :=
  nodeVal_setIn2_other_kind _ _ _ _ _ _ (by decide)

/-- `_add_data` gives `label` an entry in the `posterior_samples` node
(at the tail if new, in place if already present) and touches no other
entry of that node. -/
theorem nodeKeys_add_data_ps (d : List (String × PyVal)) (label : String)
    (parameters samples injection version approximant psd calibration
      config pesummary_version meta_data : PyVal) :
    nodeKeys (_add_data d label parameters samples injection version
        approximant psd calibration config pesummary_version meta_data)
        "posterior_samples"
      = insert1 (nodeKeys d "posterior_samples") label := by
  simp only [_add_data]
  repeat' split
  all_goals
    simp only [nk_ps_fold_setIn3_psds, nk_ps_fold_setIn3_cal,
      nk_ps_setIn2_injection, nk_ps_setIn2_version, nk_ps_setIn2_meta,
      nk_ps_setIn2_config, nk_ps_setIn2_approx]
  all_goals rw [nodeKeys_setIn2_self]

theorem nodeVal_add_data_ps_self (d : List (String × PyVal)) (label : String)
    (parameters samples injection version approximant psd calibration
      config pesummary_version meta_data : PyVal) :
    nodeVal (_add_data d label parameters samples injection version
        approximant psd calibration config pesummary_version meta_data)
        "posterior_samples" label
      = some (.dict [("parameter_names", pyListOf parameters),
          ("samples", convert_to_list samples)]) := by
  simp only [_add_data]
  repeat' split
  all_goals
    simp only [nv_ps_fold_setIn3_psds, nv_ps_fold_setIn3_cal,
      nv_ps_setIn2_injection, nv_ps_setIn2_version, nv_ps_setIn2_meta,
      nv_ps_setIn2_config, nv_ps_setIn2_approx]
  all_goals rw [nodeVal_setIn2_self]

theorem nodeVal_add_data_ps_other (d : List (String × PyVal))
    (label label' : String)
    (parameters samples injection version approximant psd calibration
      config pesummary_version meta_data : PyVal) (h : label ≠ label') :
    nodeVal (_add_data d label' parameters samples injection version
        approximant psd calibration config pesummary_version meta_data)
        "posterior_samples" label
      = nodeVal d "posterior_samples" label := by
  simp only [_add_data]
  repeat' split
  all_goals
    simp only [nv_ps_fold_setIn3_psds, nv_ps_fold_setIn3_cal,
      nv_ps_setIn2_injection, nv_ps_setIn2_version, nv_ps_setIn2_meta,
      nv_ps_setIn2_config, nv_ps_setIn2_approx]
  all_goals rw [nodeVal_setIn2_other_label _ _ _ _ _ h]

theorem nk_ps_add_label_injection (d : List (String × PyVal)) (l : String) :
    nodeKeys (_add_label d "injection_data" l) "posterior_samples"
      = nodeKeys d "posterior_samples" :=
  nodeKeys_add_label_other _ _ _ _ (by decide)

theorem nk_ps_add_label_version (d : List (String × PyVal)) (l : String) :
    nodeKeys (_add_label d "version" l) "posterior_samples"
      = nodeKeys d "posterior_samples" :=
  nodeKeys_add_label_other _ _ _ _ (by decide)

theorem nk_ps_add_label_meta (d : List (String × PyVal)) (l : String) :
    nodeKeys (_add_label d "meta_data" l) "posterior_samples"
      = nodeKeys d "posterior_samples" :=
  nodeKeys_add_label_other _ _ _ _ (by decide)

theorem nk_ps_add_label_psds (d : List (String × PyVal)) (l : String) :
    nodeKeys (_add_label d "psds" l) "posterior_samples"
      = nodeKeys d "posterior_samples" :=
  nodeKeys_add_label_other _ _ _ _ (by decide)

theorem nk_ps_add_label_cal (d : List (String × PyVal)) (l : String) :
    nodeKeys (_add_label d "calibration_envelope" l) "posterior_samples"
      = nodeKeys d "posterior_samples" :=
  nodeKeys_add_label_other _ _ _ _ (by decide)

theorem nk_ps_add_label_config (d : List (String × PyVal)) (l : String) :
    nodeKeys (_add_label d "config_file" l) "posterior_samples"
      = nodeKeys d "posterior_samples" :=
  nodeKeys_add_label_other _ _ _ _ (by decide)

theorem nk_ps_add_label_approx (d : List (String × PyVal)) (l : String) :
    nodeKeys (_add_label d "approximant" l) "posterior_samples"
      = nodeKeys d "posterior_samples" :=
  nodeKeys_add_label_other _ _ _ _ (by decide)

theorem nv_ps_add_label_injection (d : List (String × PyVal))
    (l label : String) :
    nodeVal (_add_label d "injection_data" l) "posterior_samples" label
      = nodeVal d "posterior_samples" label :=
  nodeVal_add_label_other _ _ _ _ _ (by decide)

theorem nv_ps_add_label_version (d : List (String × PyVal))
    (l label : String) :
    nodeVal (_add_label d "version" l) "posterior_samples" label
      = nodeVal d "posterior_samples" label :=
  nodeVal_add_label_other _ _ _ _ _ (by decide)

theorem nv_ps_add_label_meta (d : List (String × PyVal))
    (l label : String) :
    nodeVal (_add_label d "meta_data" l) "posterior_samples" label
      = nodeVal d "posterior_samples" label :=
  nodeVal_add_label_other _ _ _ _ _ (by decide)

theorem nv_ps_add_label_psds (d : List (String × PyVal))
    (l label : String) :
    nodeVal (_add_label d "psds" l) "posterior_samples" label
      = nodeVal d "posterior_samples" label :=
  nodeVal_add_label_other _ _ _ _ _ (by decide)

theorem nv_ps_add_label_cal (d : List (String × PyVal))
    (l label : String) :
    nodeVal (_add_label d "calibration_envelope" l) "posterior_samples" label
      = nodeVal d "posterior_samples" label :=
  nodeVal_add_label_other _ _ _ _ _ (by decide)

theorem nv_ps_add_label_config (d : List (String × PyVal))
    (l label : String) :
    nodeVal (_add_label d "config_file" l) "posterior_samples" label
      = nodeVal d "posterior_samples" label :=
  nodeVal_add_label_other _ _ _ _ _ (by decide)

theorem nv_ps_add_label_approx (d : List (String × PyVal))
    (l label : String) :
    nodeVal (_add_label d "approximant" l) "posterior_samples" label
      = nodeVal d "posterior_samples" label :=
  nodeVal_add_label_other _ _ _ _ _ (by decide)

theorem nodeKeys_structure_step_ps (psd approx calibration config : PyVal)
    (d : List (String × PyVal)) (i : String) :
    nodeKeys (_make_dictionary_structure_step psd approx calibration config d i)
        "posterior_samples"
      = insert1 (nodeKeys d "posterior_samples") i := by
  simp only [_make_dictionary_structure_step]
  repeat' split
  all_goals
    simp only [nk_ps_add_label_injection, nk_ps_add_label_version,
      nk_ps_add_label_meta, nk_ps_add_label_psds, nk_ps_add_label_cal,
      nk_ps_add_label_config, nk_ps_add_label_approx]
  all_goals rw [nodeKeys_add_label_self]

theorem nodeVal_structure_step_ps (psd approx calibration config : PyVal)
    (d : List (String × PyVal)) (i label : String)
    (h : label ∈ nodeKeys d "posterior_samples" ∨ label ≠ i) :
    nodeVal (_make_dictionary_structure_step psd approx calibration config d i)
        "posterior_samples" label
      = nodeVal d "posterior_samples" label := by
  simp only [_make_dictionary_structure_step]
  repeat' split
  all_goals
    simp only [nv_ps_add_label_injection, nv_ps_add_label_version,
      nv_ps_add_label_meta, nv_ps_add_label_psds, nv_ps_add_label_cal,
      nv_ps_add_label_config, nv_ps_add_label_approx]
  all_goals rw [nodeVal_add_label_pres _ _ _ _ h]

/-! ### Folding the structure and label loops -/

theorem getD_eq_get (l : List String) (n : ℕ) (h : n < l.length) :
    l.getD n "" = l.get ⟨n, h⟩ := by
  simp [List.getD, List.getElem?_eq_getElem h]

theorem getD_mem (l : List String) (n : ℕ) (h : n < l.length) :
    l.getD n "" ∈ l := by
  rw [getD_eq_get l n h]
  exact List.get_mem l n h

theorem nodup_getD_ne (l : List String) (hnd : l.Nodup) (i j : ℕ)
    (hi : i < l.length) (hj : j < l.length) (hij : i ≠ j) :
    l.getD i "" ≠ l.getD j "" := by
  rw [getD_eq_get l i hi, getD_eq_get l j hj]
  intro h
  have := (List.Nodup.get_inj_iff hnd).mp h
  exact hij (by simpa using this)

theorem insert1_mem (ks : List String) (l : String) (h : l ∈ ks) :
    insert1 ks l = ks := if_pos h

theorem range_foldl_succ {β : Type} (f : β → ℕ → β) (d : β) (n : ℕ) :
    (List.range (n + 1)).foldl f d = f ((List.range n).foldl f d) n := by
  rw [List.range_succ, List.foldl_append]
  rfl

theorem nodeKeys_structure_ps (labels : List String) :
    ∀ (d : List (String × PyVal)) (version psd approx calibration config
        meta_data : PyVal),
      nodeKeys (_make_dictionary_structure d labels version psd approx
          calibration config meta_data) "posterior_samples"
        = insertAll (nodeKeys d "posterior_samples") labels := by
  induction labels with
  | nil => intro d v p a c cf m; rfl
  | cons i rest ih =>
    intro d v p a c cf m
    show nodeKeys (List.foldl _ (_make_dictionary_structure_step p a c cf d i)
        rest) _ = _
    rw [show ∀ d0, List.foldl (_make_dictionary_structure_step p a c cf) d0 rest
        = _make_dictionary_structure d0 rest v p a c cf m from fun _ => rfl]
    rw [ih, nodeKeys_structure_step_ps]
    rfl

theorem nodeVal_structure_ps_pres (labels : List String) :
    ∀ (d : List (String × PyVal)) (version psd approx calibration config
        meta_data : PyVal) (label : String),
      label ∈ nodeKeys d "posterior_samples" →
      nodeVal (_make_dictionary_structure d labels version psd approx
          calibration config meta_data) "posterior_samples" label
        = nodeVal d "posterior_samples" label := by
  induction labels with
  | nil => intro d v p a c cf m label h; rfl
  | cons i rest ih =>
    intro d v p a c cf m label h
    show nodeVal (List.foldl _ (_make_dictionary_structure_step p a c cf d i)
        rest) _ _ = _
    rw [show ∀ d0, List.foldl (_make_dictionary_structure_step p a c cf) d0 rest
        = _make_dictionary_structure d0 rest v p a c cf m from fun _ => rfl]
    have hmem : label ∈ nodeKeys
        (_make_dictionary_structure_step p a c cf d i) "posterior_samples" := by
      rw [nodeKeys_structure_step_ps]
      exact mem_insert1 _ _ _ h
    rw [ih _ v p a c cf m label hmem, nodeVal_structure_step_ps _ _ _ _ _ _ _
      (Or.inl h)]

theorem nodeKeys_exLoop (ex : GWExistingData) (n : ℕ) :
    ∀ d, (∀ num, num < n → ex.label.getD num "" ∈ nodeKeys d "posterior_samples") →
      nodeKeys ((List.range n).foldl (gwExistingStep ex) d) "posterior_samples"
        = nodeKeys d "posterior_samples" := by
  induction n with
  | zero => intro d _; rfl
  | succ n ih =>
    intro d h
    rw [range_foldl_succ]
    rw [show ∀ d0, gwExistingStep ex d0 n = _add_data d0 (ex.label.getD n "")
        (ex.parameters.getD n .none) (ex.samples.getD n .none)
        (ex.injection.getD n .none) (ex.version.getD n .none)
        (ex.approximant.getD n .none) ex.psd ex.calibration ex.config
        .none (ex.metadata.getD n .none) from fun _ => rfl]
    rw [nodeKeys_add_data_ps]
    rw [ih d (fun num hnum => h num (Nat.lt_succ_of_lt hnum))]
    exact insert1_mem _ _ (h n (Nat.lt_succ_self n))

theorem nodeVal_exLoop_self (ex : GWExistingData) (hnd : ex.label.Nodup)
    (n : ℕ) (hn : n ≤ ex.label.length) :
    ∀ d num, num < n →
      nodeVal ((List.range n).foldl (gwExistingStep ex) d) "posterior_samples"
          (ex.label.getD num "")
        = some (.dict
            [("parameter_names", pyListOf (ex.parameters.getD num .none)),
             ("samples", convert_to_list (ex.samples.getD num .none))]) := by
  induction n with
  | zero => intro d num h; omega
  | succ n ih =>
    intro d num h
    rw [range_foldl_succ]
    rw [show ∀ d0, gwExistingStep ex d0 n = _add_data d0 (ex.label.getD n "")
        (ex.parameters.getD n .none) (ex.samples.getD n .none)
        (ex.injection.getD n .none) (ex.version.getD n .none)
        (ex.approximant.getD n .none) ex.psd ex.calibration ex.config
        .none (ex.metadata.getD n .none) from fun _ => rfl]
    by_cases hnum : num = n
    · subst hnum
      rw [nodeVal_add_data_ps_self]
    · have hne : ex.label.getD num "" ≠ ex.label.getD n "" :=
        nodup_getD_ne ex.label hnd num n (lt_of_lt_of_le h hn)
          (lt_of_lt_of_le (Nat.lt_succ_self n) hn) hnum
      rw [nodeVal_add_data_ps_other _ _ _ _ _ _ _ _ _ _ _ _ _ hne]
      exact ih (by omega) d num (by omega)

theorem nodeKeys_newLoop (eL : List String) (new : GWNewData)
    (pv : PyVal) (rc : PyVal → PyVal) (n : ℕ) :
    ∀ d, (∀ num, num < n →
        new.labels.getD num "" ∈ nodeKeys d "posterior_samples") →
      nodeKeys ((List.range n).foldl (gwNewStep eL new pv rc) d)
          "posterior_samples"
        = nodeKeys d "posterior_samples" := by
  induction n with
  | zero => intro d _; rfl
  | succ n ih =>
    intro d h
    rw [range_foldl_succ]
    have hih := ih d (fun num hnum => h num (Nat.lt_succ_of_lt hnum))
    by_cases hcol : new.labels.getD n "" ∈ eL
    · simp only [gwNewStep]
      rw [if_pos hcol]
      exact hih
    · simp only [gwNewStep]
      rw [if_neg hcol, nodeKeys_add_data_ps, hih]
      exact insert1_mem _ _ (h n (Nat.lt_succ_self n))

theorem nodeVal_newLoop_pres (eL : List String) (new : GWNewData)
    (pv : PyVal) (rc : PyVal → PyVal) (n : ℕ) (label : String)
    (hlab : label ∈ eL) :
    ∀ d, nodeVal ((List.range n).foldl (gwNewStep eL new pv rc) d)
        "posterior_samples" label
      = nodeVal d "posterior_samples" label := by
  induction n with
  | zero => intro d; rfl
  | succ n ih =>
    intro d
    rw [range_foldl_succ]
    have hih := ih d
    by_cases hcol : new.labels.getD n "" ∈ eL
    · simp only [gwNewStep]
      rw [if_pos hcol]
      exact hih
    · have hne : label ≠ new.labels.getD n "" := by
        intro hh
        exact hcol (hh ▸ hlab)
      simp only [gwNewStep]
      rw [if_neg hcol,
        nodeVal_add_data_ps_other _ _ _ _ _ _ _ _ _ _ _ _ _ hne, hih]

/-- C2.  The claim asserts that merging a new record whose label equals
an existing label raises a `DuplicateLabel` error and never silently
drops the new record.  Counterexample: `GWMetaFile._make_dictionary`
guards the new-label loop with `if i not in self.existing_label`, so a
colliding new record (here label `"example"` with samples `[[2]]`) is
silently skipped — no error of any kind is raised (the build is a total
function), the existing entry (samples `[[1]]`) is kept, and the new
record's data appears nowhere. -/
theorem C2_counterexample :
    nodeVal
        (gwMakeDictionary
          (some
            { label := ["example"], parameters := [.list [.str "a"]],
              samples := [.list [.list [.num 1]]],
              injection := [.list [.nan]], version := [.str "v1"],
              approximant := [.none], psd := .none, calibration := .none,
              config := .none, metadata := [.dict []] })
          { labels := ["example"], parameters := [.list [.str "a"]],
            samples := [.list [.list [.num 2]]],
            injection_data := [.dict [("a", .num 5)]],
            file_versions := [.str "v2"], file_kwargs := [.dict []],
            psds := .none, psd_frequencies := [], psd_strains := [],
            psd_labels := [], calibration_envelopes := [.none],
            calibration_labels := [.none], calibration := .none,
            config := [], approximant := .none }
          (.str "0.1.0") (fun _ => .dict []))
        "posterior_samples" "example"
      = some (.dict [("parameter_names", .list [.str "a"]),
          ("samples", .list [.list [.num 1]])]) ∧
    nodeKeys
        (gwMakeDictionary
          (some
            { label := ["example"], parameters := [.list [.str "a"]],
              samples := [.list [.list [.num 1]]],
              injection := [.list [.nan]], version := [.str "v1"],
              approximant := [.none], psd := .none, calibration := .none,
              config := .none, metadata := [.dict []] })
          { labels := ["example"], parameters := [.list [.str "a"]],
            samples := [.list [.list [.num 2]]],
            injection_data := [.dict [("a", .num 5)]],
            file_versions := [.str "v2"], file_kwargs := [.dict []],
            psds := .none, psd_frequencies := [], psd_strains := [],
            psd_labels := [], calibration_envelopes := [.none],
            calibration_labels := [.none], calibration := .none,
            config := [], approximant := .none }
          (.str "0.1.0") (fun _ => .dict []))
        "posterior_samples"
      = ["example"] ∧
    PyVal.list [.list [.num 1]] ≠ PyVal.list [.list [.num 2]] := by
  refine ⟨rfl, rfl, ?_⟩
  intro h
  simp at h

/-- C2 (amended).  The merge never raises: a new record whose label
collides with an existing label is silently skipped.  The
`posterior_samples` node of the built dictionary holds exactly the
existing labels followed by the genuinely new ones (collisions dropped),
hence no label appears twice, and every existing label keeps its own
(existing) data verbatim. -/
theorem C2_amended_silent_skip (ex : GWExistingData) (new : GWNewData)
    (pver : PyVal) (readConfig : PyVal → PyVal)
    (hE : ex.label.Nodup) (hN : new.labels.Nodup) :
    nodeKeys (gwMakeDictionary (some ex) new pver readConfig)
        "posterior_samples"
      = ex.label ++ new.labels.filter (fun l => l ∉ ex.label) ∧
    (nodeKeys (gwMakeDictionary (some ex) new pver readConfig)
        "posterior_samples").Nodup ∧
    (∀ num, num < ex.label.length →
      nodeVal (gwMakeDictionary (some ex) new pver readConfig)
          "posterior_samples" (ex.label.getD num "")
        = some (.dict
            [("parameter_names", pyListOf (ex.parameters.getD num .none)),
             ("samples", convert_to_list (ex.samples.getD num .none))])) := by
  have hD1keys : nodeKeys (_make_dictionary_structure [] ex.label
      (.list ex.version) ex.psd (.list ex.approximant) ex.calibration
      ex.config (.list ex.metadata)) "posterior_samples" = ex.label := by
    rw [nodeKeys_structure_ps]
    rw [show nodeKeys [] "posterior_samples" = [] from rfl]
    rw [insertAll_eq ex.label [] hE]
    simp
  have hD2keys : nodeKeys ((List.range ex.label.length).foldl
      (gwExistingStep ex)
      (_make_dictionary_structure [] ex.label (.list ex.version) ex.psd
        (.list ex.approximant) ex.calibration ex.config
        (.list ex.metadata))) "posterior_samples" = ex.label := by
    rw [nodeKeys_exLoop]
    · exact hD1keys
    · intro num hnum
      rw [hD1keys]
      exact getD_mem _ _ hnum
  have hD3keys : nodeKeys (_make_dictionary_structure
      ((List.range ex.label.length).foldl (gwExistingStep ex)
        (_make_dictionary_structure [] ex.label (.list ex.version) ex.psd
          (.list ex.approximant) ex.calibration ex.config
          (.list ex.metadata)))
      new.labels (.list new.file_versions) new.psds new.approximant
      new.calibration (.list new.config) (.list new.file_kwargs))
      "posterior_samples"
      = ex.label ++ new.labels.filter (fun l => l ∉ ex.label) := by
    rw [nodeKeys_structure_ps, hD2keys, insertAll_eq new.labels ex.label hN]
  have hResKeys : nodeKeys (gwMakeDictionary (some ex) new pver readConfig)
      "posterior_samples"
      = ex.label ++ new.labels.filter (fun l => l ∉ ex.label) := by
    simp only [gwMakeDictionary]
    rw [nodeKeys_newLoop]
    · exact hD3keys
    · intro num hnum
      rw [hD3keys]
      rcases Classical.em (new.labels.getD num "" ∈ ex.label) with h | h
      · exact List.mem_append.mpr (Or.inl h)
      · refine List.mem_append.mpr (Or.inr ?_)
        apply List.mem_filter.mpr
        exact ⟨getD_mem _ _ hnum, by simpa using h⟩
  refine ⟨hResKeys, ?_, ?_⟩
  · rw [hResKeys]
    refine List.Nodup.append hE (hN.filter _) ?_
    intro x hx hx2
    have := List.of_mem_filter hx2
    simp at this
    exact this hx
  · intro num hnum
    have hlab : ex.label.getD num "" ∈ ex.label := getD_mem _ _ hnum
    simp only [gwMakeDictionary]
    rw [nodeVal_newLoop_pres _ _ _ _ _ _ hlab]
    rw [nodeVal_structure_ps_pres _ _ _ _ _ _ _ _ _ (by
      rw [hD2keys]
      exact hlab)]
    exact nodeVal_exLoop_self ex hE ex.label.length (le_refl _) _ num hnum

/-- Witness for `C2_amended_silent_skip` at a concrete merge of one new
label into one existing label. -/
theorem C2_amended_silent_skip_witness :
    nodeKeys
        (gwMakeDictionary
          (some
            { label := ["example"], parameters := [.list [.str "a"]],
              samples := [.list [.list [.num 1]]],
              injection := [.list [.nan]], version := [.str "v1"],
              approximant := [.none], psd := .none, calibration := .none,
              config := .none, metadata := [.dict []] })
          { labels := ["run2"], parameters := [.list [.str "b"]],
            samples := [.list [.list [.num 3]]],
            injection_data := [.dict [("b", .num 5)]],
            file_versions := [.str "v2"], file_kwargs := [.dict []],
            psds := .none, psd_frequencies := [], psd_strains := [],
            psd_labels := [], calibration_envelopes := [.none],
            calibration_labels := [.none], calibration := .none,
            config := [], approximant := .none }
          (.str "0.1.0") (fun _ => .dict []))
        "posterior_samples"
      = ["example"] ++ ["run2"].filter (fun l => l ∉ ["example"]) :=
  (C2_amended_silent_skip
    { label := ["example"], parameters := [.list [.str "a"]],
      samples := [.list [.list [.num 1]]],
      injection := [.list [.nan]], version := [.str "v1"],
      approximant := [.none], psd := .none, calibration := .none,
      config := .none, metadata := [.dict []] }
    { labels := ["run2"], parameters := [.list [.str "b"]],
      samples := [.list [.list [.num 3]]],
      injection_data := [.dict [("b", .num 5)]],
      file_versions := [.str "v2"], file_kwargs := [.dict []],
      psds := .none, psd_frequencies := [], psd_strains := [],
      psd_labels := [], calibration_envelopes := [.none],
      calibration_labels := [.none], calibration := .none,
      config := [], approximant := .none }
    (.str "0.1.0") (fun _ => .dict [])
    (by decide) (by decide)).1

/-! ### Top-level node presence in the GW structure pass -/

theorem lookup_add_label_top_other (d : List (String × PyVal))
    (k key l : String) (h : k ≠ key) :
    List.lookup k (_add_label d key l) = List.lookup k d := by
  unfold _add_label
  exact lookup_pyAssign_other _ _ _ _ h

theorem lk_psds_add_label_ps (d : List (String × PyVal)) (l : String) :
    List.lookup "psds" (_add_label d "posterior_samples" l)
      = List.lookup "psds" d :=
  lookup_add_label_top_other _ _ _ _ (by decide)

theorem lk_psds_add_label_inj (d : List (String × PyVal)) (l : String) :
    List.lookup "psds" (_add_label d "injection_data" l)
      = List.lookup "psds" d :=
  lookup_add_label_top_other _ _ _ _ (by decide)

theorem lk_psds_add_label_ver (d : List (String × PyVal)) (l : String) :
    List.lookup "psds" (_add_label d "version" l)
      = List.lookup "psds" d :=
  lookup_add_label_top_other _ _ _ _ (by decide)

theorem lk_psds_add_label_meta (d : List (String × PyVal)) (l : String) :
    List.lookup "psds" (_add_label d "meta_data" l)
      = List.lookup "psds" d :=
  lookup_add_label_top_other _ _ _ _ (by decide)

theorem lk_psds_add_label_cal (d : List (String × PyVal)) (l : String) :
    List.lookup "psds" (_add_label d "calibration_envelope" l)
      = List.lookup "psds" d :=
  lookup_add_label_top_other _ _ _ _ (by decide)

theorem lk_psds_add_label_cfg (d : List (String × PyVal)) (l : String) :
    List.lookup "psds" (_add_label d "config_file" l)
      = List.lookup "psds" d :=
  lookup_add_label_top_other _ _ _ _ (by decide)

theorem lk_psds_add_label_approx (d : List (String × PyVal)) (l : String) :
    List.lookup "psds" (_add_label d "approximant" l)
      = List.lookup "psds" d :=
  lookup_add_label_top_other _ _ _ _ (by decide)

theorem lk_cal_add_label_ps (d : List (String × PyVal)) (l : String) :
    List.lookup "calibration_envelope" (_add_label d "posterior_samples" l)
      = List.lookup "calibration_envelope" d :=
  lookup_add_label_top_other _ _ _ _ (by decide)

theorem lk_cal_add_label_inj (d : List (String × PyVal)) (l : String) :
    List.lookup "calibration_envelope" (_add_label d "injection_data" l)
      = List.lookup "calibration_envelope" d :=
  lookup_add_label_top_other _ _ _ _ (by decide)

theorem lk_cal_add_label_ver (d : List (String × PyVal)) (l : String) :
    List.lookup "calibration_envelope" (_add_label d "version" l)
      = List.lookup "calibration_envelope" d :=
  lookup_add_label_top_other _ _ _ _ (by decide)

theorem lk_cal_add_label_meta (d : List (String × PyVal)) (l : String) :
    List.lookup "calibration_envelope" (_add_label d "meta_data" l)
      = List.lookup "calibration_envelope" d :=
  lookup_add_label_top_other _ _ _ _ (by decide)

theorem lk_cal_add_label_psds (d : List (String × PyVal)) (l : String) :
    List.lookup "calibration_envelope" (_add_label d "psds" l)
      = List.lookup "calibration_envelope" d :=
  lookup_add_label_top_other _ _ _ _ (by decide)

theorem lk_cal_add_label_cfg (d : List (String × PyVal)) (l : String) :
    List.lookup "calibration_envelope" (_add_label d "config_file" l)
      = List.lookup "calibration_envelope" d :=
  lookup_add_label_top_other _ _ _ _ (by decide)

theorem lk_cal_add_label_approx (d : List (String × PyVal)) (l : String) :
    List.lookup "calibration_envelope" (_add_label d "approximant" l)
      = List.lookup "calibration_envelope" d :=
  lookup_add_label_top_other _ _ _ _ (by decide)

theorem lk_cfg_add_label_ps (d : List (String × PyVal)) (l : String) :
    List.lookup "config_file" (_add_label d "posterior_samples" l)
      = List.lookup "config_file" d :=
  lookup_add_label_top_other _ _ _ _ (by decide)

theorem lk_cfg_add_label_inj (d : List (String × PyVal)) (l : String) :
    List.lookup "config_file" (_add_label d "injection_data" l)
      = List.lookup "config_file" d :=
  lookup_add_label_top_other _ _ _ _ (by decide)

theorem lk_cfg_add_label_ver (d : List (String × PyVal)) (l : String) :
    List.lookup "config_file" (_add_label d "version" l)
      = List.lookup "config_file" d :=
  lookup_add_label_top_other _ _ _ _ (by decide)

theorem lk_cfg_add_label_meta (d : List (String × PyVal)) (l : String) :
    List.lookup "config_file" (_add_label d "meta_data" l)
      = List.lookup "config_file" d :=
  lookup_add_label_top_other _ _ _ _ (by decide)

theorem lk_cfg_add_label_psds (d : List (String × PyVal)) (l : String) :
    List.lookup "config_file" (_add_label d "psds" l)
      = List.lookup "config_file" d :=
  lookup_add_label_top_other _ _ _ _ (by decide)

theorem lk_cfg_add_label_cal (d : List (String × PyVal)) (l : String) :
    List.lookup "config_file" (_add_label d "calibration_envelope" l)
      = List.lookup "config_file" d :=
  lookup_add_label_top_other _ _ _ _ (by decide)

theorem lk_cfg_add_label_approx (d : List (String × PyVal)) (l : String) :
    List.lookup "config_file" (_add_label d "approximant" l)
      = List.lookup "config_file" d :=
  lookup_add_label_top_other _ _ _ _ (by decide)

theorem lookup_psds_structure_step (psd approx calibration config : PyVal)
    (hpsd : pyTruthy psd = false)
    (hcal : pyTruthy calibration = false ∨
      ∃ cs, calibration = PyVal.list cs ∧ cs.any pyTruthy = false)
    (d : List (String × PyVal)) (i : String) :
    List.lookup "psds"
        (_make_dictionary_structure_step psd approx calibration config d i)
      = List.lookup "psds" d := by
  rcases hcal with hcalf | ⟨cs, hceq, hany⟩
  · simp only [_make_dictionary_structure_step, hpsd, hcalf,
      Bool.false_eq_true, if_false]
    repeat' split
    all_goals
      simp only [lk_psds_add_label_ps, lk_psds_add_label_inj,
        lk_psds_add_label_ver, lk_psds_add_label_meta, lk_psds_add_label_cal,
        lk_psds_add_label_cfg, lk_psds_add_label_approx]
  · subst hceq
    simp only [_make_dictionary_structure_step, hpsd, hany,
      Bool.false_eq_true, if_false]
    repeat' split
    all_goals
      simp only [lk_psds_add_label_ps, lk_psds_add_label_inj,
        lk_psds_add_label_ver, lk_psds_add_label_meta, lk_psds_add_label_cal,
        lk_psds_add_label_cfg, lk_psds_add_label_approx]

theorem lookup_cal_structure_step (psd approx calibration config : PyVal)
    (hpsd : pyTruthy psd = false)
    (hcal : pyTruthy calibration = false ∨
      ∃ cs, calibration = PyVal.list cs ∧ cs.any pyTruthy = false)
    (d : List (String × PyVal)) (i : String) :
    List.lookup "calibration_envelope"
        (_make_dictionary_structure_step psd approx calibration config d i)
      = List.lookup "calibration_envelope" d := by
  rcases hcal with hcalf | ⟨cs, hceq, hany⟩
  · simp only [_make_dictionary_structure_step, hpsd, hcalf,
      Bool.false_eq_true, if_false]
    repeat' split
    all_goals
      simp only [lk_cal_add_label_ps, lk_cal_add_label_inj,
        lk_cal_add_label_ver, lk_cal_add_label_meta, lk_cal_add_label_psds,
        lk_cal_add_label_cfg, lk_cal_add_label_approx]
  · subst hceq
    simp only [_make_dictionary_structure_step, hpsd, hany,
      Bool.false_eq_true, if_false]
    repeat' split
    all_goals
      simp only [lk_cal_add_label_ps, lk_cal_add_label_inj,
        lk_cal_add_label_ver, lk_cal_add_label_meta, lk_cal_add_label_psds,
        lk_cal_add_label_cfg, lk_cal_add_label_approx]

theorem lookup_psds_structure (labels : List String)
    (version psd approx calibration config meta_data : PyVal)
    (hpsd : pyTruthy psd = false)
    (hcal : pyTruthy calibration = false ∨
      ∃ cs, calibration = PyVal.list cs ∧ cs.any pyTruthy = false) :
    ∀ d, List.lookup "psds"
        (_make_dictionary_structure d labels version psd approx calibration
          config meta_data)
      = List.lookup "psds" d := by
  induction labels with
  | nil => intro d; rfl
  | cons i rest ih =>
    intro d
    show List.lookup "psds" (List.foldl _
        (_make_dictionary_structure_step psd approx calibration config d i)
        rest) = _
    rw [show ∀ d0, List.foldl
        (_make_dictionary_structure_step psd approx calibration config) d0 rest
        = _make_dictionary_structure d0 rest version psd approx calibration
            config meta_data from fun _ => rfl]
    rw [ih, lookup_psds_structure_step _ _ _ _ hpsd hcal]

theorem lookup_cal_structure (labels : List String)
    (version psd approx calibration config meta_data : PyVal)
    (hpsd : pyTruthy psd = false)
    (hcal : pyTruthy calibration = false ∨
      ∃ cs, calibration = PyVal.list cs ∧ cs.any pyTruthy = false) :
    ∀ d, List.lookup "calibration_envelope"
        (_make_dictionary_structure d labels version psd approx calibration
          config meta_data)
      = List.lookup "calibration_envelope" d := by
  induction labels with
  | nil => intro d; rfl
  | cons i rest ih =>
    intro d
    show List.lookup "calibration_envelope" (List.foldl _
        (_make_dictionary_structure_step psd approx calibration config d i)
        rest) = _
    rw [show ∀ d0, List.foldl
        (_make_dictionary_structure_step psd approx calibration config) d0 rest
        = _make_dictionary_structure d0 rest version psd approx calibration
            config meta_data from fun _ => rfl]
    rw [ih, lookup_cal_structure_step _ _ _ _ hpsd hcal]

theorem lookup_config_structure_step_some (psd approx calibration config :
      PyVal) (hcfg : pyTruthy config = true)
    (d : List (String × PyVal)) (i : String) :
    ∃ kvs, List.lookup "config_file"
        (_make_dictionary_structure_step psd approx calibration config d i)
      = some (PyVal.dict kvs) := by
  by_cases happ : pyTruthy approx = true
  · simp only [_make_dictionary_structure_step, hcfg, happ,
      eq_self_iff_true, if_true]
    rw [lk_cfg_add_label_approx]
    unfold _add_label
    rw [lookup_pyAssign_self]
    exact ⟨_, rfl⟩
  · rw [Bool.not_eq_true] at happ
    simp only [_make_dictionary_structure_step, hcfg, happ,
      eq_self_iff_true, if_true, Bool.false_eq_true, if_false]
    unfold _add_label
    rw [lookup_pyAssign_self]
    exact ⟨_, rfl⟩

theorem lookup_config_structure_some (labels : List String)
    (version psd approx calibration config meta_data : PyVal)
    (hcfg : pyTruthy config = true) (hne : labels ≠ []) :
    ∀ d, ∃ kvs, List.lookup "config_file"
        (_make_dictionary_structure d labels version psd approx calibration
          config meta_data)
      = some (PyVal.dict kvs) := by
  induction labels with
  | nil => exact absurd rfl hne
  | cons i rest ih =>
    intro d
    show ∃ kvs, List.lookup "config_file" (List.foldl _
        (_make_dictionary_structure_step psd approx calibration config d i)
        rest) = _
    rw [show ∀ d0, List.foldl
        (_make_dictionary_structure_step psd approx calibration config) d0 rest
        = _make_dictionary_structure d0 rest version psd approx calibration
            config meta_data from fun _ => rfl]
    by_cases hr : rest = []
    · subst hr
      exact lookup_config_structure_step_some _ _ _ _ hcfg d i
    · exact ih hr _

/-- C4.  The claim asserts that a top-level node of an optional kind
(psds, calibration_envelope, config_file, approximant) is created only
when at least one record in the aggregate supplies that kind of data.
Counterexample: `_make_dictionary_structure` guards `config_file` with a
bare `if config:`, and the "no configuration supplied" representation is
a list of `None` entries (cf. `write_pesummary`,
`core/file/formats/pesummary.py` lines 134-135, which builds
`config = [None for label in labels]`), which is truthy — so an empty
`config_file` top-level node is created although no record supplies any
configuration data.  (The calibration branch, by contrast, guards
against a list of `None`s with `any(i for i in calibration)`.) -/
theorem C4_counterexample :
    List.lookup "config_file"
        (_make_dictionary_structure [] ["l1"] (.list [.str "v"]) .none .none
          (.list [.none]) (.list [.none]) (.dict []))
      = some (.dict [("l1", .dict [])]) ∧
    List.lookup "psds"
        (_make_dictionary_structure [] ["l1"] (.list [.str "v"]) .none .none
          (.list [.none]) (.list [.none]) (.dict []))
      = Option.none ∧
    List.lookup "calibration_envelope"
        (_make_dictionary_structure [] ["l1"] (.list [.str "v"]) .none .none
          (.list [.none]) (.list [.none]) (.dict []))
      = Option.none := ⟨rfl, rfl, rfl⟩

/-- C4 (amended).  When no record supplies PSD data and the calibration
input is absent or a list of `None`s, the built structure has no `psds`
and no `calibration_envelope` top-level node at all; but the
`config_file` (and likewise `approximant`) node is created whenever the
corresponding input is merely truthy — e.g. a non-empty list all of whose
entries are `None` — even though no record supplies that kind of data. -/
theorem C4_amended_sparse_nodes (labels : List String)
    (version psd approx calibration config meta_data : PyVal)
    (hpsd : pyTruthy psd = false)
    (hcal : pyTruthy calibration = false ∨
      ∃ cs, calibration = PyVal.list cs ∧ cs.any pyTruthy = false) :
    List.lookup "psds"
        (_make_dictionary_structure [] labels version psd approx calibration
          config meta_data)
      = Option.none ∧
    List.lookup "calibration_envelope"
        (_make_dictionary_structure [] labels version psd approx calibration
          config meta_data)
      = Option.none ∧
    (pyTruthy config = true → labels ≠ [] →
      ∃ kvs, List.lookup "config_file"
          (_make_dictionary_structure [] labels version psd approx
            calibration config meta_data)
        = some (PyVal.dict kvs)) := by
  refine ⟨?_, ?_, ?_⟩
  · rw [lookup_psds_structure labels version psd approx calibration config
      meta_data hpsd hcal]
    rfl
  · rw [lookup_cal_structure labels version psd approx calibration config
      meta_data hpsd hcal]
    rfl
  · intro hcfg hne
    exact lookup_config_structure_some labels version psd approx calibration
      config meta_data hcfg hne []

/-- Witness for `C4_amended_sparse_nodes`: a single record with no PSD,
a calibration list of `None`s and a config list of `None`s. -/
theorem C4_amended_sparse_nodes_witness :
    List.lookup "psds"
        (_make_dictionary_structure [] ["l1"] (.list [.str "v"]) .none .none
          (.list [.none, .none]) (.list [.none]) (.dict []))
      = Option.none ∧
    ∃ kvs, List.lookup "config_file"
        (_make_dictionary_structure [] ["l1"] (.list [.str "v"]) .none .none
          (.list [.none, .none]) (.list [.none]) (.dict []))
      = some (PyVal.dict kvs) := by
  have h := C4_amended_sparse_nodes ["l1"] (.list [.str "v"]) .none .none
    (.list [.none, .none]) (.list [.none]) (.dict [])
    (by decide)
    (Or.inr ⟨[.none, .none], rfl, by decide⟩)
  exact ⟨h.1, h.2.2 (by decide) (by decide)⟩

/-! ## Core metafile builder (`_MetaFile._make_dictionary`) and the
canonical aggregate reader (`PESummary._grab_data_from_dictionary`) -/

/-- The input state of `_MetaFile._make_dictionary`
(`core/file/meta_file.py`, lines 225-258): per-label sample dictionaries
(ordered parameter → column of draws), injection dictionaries, file
versions, metadata kwargs, the per-run config list, the priors
(category → label → data) and the package information. -/
structure BuildInput where
  labels : List String
  samples : List (String × List (String × List ℚ))
  injection_data : List (String × List (String × PyVal))
  file_versions : List (String × String)
  file_kwargs : List (String × PyVal)
  config : List PyVal
  priors : List (String × List (String × PyVal))
  package_information : List (String × PyVal)

/-- The per-label skeleton of the builder's dictionary comprehension
(`core/file/meta_file.py`, lines 228-233): every label starts with empty
`posterior_samples`, `injection_data`, `version`, `meta_data`, `priors`
and `config_file` nodes — the latter two remain empty (but present) when
no prior/config data is supplied. -/
def initLabelNode : PyVal :=
  .dict [("posterior_samples", .dict []), ("injection_data", .dict []),
         ("version", .dict []), ("meta_data", .dict []),
         ("priors", .dict []), ("config_file", .dict [])]

/-- `np.array(cols).T.tolist()` for a rectangular column-major matrix:
row `i` collects entry `i` of every column.  (For ragged input numpy
builds an object array instead; theorems assume rectangular input.) -/
def npTranspose (cols : List (List ℚ)) : List (List ℚ) :=
  match cols with
  | [] => []
  | c :: _ => (List.range c.length).map (fun i =>
      cols.map (fun col => col.getD i 0))

/-- The `config_file` assignment of `_MetaFile._make_dictionary` (lines
249-254): skipped for a `None` entry, stored directly for a dict entry,
and read from file (`readCfg`) for anything else (a path string). -/
def configStep (readCfg : PyVal → PyVal) (label : String)
    (d : List (String × PyVal)) (c : PyVal) : List (String × PyVal) :=
  match c with
  | .none => d
  | .dict kvs => setIn2 d label "config_file" (.dict kvs)
  | other => setIn2 d label "config_file" (readCfg other)

/-- One iteration of the `self.priors` loop of
`_MetaFile._make_dictionary` (lines 255-257). -/
def priorsStep (label : String) (acc : List (String × PyVal))
    (kv : String × List (String × PyVal)) : List (String × PyVal) :=
  match kv.2.lookup label with
  | some v => setIn3 acc label "priors" kv.1 v
  | Option.none => acc

/-- One iteration of the label loop of `_MetaFile._make_dictionary`
(`core/file/meta_file.py`, lines 236-257).  `readCfg` stands for
`_grab_config_data_from_data_file` (invoked when the config entry is a
path string rather than an already-parsed dict; it opens an external
file).  The guard `self.config != {}` of line 249 is always true for the
list-valued `self.config` of the embedded flows. -/
def coreLabelStep (inp : BuildInput) (readCfg : PyVal → PyVal)
    (d : List (String × PyVal)) (num : ℕ) : List (String × PyVal) :=
  let label := inp.labels.getD num ""
  let samplesDict := (inp.samples.lookup label).getD []
  let parameters := keysOf samplesDict
  let rows := npTranspose (samplesDict.map Prod.snd)
  let d := setIn2 d label "posterior_samples"
    (.dict [("parameter_names", .list (parameters.map PyVal.str)),
            ("samples", .list (rows.map (fun r => PyVal.list (r.map PyVal.num))))])
  let d := setIn2 d label "injection_data"
    (.dict [("injection_values", .list (parameters.map (fun p =>
        (((inp.injection_data.lookup label).getD []).lookup p).getD .none)))])
  let d := setIn2 d label "version"
    (.list [.str ((inp.file_versions.lookup label).getD "")])
  let d := setIn2 d label "meta_data"
    ((inp.file_kwargs.lookup label).getD (.dict []))
  let d := configStep readCfg label d (inp.config.getD num .none)
  inp.priors.foldl (priorsStep label) d

/-- `_MetaFile._make_dictionary` (`core/file/meta_file.py`, lines
225-258): the label skeleton, the `version` top-level node
(`package_information` with `pesummary` set to the package version as a
one-element list), then the per-label loop. -/
def makeDictionary (inp : BuildInput) (pesummaryVersion : String)
    (readCfg : PyVal → PyVal) : List (String × PyVal) :=
  let d0 := inp.labels.map (fun label => (label, initLabelNode))
  let d1 := pyAssign d0 "version"
    (.dict (pyAssign inp.package_information "pesummary"
      (.list [.str pesummaryVersion])))
  (List.range inp.labels.length).foldl (coreLabelStep inp readCfg) d1

/-! ### The reader -/

def asObj : JSON → Option (List (String × JSON))
  | .obj kvs => some kvs
  | _ => Option.none

def asArr : JSON → Option (List JSON)
  | .arr xs => some xs
  | _ => Option.none

def asStrJ : JSON → Option String
  | .str s => some s
  | _ => Option.none

def charLower (c : Char) : Char :=
  if 65 ≤ c.toNat ∧ c.toNat ≤ 90 then Char.ofNat (c.toNat + 32) else c

def strLower (s : String) : String := String.mk (s.data.map charLower)

/-- `parse_injection_value` (`core/file/formats/pesummary.py`, lines
313-323): a list/array value is replaced by its first element
(`IndexError`, i.e. `Option.none`, on an empty one); string `"nan"`
becomes a float NaN and `"none"` becomes `None`; everything else is
returned unchanged.  (The `bytes` decode concerns HDF5 loads; decoded
JSON has no byte strings.) -/
def parse_injection_value (v : JSON) : Option JSON :=
  match (match v with
         | .arr xs => xs.head?
         | other => some other) with
  | Option.none => Option.none
  | some (.str s) =>
    if strLower s = "nan" then some .nan
    else if strLower s = "none" then some .null
    else some (.str s)
  | some other => some other

/-- Effectful map over `Option` (the classic `mapM`), written by direct
recursion so that it evaluates in the kernel. -/
def optionMapM {α β : Type} (f : α → Option β) : List α → Option (List β)
  | [] => some []
  | x :: xs =>
    match f x, optionMapM f xs with
    | some y, some ys => some (y :: ys)
    | _, _ => Option.none

/-- The per-label data assembled by
`PESummary._grab_data_from_dictionary`: the entries its parallel lists
receive for one label. -/
structure LabelBundle where
  parameters : List String
  samples : List (List JSON)
  injection : Option (List (String × JSON))
  config : Option JSON
  meta_data : JSON
  weights : Option (List JSON)
  version : JSON
  priors : JSON

/-- The body of the label loop of
`PESummary._grab_data_from_dictionary` (`core/file/formats/pesummary.py`,
lines 280-354), for a JSON-decoded document.  `Read.load_recursively` is
not among the embedded sources; modelled from the spec (§4.6, the reader
reshapes the multi-label container keyed by label) as the dictionary
lookup of the label.  The `mcmc_chains` branch needs the h5py structured
dtype machinery and is not modelled (`Option.none`); the
`isinstance(posterior_samples, (h5py Dataset, np.ndarray))` and
`isinstance(parameters[0], bytes)` branches concern HDF5 loads and do
not fire for decoded JSON.  `parameters[0]` raises `IndexError` on an
empty parameter list. -/
def readLabelData (dictkvs : List (String × JSON)) (label : String) :
    Option LabelBundle := do
  let data ← dictkvs.lookup label
  let dkv ← asObj data
  if (keysOf dkv).contains "mcmc_chains" then Option.none
  else do
    let ps ← dkv.lookup "posterior_samples"
    let psObj ← asObj ps
    let pnames ← (psObj.lookup "parameter_names").bind asArr
    let parameters ← optionMapM asStrJ pnames
    if parameters.isEmpty then Option.none
    else do
      let samplesJ ← (psObj.lookup "samples").bind asArr
      let samples ← optionMapM asArr samplesJ
      let injection ← (match dkv.lookup "injection_data" with
        | Option.none => some Option.none
        | some injNode => do
          let injObj ← asObj injNode
          let ivs ← (injObj.lookup "injection_values").bind asArr
          let parsed ← optionMapM parse_injection_value ivs
          some (some (parameters.zip parsed)) : Option (Option (List (String × JSON))))
      let config : Option JSON := dkv.lookup "config_file"
      let meta_data : JSON :=
        match dkv.lookup "meta_data" with
        | some m => m
        | Option.none => .obj [("sampler", .obj []), ("meta_data", .obj [])]
      let weights ← (if parameters.contains "weights" then do
          let ws ← optionMapM (fun row =>
            row.get? (parameters.indexOf "weights")) samples
          some (some ws)
        else some Option.none : Option (Option (List JSON)))
      let version : JSON :=
        match dkv.lookup "version" with
        | some v => v
        | Option.none => .str "No version information found"
      let priors : JSON :=
        match dkv.lookup "priors" with
        | some p => p
        | Option.none => .obj []
      some ⟨parameters, samples, injection, config, meta_data, weights,
        version, priors⟩

/-- The inverted priors mapping built at the end of
`_grab_data_from_dictionary` (`core/file/formats/pesummary.py`, lines
355-361): category → label → data. -/
def reversedPriors (pairs : List (String × LabelBundle)) :
    List (String × List (String × JSON)) :=
  pairs.foldl (fun acc lb =>
    match lb.2.priors with
    | .obj kvs =>
      kvs.foldl (fun acc2 kv =>
        match acc2.lookup kv.1 with
        | some sub => pyAssign acc2 kv.1 (pyAssign sub lb.1 kv.2)
        | Option.none => acc2 ++ [(kv.1, [(lb.1, kv.2)])]) acc
    | _ => acc) []

/-- The output of `PESummary._grab_data_from_dictionary`. -/
structure ReaderOut where
  labels : List String
  bundles : List LabelBundle
  prior : List (String × List (String × JSON))
  mcmc_samples : Bool

/-- `PESummary._grab_data_from_dictionary`
(`core/file/formats/pesummary.py`, lines 268-373) on a JSON-decoded
document: the label list is the top-level key list with (one) `version`
removed; each remaining label is processed by the loop body
(`readLabelData`); finally the priors are inverted.  The `mcmc_samples`
flag stays `False` on this path (a document with an `mcmc_chains` group
is rejected by the unmodelled branch). -/
def _grab_data_from_dictionary (doc : JSON) : Option ReaderOut := do
  let dictkvs ← asObj doc
  let keys := keysOf dictkvs
  let labels := if keys.contains "version" then keys.erase "version" else keys
  let processed := labels.filter (fun l => l ≠ "version")
  let bundles ← optionMapM (readLabelData dictkvs) processed
  some ⟨labels, bundles, reversedPriors (processed.zip bundles), false⟩

/-! ### C3: weights hoisting -/

theorem optionMapM_length {α β : Type} (f : α → Option β) :
    ∀ (l : List α) (l2 : List β), optionMapM f l = some l2 →
      l2.length = l.length := by
  intro l
  induction l with
  | nil =>
    intro l2 h
    simp [optionMapM] at h
    simp [← h]
  | cons x xs ih =>
    intro l2 h
    rw [optionMapM] at h
    cases hfx : f x with
    | none => rw [hfx] at h; simp at h
    | some y =>
      rw [hfx] at h
      cases hrest : optionMapM f xs with
      | none => rw [hrest] at h; simp at h
      | some ys =>
        rw [hrest] at h
        simp only [Option.some.injEq] at h
        subst h
        simp [ih ys hrest]

/-- C3.  The claim asserts that when a `weights` column is among the
parameter columns, the constructed record has no `weights` entry in its
parameters and no such column in its samples, the weights living only in
a standalone sequence.  Counterexample: the reader extracts the weights
column into the standalone `weights` sequence but removes nothing — the
reconstructed record keeps `weights` in `parameters` and keeps the
column inside every sample row. -/
theorem C3_counterexample :
    readLabelData
        [("l1", .obj [("posterior_samples", .obj
          [("parameter_names", .arr [.str "a", .str "weights"]),
           ("samples", .arr [.arr [.num 1, .num 2],
                             .arr [.num 3, .num 4]])])])] "l1"
      = some
        { parameters := ["a", "weights"],
          samples := [[.num 1, .num 2], [.num 3, .num 4]],
          injection := Option.none,
          config := Option.none,
          meta_data := .obj [("sampler", .obj []), ("meta_data", .obj [])],
          weights := some [.num 2, .num 4],
          version := .str "No version information found",
          priors := .obj [] } ∧
    "weights" ∈ (["a", "weights"] : List String) ∧
    (([.num 1, .num 2] : List JSON).length = 2) := by
  refine ⟨rfl, by decide, rfl⟩

/-- C3 (amended).  Whenever the loop body of
`_grab_data_from_dictionary` succeeds, the standalone weights sequence is
present exactly when `weights` is among the (unchanged) parameter names,
and its length equals the number of draws; the `weights` column is *not*
removed from `parameters` or from the sample rows. -/
theorem C3_amended_weights_hoisted_not_removed
    (dictkvs : List (String × JSON)) (label : String) (b : LabelBundle)
    (h : readLabelData dictkvs label = some b) :
    (b.weights.isSome = true ↔ "weights" ∈ b.parameters) ∧
      ∀ ws, b.weights = some ws → ws.length = b.samples.length := by
  rw [readLabelData] at h
  simp only [Option.bind_eq_bind, Option.bind_eq_some] at h
  obtain ⟨data, h1, h⟩ := h
  obtain ⟨dkv, h2, h⟩ := h
  by_cases hmc : (keysOf dkv).contains "mcmc_chains" = true
  · rw [if_pos hmc] at h
    exact absurd h (by simp)
  · rw [if_neg hmc] at h
    simp only [Option.bind_eq_bind, Option.bind_eq_some] at h
    obtain ⟨ps, h3, h⟩ := h
    obtain ⟨psObj, h4, h⟩ := h
    obtain ⟨pnames, h5, h⟩ := h
    obtain ⟨parameters, h6, h⟩ := h
    by_cases hemp : parameters.isEmpty = true
    · rw [if_pos hemp] at h
      exact absurd h (by simp)
    · rw [if_neg hemp] at h
      simp only [Option.bind_eq_bind, Option.bind_eq_some] at h
      obtain ⟨samplesJ, h7, h⟩ := h
      obtain ⟨samples, h8, h⟩ := h
      obtain ⟨injection, h9, h⟩ := h
      obtain ⟨weights, h10, h⟩ := h
      simp only [Option.some.injEq] at h
      subst h
      by_cases hw : parameters.contains "weights" = true
      · rw [if_pos hw] at h10
        simp only [Option.bind_eq_bind, Option.bind_eq_some,
          Option.some.injEq] at h10
        obtain ⟨ws, hws, rfl⟩ := h10
        constructor
        · simp [contains_iff_mem _ _ |>.mp hw]
        · intro ws2 hws2
          simp only [Option.some.injEq] at hws2
          subst hws2
          exact optionMapM_length _ _ _ hws
      · rw [if_neg hw] at h10
        simp only [Option.some.injEq] at h10
        subst h10
        constructor
        · simp only [Option.isSome_none, Bool.false_eq_true, false_iff]
          intro hmem
          exact hw ((contains_iff_mem _ _).mpr hmem)
        · intro ws2 hws2
          simp at hws2

/-- Witness for `C3_amended_weights_hoisted_not_removed` at a concrete
document with a `weights` parameter column. -/
theorem C3_amended_weights_hoisted_not_removed_witness :
    ((LabelBundle.mk ["a", "weights"]
        [[.num 1, .num 2], [.num 3, .num 4]] Option.none Option.none
        (.obj [("sampler", .obj []), ("meta_data", .obj [])])
        (some [.num 2, .num 4]) (.str "No version information found")
        (.obj [])).weights.isSome = true ↔
      "weights" ∈ (LabelBundle.mk ["a", "weights"]
        [[.num 1, .num 2], [.num 3, .num 4]] Option.none Option.none
        (.obj [("sampler", .obj []), ("meta_data", .obj [])])
        (some [.num 2, .num 4]) (.str "No version information found")
        (.obj [])).parameters) ∧
    ∀ ws, (LabelBundle.mk ["a", "weights"]
        [[.num 1, .num 2], [.num 3, .num 4]] Option.none Option.none
        (.obj [("sampler", .obj []), ("meta_data", .obj [])])
        (some [.num 2, .num 4]) (.str "No version information found")
        (.obj [])).weights = some ws →
      ws.length = (LabelBundle.mk ["a", "weights"]
        [[.num 1, .num 2], [.num 3, .num 4]] Option.none Option.none
        (.obj [("sampler", .obj []), ("meta_data", .obj [])])
        (some [.num 2, .num 4]) (.str "No version information found")
        (.obj [])).samples.length :=
  C3_amended_weights_hoisted_not_removed
    [("run1", .obj [("posterior_samples", .obj
      [("parameter_names", .arr [.str "a", .str "weights"]),
       ("samples", .arr [.arr [.num 1, .num 2],
                         .arr [.num 3, .num 4]])])])] "run1"
    (LabelBundle.mk ["a", "weights"]
      [[.num 1, .num 2], [.num 3, .num 4]] Option.none Option.none
      (.obj [("sampler", .obj []), ("meta_data", .obj [])])
      (some [.num 2, .num 4]) (.str "No version information found")
      (.obj [])) rfl

/-! ### Sorted-object lookup lemmas (for the `sort_keys=True` dump) -/

theorem insPair_perm {α : Type} (x : String × α) :
    ∀ l : List (String × α), (insPair x l).Perm (x :: l) := by
  intro l
  induction l with
  | nil => simp [insPair]
  | cons y ys ih =>
    rw [insPair]
    split
    · exact List.Perm.refl _
    · exact (List.Perm.cons y ih).trans (List.Perm.swap x y ys)

theorem sortPairs_perm {α : Type} :
    ∀ kvs : List (String × α), (sortPairs kvs).Perm kvs := by
  intro kvs
  induction kvs with
  | nil => simp [sortPairs]
  | cons x xs ih =>
    rw [sortPairs]
    exact (insPair_perm x (sortPairs xs)).trans (List.Perm.cons x ih)

theorem lookup_perm_of_nodupkeys {α : Type} {l1 l2 : List (String × α)}
    (p : l1.Perm l2) (hnd : (keysOf l1).Nodup) (k : String) :
    List.lookup k l1 = List.lookup k l2 := by
  induction p with
  | nil => rfl
  | cons x p ih =>
    obtain ⟨k1, v1⟩ := x
    by_cases h : k = k1
    · subst h
      simp [List.lookup]
    · simp only [List.lookup, beq_eq_false_iff_ne.mpr h]
      exact ih (by
        simp only [keysOf, List.map_cons, List.nodup_cons] at hnd
        exact hnd.2)
  | swap x y l =>
    obtain ⟨k1, v1⟩ := x
    obtain ⟨k2, v2⟩ := y
    have hne : k2 ≠ k1 := by
      simp only [keysOf, List.map_cons, List.nodup_cons, List.mem_cons] at hnd
      intro h
      exact hnd.1 (Or.inl h)
    by_cases h1 : k = k2
    · subst h1
      simp [List.lookup, beq_eq_false_iff_ne.mpr hne]
    · by_cases h2 : k = k1
      · subst h2
        simp [List.lookup, beq_eq_false_iff_ne.mpr h1]
      · simp [List.lookup, beq_eq_false_iff_ne.mpr h1,
          beq_eq_false_iff_ne.mpr h2]
  | trans p1 p2 ih1 ih2 =>
    have hnd2 := (List.Perm.nodup_iff (p1.map Prod.fst)).mp hnd
    exact (ih1 hnd).trans (ih2 hnd2)

theorem keysOf_sortPairs_perm {α : Type} (kvs : List (String × α)) :
    (keysOf (sortPairs kvs)).Perm (keysOf kvs) :=
  (sortPairs_perm kvs).map Prod.fst

theorem lookup_sortPairs {α : Type} (kvs : List (String × α))
    (hnd : (keysOf kvs).Nodup) (k : String) :
    List.lookup k (sortPairs kvs) = List.lookup k kvs :=
  lookup_perm_of_nodupkeys (sortPairs_perm kvs)
    ((List.Perm.nodup_iff (keysOf_sortPairs_perm kvs)).mpr hnd) k

/-! ### Dump lemmas -/

theorem jsonDumpKVs_keys :
    ∀ (kvs : List (String × PyVal)) (out : List (String × JSON)),
      jsonDumpKVs kvs = some out → keysOf out = keysOf kvs := by
  intro kvs
  induction kvs with
  | nil =>
    intro out h
    rw [jsonDumpKVs] at h
    simp only [Option.some.injEq] at h
    subst h
    rfl
  | cons kv rest ih =>
    intro out h
    obtain ⟨k, v⟩ := kv
    rw [jsonDumpKVs] at h
    cases hv : jsonDump v with
    | none => rw [hv] at h; simp at h
    | some j =>
      rw [hv] at h
      cases hrest : jsonDumpKVs rest with
      | none => rw [hrest] at h; simp at h
      | some out2 =>
        rw [hrest] at h
        simp only [Option.some.injEq] at h
        subst h
        simp [keysOf_cons, ih out2 hrest]

theorem jsonDumpKVs_lookup :
    ∀ (kvs : List (String × PyVal)) (out : List (String × JSON)),
      jsonDumpKVs kvs = some out →
        ∀ k, List.lookup k out = (List.lookup k kvs).bind jsonDump := by
  intro kvs
  induction kvs with
  | nil =>
    intro out h k
    rw [jsonDumpKVs] at h
    simp only [Option.some.injEq] at h
    subst h
    rfl
  | cons kv rest ih =>
    intro out h k
    obtain ⟨k1, v⟩ := kv
    rw [jsonDumpKVs] at h
    cases hv : jsonDump v with
    | none => rw [hv] at h; simp at h
    | some j =>
      rw [hv] at h
      cases hrest : jsonDumpKVs rest with
      | none => rw [hrest] at h; simp at h
      | some out2 =>
        rw [hrest] at h
        simp only [Option.some.injEq] at h
        subst h
        by_cases hk : k = k1
        · subst hk
          simp [List.lookup, hv]
        · simp [List.lookup, beq_eq_false_iff_ne.mpr hk, ih out2 hrest]

theorem jsonDumpKVs_isSome (kvs : List (String × PyVal))
    (h : ∀ kv ∈ kvs, (jsonDump kv.2).isSome = true) :
    ∃ out, jsonDumpKVs kvs = some out := by
  induction kvs with
  | nil => exact ⟨[], rfl⟩
  | cons kv rest ih =>
    obtain ⟨k, v⟩ := kv
    have hv := h (k, v) (by simp)
    rw [Option.isSome_iff_exists] at hv
    obtain ⟨j, hj⟩ := hv
    obtain ⟨out2, hout2⟩ := ih (fun kv hkv => h kv (List.mem_cons_of_mem _ hkv))
    refine ⟨(k, j) :: out2, ?_⟩
    rw [jsonDumpKVs, hj, hout2]

theorem jsonDumpList_map_str (ps : List String) :
    jsonDumpList (ps.map PyVal.str) = some (ps.map JSON.str) := by
  induction ps with
  | nil => rfl
  | cons p rest ih =>
    simp only [List.map_cons]
    rw [jsonDumpList, ih]
    rfl

theorem jsonDumpList_map_num (r : List ℚ) :
    jsonDumpList (r.map PyVal.num) = some (r.map JSON.num) := by
  induction r with
  | nil => rfl
  | cons q rest ih =>
    simp only [List.map_cons]
    rw [jsonDumpList, ih]
    rfl

theorem jsonDumpList_rows (rows : List (List ℚ)) :
    jsonDumpList (rows.map (fun r => PyVal.list (r.map PyVal.num)))
      = some (rows.map (fun r => JSON.arr (r.map JSON.num))) := by
  induction rows with
  | nil => rfl
  | cons r rest ih =>
    simp only [List.map_cons]
    rw [jsonDumpList]
    rw [show jsonDump (PyVal.list (r.map PyVal.num))
        = some (JSON.arr (r.map JSON.num)) by
      rw [jsonDump, jsonDumpList_map_num]]
    rw [ih]

/-! ### The builder's per-label node in closed form -/

theorem pyAssign_pyAssign {α : Type} (kvs : List (String × α)) (k : String)
    (v w : α) : pyAssign (pyAssign kvs k v) k w = pyAssign kvs k w := by
  induction kvs with
  | nil => simp [pyAssign]
  | cons hd tl ih =>
    obtain ⟨k1, v1⟩ := hd
    by_cases h : k1 = k
    · subst h
      simp [pyAssign]
    · simp [pyAssign, h, ih]

theorem pyAssign_append_of_not_mem {α : Type} (kvs : List (String × α))
    (k : String) (v : α) (h : k ∉ keysOf kvs) :
    pyAssign kvs k v = kvs ++ [(k, v)] := by
  induction kvs with
  | nil => simp [pyAssign]
  | cons hd tl ih =>
    obtain ⟨k1, v1⟩ := hd
    have h1 : k1 ≠ k := by
      intro hh
      exact h (by simp [keysOf, hh])
    have h2 : k ∉ keysOf tl := by
      intro hh
      exact h (by simp [keysOf_cons, hh])
    simp [pyAssign, h1, ih h2]

/-- The key/value list behind `initLabelNode`. -/
def initLabelNodeKvs : List (String × PyVal) :=
  [("posterior_samples", .dict []), ("injection_data", .dict []),
   ("version", .dict []), ("meta_data", .dict []),
   ("priors", .dict []), ("config_file", .dict [])]

theorem initLabelNode_eq : initLabelNode = .dict initLabelNodeKvs := rfl

theorem lookup_map_initNode (labels : List String) (l : String)
    (h : l ∈ labels) :
    List.lookup l (labels.map (fun x => (x, initLabelNode)))
      = some initLabelNode := by
  induction labels with
  | nil => simp at h
  | cons x xs ih =>
    rcases List.mem_cons.mp h with h | h
    · subst h
      simp [List.lookup]
    · by_cases hx : l = x
      · subst hx
        simp [List.lookup]
      · simp [List.lookup, beq_eq_false_iff_ne.mpr hx, ih h]

theorem keysOf_map_initNode (labels : List String) :
    keysOf (labels.map (fun x => (x, initLabelNode))) = labels := by
  induction labels with
  | nil => rfl
  | cons x xs ih =>
    simp only [List.map_cons, keysOf_cons, ih]

/-- The value a scalar injection entry round-trips to in JSON. -/
def injScalarJSON : PyVal → JSON
  | .num q => .num q
  | .nan => .nan
  | _ => .null

/-- A scalar injection value: a float, a NaN, or `None`. -/
def injScalar (v : PyVal) : Prop :=
  v = .nan ∨ v = .none ∨ ∃ q, v = .num q

theorem jsonDump_injScalar (v : PyVal) (h : injScalar v) :
    jsonDump v = some (injScalarJSON v) := by
  rcases h with h | h | ⟨q, h⟩ <;> subst h <;> rfl

theorem parse_injScalarJSON (v : PyVal) (h : injScalar v) :
    parse_injection_value (injScalarJSON v) = some (injScalarJSON v) := by
  rcases h with h | h | ⟨q, h⟩ <;> subst h <;> rfl

/-- The priors sub-node accumulated for one label by the loop on
`self.priors` (`core/file/meta_file.py`, lines 255-257). -/
def priorsAccum (label : String) :
    List (String × List (String × PyVal)) → List (String × PyVal) →
      List (String × PyVal)
  | [], cur => cur
  | kv :: rest, cur =>
    match kv.2.lookup label with
    | some v => priorsAccum label rest (pyAssign cur kv.1 v)
    | Option.none => priorsAccum label rest cur

/-- The value stored under `config_file` for one label, in closed form. -/
def configValueFor (readCfg : PyVal → PyVal) (c : PyVal) : PyVal :=
  match c with
  | .none => .dict []
  | .dict kvs => .dict kvs
  | other => readCfg other

/-- The label node produced by one iteration of the builder loop, in
closed form. -/
def coreNodeFor (inp : BuildInput) (readCfg : PyVal → PyVal) (num : ℕ) :
    List (String × PyVal) :=
  let label := inp.labels.getD num ""
  let samplesDict := (inp.samples.lookup label).getD []
  let parameters := keysOf samplesDict
  let rows := npTranspose (samplesDict.map Prod.snd)
  [("posterior_samples",
    .dict [("parameter_names", .list (parameters.map PyVal.str)),
           ("samples", .list (rows.map (fun r => PyVal.list (r.map PyVal.num))))]),
   ("injection_data",
    .dict [("injection_values", .list (parameters.map (fun p =>
        (((inp.injection_data.lookup label).getD []).lookup p).getD .none)))]),
   ("version", .list [.str ((inp.file_versions.lookup label).getD "")]),
   ("meta_data", (inp.file_kwargs.lookup label).getD (.dict [])),
   ("priors", .dict (priorsAccum (inp.labels.getD num "") inp.priors [])),
   ("config_file", configValueFor readCfg (inp.config.getD num .none))]

theorem lookup_setIn2_self_known (d : List (String × PyVal))
    (label key : String) (v : PyVal) (nodekvs : List (String × PyVal))
    (h : d.lookup label = some (.dict nodekvs)) :
    List.lookup label (setIn2 d label key v)
      = some (.dict (pyAssign nodekvs key v)) := by
  unfold setIn2
  rw [lookup_pyAssign_self, h]
  rfl

theorem lookup_priorsFold (label : String) :
    ∀ (priors : List (String × List (String × PyVal)))
      (d : List (String × PyVal)) (nodekvs cur : List (String × PyVal)),
      List.lookup label d = some (.dict (pyAssign nodekvs "priors" (.dict cur))) →
      List.lookup label (priors.foldl (priorsStep label) d)
        = some (.dict (pyAssign nodekvs "priors"
            (.dict (priorsAccum label priors cur)))) := by
  intro priors
  induction priors with
  | nil =>
    intro d nodekvs cur h
    exact h
  | cons kv rest ih =>
    intro d nodekvs cur h
    simp only [List.foldl_cons]
    cases hkv : kv.2.lookup label with
    | none =>
      rw [show priorsAccum label (kv :: rest) cur
          = priorsAccum label rest cur by
        rw [priorsAccum, hkv]]
      rw [show priorsStep label d kv = d by simp only [priorsStep, hkv]]
      exact ih d nodekvs cur h
    | some v =>
      rw [show priorsAccum label (kv :: rest) cur
          = priorsAccum label rest (pyAssign cur kv.1 v) by
        rw [priorsAccum, hkv]]
      rw [show priorsStep label d kv = setIn3 d label "priors" kv.1 v by
        simp only [priorsStep, hkv]]
      refine ih _ nodekvs (pyAssign cur kv.1 v) ?_
      unfold setIn3
      rw [lookup_pyAssign_self, h]
      rw [show asDictKVs (some (.dict (pyAssign nodekvs "priors" (.dict cur))))
          = pyAssign nodekvs "priors" (.dict cur) from rfl]
      rw [lookup_pyAssign_self]
      rw [show asDictKVs (some (.dict cur)) = cur from rfl]
      rw [pyAssign_pyAssign]

theorem pyAssign_same_value {α : Type} (kvs : List (String × α))
    (k : String) (v : α) (h : List.lookup k kvs = some v) :
    pyAssign kvs k v = kvs := by
  induction kvs with
  | nil => simp [List.lookup] at h
  | cons hd tl ih =>
    obtain ⟨k1, v1⟩ := hd
    by_cases hk : k1 = k
    · subst hk
      simp only [List.lookup, beq_self_eq_true, Option.some.injEq] at h
      rw [← h]
      simp [pyAssign]
    · have hb : (k == k1) = false :=
        beq_eq_false_iff_ne.mpr (fun hh => hk hh.symm)
      simp only [List.lookup, hb] at h
      simp [pyAssign, hk, ih h]

theorem lookup_priorsFold2 (label : String)
    (priors : List (String × List (String × PyVal)))
    (d nodekvs cur : List (String × PyVal))
    (h : List.lookup label d = some (.dict nodekvs))
    (hp : List.lookup "priors" nodekvs = some (.dict cur)) :
    List.lookup label (priors.foldl (priorsStep label) d)
      = some (.dict (pyAssign nodekvs "priors"
          (.dict (priorsAccum label priors cur)))) := by
  refine lookup_priorsFold label priors d nodekvs cur ?_
  rw [pyAssign_same_value nodekvs "priors" (PyVal.dict cur) hp]
  exact h

theorem node_after4 (d : List (String × PyVal)) (label : String)
    (v1 v2 v3 v4 : PyVal)
    (h : List.lookup label d = some initLabelNode) :
    List.lookup label
        (setIn2 (setIn2 (setIn2 (setIn2 d label "posterior_samples" v1)
          label "injection_data" v2) label "version" v3) label "meta_data" v4)
      = some (.dict [("posterior_samples", v1), ("injection_data", v2),
          ("version", v3), ("meta_data", v4),
          ("priors", .dict []), ("config_file", .dict [])]) := by
  have h1 := lookup_setIn2_self_known d label "posterior_samples" v1
    initLabelNodeKvs h
  have h2 := lookup_setIn2_self_known _ label "injection_data" v2 _ h1
  have h3 := lookup_setIn2_self_known _ label "version" v3 _ h2
  have h4 := lookup_setIn2_self_known _ label "meta_data" v4 _ h3
  rw [h4]
  rfl

theorem node_after5 (d : List (String × PyVal)) (label : String)
    (v1 v2 v3 v4 v5 : PyVal)
    (h : List.lookup label d = some initLabelNode) :
    List.lookup label
        (setIn2 (setIn2 (setIn2 (setIn2 (setIn2 d label "posterior_samples" v1)
          label "injection_data" v2) label "version" v3) label "meta_data" v4)
          label "config_file" v5)
      = some (.dict [("posterior_samples", v1), ("injection_data", v2),
          ("version", v3), ("meta_data", v4),
          ("priors", .dict []), ("config_file", v5)]) := by
  have h4 := node_after4 d label v1 v2 v3 v4 h
  have h5 := lookup_setIn2_self_known _ label "config_file" v5 _ h4
  rw [h5]
  rfl

theorem lookup_coreLabelStep_self (inp : BuildInput) (rc : PyVal → PyVal)
    (d : List (String × PyVal)) (num : ℕ)
    (h : List.lookup (inp.labels.getD num "") d = some initLabelNode) :
    List.lookup (inp.labels.getD num "") (coreLabelStep inp rc d num)
      = some (.dict (coreNodeFor inp rc num)) := by
  simp only [coreLabelStep]
  cases hc : inp.config.getD num PyVal.none
  case none =>
    rw [show configStep rc (inp.labels.getD num "") _ PyVal.none = _ from rfl]
    refine (lookup_priorsFold2 (inp.labels.getD num "") inp.priors _ _ []
      (node_after4 d _ _ _ _ _ h) rfl).trans ?_
    simp only [coreNodeFor, configValueFor, hc]
    rfl
  all_goals
    simp only [configStep]
    refine (lookup_priorsFold2 (inp.labels.getD num "") inp.priors _ _ []
      (node_after5 d _ _ _ _ _ _ h) rfl).trans ?_
    simp only [coreNodeFor, configValueFor, hc]
    rfl

theorem lookup_priorsFold_other (label l : String) (hne : l ≠ label)
    (priors : List (String × List (String × PyVal))) :
    ∀ d, List.lookup l (priors.foldl (priorsStep label) d)
      = List.lookup l d := by
  induction priors with
  | nil => intro d; rfl
  | cons kv rest ih =>
    intro d
    simp only [List.foldl_cons]
    rw [ih]
    cases hkv : kv.2.lookup label with
    | none => simp only [priorsStep, hkv]
    | some v =>
      simp only [priorsStep, hkv]
      unfold setIn3
      exact lookup_pyAssign_other d l label _ hne

theorem keysOf_setIn2_mem (dd : List (String × PyVal)) (kind key : String)
    (v : PyVal) (h : kind ∈ keysOf dd) :
    keysOf (setIn2 dd kind key v) = keysOf dd := by
  unfold setIn2
  rw [keysOf_pyAssign, if_pos h]

theorem keysOf_priorsFold (label : String)
    (priors : List (String × List (String × PyVal))) :
    ∀ d, label ∈ keysOf d →
      keysOf (priors.foldl (priorsStep label) d) = keysOf d := by
  induction priors with
  | nil => intro d _; rfl
  | cons kv rest ih =>
    intro d h
    simp only [List.foldl_cons]
    cases hkv : kv.2.lookup label with
    | none =>
      simp only [priorsStep, hkv]
      exact ih d h
    | some v =>
      simp only [priorsStep, hkv]
      have h2 : keysOf (setIn3 d label "priors" kv.1 v) = keysOf d := by
        unfold setIn3
        rw [keysOf_pyAssign, if_pos h]
      rw [ih _ (h2.symm ▸ h), h2]

theorem keysOf_step_general (L : String)
    (priors : List (String × List (String × PyVal))) (rc : PyVal → PyVal)
    (c v1 v2 v3 v4 : PyVal) :
    ∀ d, L ∈ keysOf d →
    keysOf (priors.foldl (priorsStep L)
      (configStep rc L
        (setIn2 (setIn2 (setIn2 (setIn2 d L "posterior_samples" v1)
          L "injection_data" v2) L "version" v3) L "meta_data" v4) c))
      = keysOf d := by
  intro d h
  have e1 := keysOf_setIn2_mem d L "posterior_samples" v1 h
  have m1 := e1.symm ▸ h
  have e2 := keysOf_setIn2_mem _ L "injection_data" v2 m1
  have m2 := e2.symm ▸ m1
  have e3 := keysOf_setIn2_mem _ L "version" v3 m2
  have m3 := e3.symm ▸ m2
  have e4 := keysOf_setIn2_mem _ L "meta_data" v4 m3
  have m4 := e4.symm ▸ m3
  cases c
  case none =>
    simp only [configStep]
    rw [keysOf_priorsFold L priors _ m4, e4, e3, e2, e1]
  all_goals
    simp only [configStep]
    rw [keysOf_priorsFold L priors, keysOf_setIn2_mem, e4, e3, e2, e1]
    all_goals first
      | exact m4
      | (rw [keysOf_setIn2_mem _ _ _ _ m4]; exact m4)

theorem keysOf_coreLabelStep (inp : BuildInput) (rc : PyVal → PyVal)
    (d : List (String × PyVal)) (num : ℕ)
    (h : inp.labels.getD num "" ∈ keysOf d) :
    keysOf (coreLabelStep inp rc d num) = keysOf d := by
  simp only [coreLabelStep]
  exact keysOf_step_general _ inp.priors rc _ _ _ _ _ d h

theorem lookup_step_general (L l : String) (hne : l ≠ L)
    (priors : List (String × List (String × PyVal))) (rc : PyVal → PyVal)
    (c v1 v2 v3 v4 : PyVal) :
    ∀ d, List.lookup l (priors.foldl (priorsStep L)
      (configStep rc L
        (setIn2 (setIn2 (setIn2 (setIn2 d L "posterior_samples" v1)
          L "injection_data" v2) L "version" v3) L "meta_data" v4) c))
      = List.lookup l d := by
  intro d
  rw [lookup_priorsFold_other L l hne priors]
  have hstep : ∀ (dd : List (String × PyVal)) (key : String) (v : PyVal),
      List.lookup l (setIn2 dd L key v) = List.lookup l dd := by
    intro dd key v
    exact lookup_pyAssign_other dd l L _ hne
  cases c
  case none =>
    simp only [configStep]
    rw [hstep, hstep, hstep, hstep]
  all_goals
    simp only [configStep]
    rw [hstep, hstep, hstep, hstep, hstep]

theorem lookup_coreLabelStep_other (inp : BuildInput) (rc : PyVal → PyVal)
    (d : List (String × PyVal)) (num : ℕ) (l : String)
    (hne : l ≠ inp.labels.getD num "") :
    List.lookup l (coreLabelStep inp rc d num) = List.lookup l d := by
  simp only [coreLabelStep]
  exact lookup_step_general _ l hne inp.priors rc _ _ _ _ _ d

theorem keysOf_coreLoop (inp : BuildInput) (rc : PyVal → PyVal) (n : ℕ)
    (d : List (String × PyVal))
    (h : ∀ i, i < n → inp.labels.getD i "" ∈ keysOf d) :
    keysOf ((List.range n).foldl (coreLabelStep inp rc) d) = keysOf d := by
  induction n with
  | zero => rfl
  | succ m ih =>
    have hk := ih (fun i hi => h i (Nat.lt_succ_of_lt hi))
    have hm : inp.labels.getD m "" ∈
        keysOf ((List.range m).foldl (coreLabelStep inp rc) d) := by
      rw [hk]
      exact h m (Nat.lt_succ_self m)
    rw [range_foldl_succ, keysOf_coreLabelStep inp rc _ m hm, hk]

theorem lookup_coreLoop_other (inp : BuildInput) (rc : PyVal → PyVal)
    (l : String) (n : ℕ)
    (h : ∀ i, i < n → l ≠ inp.labels.getD i "") :
    ∀ d, List.lookup l ((List.range n).foldl (coreLabelStep inp rc) d)
      = List.lookup l d := by
  induction n with
  | zero => intro d; rfl
  | succ m ih =>
    intro d
    rw [range_foldl_succ,
      lookup_coreLabelStep_other inp rc _ m l (h m (Nat.lt_succ_self m)),
      ih (fun i hi => h i (Nat.lt_succ_of_lt hi))]

theorem lookup_coreLoop_self (inp : BuildInput) (rc : PyVal → PyVal)
    (n num : ℕ) (d : List (String × PyVal)) (hnd : inp.labels.Nodup)
    (hn : n ≤ inp.labels.length) (hnum : num < n)
    (h : List.lookup (inp.labels.getD num "") d = some initLabelNode) :
    List.lookup (inp.labels.getD num "")
        ((List.range n).foldl (coreLabelStep inp rc) d)
      = some (.dict (coreNodeFor inp rc num)) := by
  induction n with
  | zero => omega
  | succ m ih =>
    rw [range_foldl_succ]
    by_cases hm : num = m
    · subst hm
      have hothers : ∀ i, i < num →
          inp.labels.getD num "" ≠ inp.labels.getD i "" := by
        intro i hi
        exact nodup_getD_ne inp.labels hnd num i (by omega) (by omega)
          (by omega)
      exact lookup_coreLabelStep_self inp rc _ num
        ((lookup_coreLoop_other inp rc _ num hothers d).trans h)
    · have hne : inp.labels.getD num "" ≠ inp.labels.getD m "" :=
        nodup_getD_ne inp.labels hnd num m (by omega) (by omega) hm
      rw [lookup_coreLabelStep_other inp rc _ m _ hne]
      exact ih (by omega) (by omega)

theorem keysOf_makeDictionary (inp : BuildInput) (pv : String)
    (rc : PyVal → PyVal) (hv : "version" ∉ inp.labels) :
    keysOf (makeDictionary inp pv rc) = inp.labels ++ ["version"] := by
  simp only [makeDictionary]
  have h0 : keysOf (inp.labels.map (fun label => (label, initLabelNode)))
      = inp.labels := keysOf_map_initNode inp.labels
  have h1 : keysOf (pyAssign (inp.labels.map (fun label => (label, initLabelNode)))
      "version" (.dict (pyAssign inp.package_information "pesummary"
        (.list [.str pv]))))
      = inp.labels ++ ["version"] := by
    rw [keysOf_pyAssign, h0, if_neg hv]
  rw [keysOf_coreLoop inp rc _ _ ?_, h1]
  intro i hi
  rw [h1]
  exact List.mem_append_left _ (getD_mem inp.labels i hi)

theorem lookup_makeDictionary_label (inp : BuildInput) (pv : String)
    (rc : PyVal → PyVal) (hnd : inp.labels.Nodup)
    (hv : "version" ∉ inp.labels) (num : ℕ) (hnum : num < inp.labels.length) :
    List.lookup (inp.labels.getD num "") (makeDictionary inp pv rc)
      = some (.dict (coreNodeFor inp rc num)) := by
  simp only [makeDictionary]
  have hmem := getD_mem inp.labels num hnum
  have hne : inp.labels.getD num "" ≠ "version" := by
    intro hh
    exact hv (hh ▸ hmem)
  refine lookup_coreLoop_self inp rc _ num _ hnd (le_refl _) hnum ?_
  rw [lookup_pyAssign_other _ _ _ _ hne]
  exact lookup_map_initNode inp.labels _ hmem

theorem lookup_makeDictionary_version (inp : BuildInput) (pv : String)
    (rc : PyVal → PyVal) (hv : "version" ∉ inp.labels) :
    List.lookup "version" (makeDictionary inp pv rc)
      = some (.dict (pyAssign inp.package_information "pesummary"
          (.list [.str pv]))) := by
  simp only [makeDictionary]
  rw [lookup_coreLoop_other inp rc _ _ ?_, lookup_pyAssign_self]
  intro i hi
  intro hh
  exact hv (hh ▸ getD_mem inp.labels i hi)

/-! ### Round-trip helper lemmas -/

theorem lookup_isSome_of_mem_keys {α : Type} (kvs : List (String × α))
    (k : String) (h : k ∈ keysOf kvs) :
    ∃ v, List.lookup k kvs = some v := by
  induction kvs with
  | nil => simp [keysOf] at h
  | cons hd tl ih =>
    obtain ⟨k1, v1⟩ := hd
    by_cases hk : k = k1
    · subst hk
      exact ⟨v1, by simp [List.lookup]⟩
    · have hb : (k == k1) = false := beq_eq_false_iff_ne.mpr hk
      rcases ih (by
        rcases List.mem_cons.mp (by simpa [keysOf_cons] using h) with h1 | h1
        · exact absurd h1 hk
        · exact h1) with ⟨v, hv⟩
      exact ⟨v, by simp [List.lookup, hb, hv]⟩

theorem optionMapM_isSome {α β : Type} (f : α → Option β) (l : List α)
    (h : ∀ x ∈ l, ∃ y, f x = some y) :
    ∃ out, optionMapM f l = some out := by
  induction l with
  | nil => exact ⟨[], rfl⟩
  | cons x xs ih =>
    obtain ⟨y, hy⟩ := h x (List.mem_cons_self x xs)
    obtain ⟨out2, hout2⟩ := ih (fun z hz => h z (List.mem_cons_of_mem _ hz))
    exact ⟨y :: out2, by rw [optionMapM, hy, hout2]⟩

theorem optionMapM_asStrJ (ps : List String) :
    optionMapM asStrJ (ps.map JSON.str) = some ps := by
  induction ps with
  | nil => rfl
  | cons p rest ih =>
    simp only [List.map_cons]
    rw [optionMapM, ih]
    rfl

theorem optionMapM_asArr (xs : List (List JSON)) :
    optionMapM asArr (xs.map JSON.arr) = some xs := by
  induction xs with
  | nil => rfl
  | cons x rest ih =>
    simp only [List.map_cons]
    rw [optionMapM, ih]
    rfl

theorem jsonDumpList_scalars (params : List String) (f : String → PyVal)
    (h : ∀ p ∈ params, injScalar (f p)) :
    jsonDumpList (params.map f)
      = some (params.map (fun p => injScalarJSON (f p))) := by
  induction params with
  | nil => rfl
  | cons p rest ih =>
    simp only [List.map_cons]
    rw [jsonDumpList, jsonDump_injScalar (f p) (h p (List.mem_cons_self p rest)),
      ih (fun q hq => h q (List.mem_cons_of_mem _ hq))]

theorem optionMapM_parse_scalars (params : List String) (f : String → PyVal)
    (h : ∀ p ∈ params, injScalar (f p)) :
    optionMapM parse_injection_value
        (params.map (fun p => injScalarJSON (f p)))
      = some (params.map (fun p => injScalarJSON (f p))) := by
  induction params with
  | nil => rfl
  | cons p rest ih =>
    simp only [List.map_cons]
    rw [optionMapM,
      parse_injScalarJSON (f p) (h p (List.mem_cons_self p rest)),
      ih (fun q hq => h q (List.mem_cons_of_mem _ hq))]

theorem optionMapM_getq (idx : ℕ) (samples : List (List JSON))
    (h : ∀ r ∈ samples, idx < r.length) :
    ∃ ws, optionMapM (fun row => row.get? idx) samples = some ws := by
  refine optionMapM_isSome _ samples ?_
  intro r hr
  exact ⟨r.get ⟨idx, h r hr⟩, List.get?_eq_get (h r hr)⟩

theorem dump_psNode (params : List String) (rows : List (List ℚ)) :
    jsonDump (.dict
        [("parameter_names", .list (params.map PyVal.str)),
         ("samples", .list (rows.map (fun r => PyVal.list (r.map PyVal.num))))])
      = some (.obj
        [("parameter_names", .arr (params.map JSON.str)),
         ("samples", .arr (rows.map (fun r => JSON.arr (r.map JSON.num))))]) := by
  have ha : jsonDump (PyVal.list (params.map PyVal.str))
      = some (.arr (params.map JSON.str)) := by
    rw [jsonDump, jsonDumpList_map_str]
  have hb : jsonDump (PyVal.list (rows.map (fun r => PyVal.list (r.map PyVal.num))))
      = some (.arr (rows.map (fun r => JSON.arr (r.map JSON.num)))) := by
    rw [jsonDump, jsonDumpList_rows]
  rw [jsonDump, jsonDumpKVs, ha, jsonDumpKVs, hb, jsonDumpKVs]
  rfl

theorem dump_injNode (params : List String) (f : String → PyVal)
    (h : ∀ p ∈ params, injScalar (f p)) :
    jsonDump (.dict [("injection_values", .list (params.map f))])
      = some (.obj [("injection_values",
          .arr (params.map (fun p => injScalarJSON (f p))))]) := by
  have ha : jsonDump (PyVal.list (params.map f))
      = some (.arr (params.map (fun p => injScalarJSON (f p)))) := by
    rw [jsonDump, jsonDumpList_scalars params f h]
  rw [jsonDump, jsonDumpKVs, ha, jsonDumpKVs]
  rfl

theorem readLabelData_eval (dictkvs : List (String × JSON)) (label : String)
    (nodekvs : List (String × JSON))
    (params : List String) (samplesJ : List (List JSON))
    (ivs : List JSON) (cJ mJ vJ pJ : JSON)
    (hlook : List.lookup label dictkvs = some (.obj nodekvs))
    (hmc : (keysOf nodekvs).contains "mcmc_chains" = false)
    (hps : List.lookup "posterior_samples" nodekvs
      = some (.obj [("parameter_names", .arr (params.map JSON.str)),
                    ("samples", .arr (samplesJ.map JSON.arr))]))
    (hpne : params.isEmpty = false)
    (hinj : List.lookup "injection_data" nodekvs
      = some (.obj [("injection_values", .arr ivs)]))
    (hparse : optionMapM parse_injection_value ivs = some ivs)
    (hcfg : List.lookup "config_file" nodekvs = some cJ)
    (hmeta : List.lookup "meta_data" nodekvs = some mJ)
    (hver : List.lookup "version" nodekvs = some vJ)
    (hpri : List.lookup "priors" nodekvs = some pJ)
    (hrows : ∀ r ∈ samplesJ, params.length ≤ r.length) :
    ∃ w, readLabelData dictkvs label = some
        { parameters := params, samples := samplesJ,
          injection := some (params.zip ivs),
          config := some cJ, meta_data := mJ,
          weights := w, version := vJ, priors := pJ } ∧
      (w.isSome = true ↔ "weights" ∈ params) := by
  have e1 : List.lookup "parameter_names"
      [("parameter_names", JSON.arr (params.map JSON.str)),
       ("samples", JSON.arr (samplesJ.map JSON.arr))]
      = some (JSON.arr (params.map JSON.str)) := rfl
  have e2 : List.lookup "samples"
      [("parameter_names", JSON.arr (params.map JSON.str)),
       ("samples", JSON.arr (samplesJ.map JSON.arr))]
      = some (JSON.arr (samplesJ.map JSON.arr)) := rfl
  have e3 : List.lookup "injection_values"
      [("injection_values", JSON.arr ivs)] = some (JSON.arr ivs) := rfl
  by_cases hw : params.contains "weights" = true
  · have hmem : "weights" ∈ params := (contains_iff_mem params "weights").mp hw
    have hidx : params.indexOf "weights" < params.length :=
      List.indexOf_lt_length.mpr hmem
    obtain ⟨ws, hws⟩ := optionMapM_getq (params.indexOf "weights") samplesJ
      (fun r hr => lt_of_lt_of_le hidx (hrows r hr))
    refine ⟨some ws, ?_, ?_⟩
    · rw [readLabelData, hlook]
      simp only [Option.bind_eq_bind, Option.some_bind, asObj, hmc,
        Bool.false_eq_true, if_false, hps, e1, e2, asArr,
        optionMapM_asStrJ, hpne, hinj, e3, hparse, optionMapM_asArr,
        hcfg, hmeta, hver, hpri, hw, if_true, hws]
    · simp only [Option.isSome_some, true_iff]
      exact hmem
  · refine ⟨Option.none, ?_, ?_⟩
    · rw [readLabelData, hlook]
      simp only [Option.bind_eq_bind, Option.some_bind, asObj, hmc,
        Bool.false_eq_true, if_false, hps, e1, e2, asArr,
        optionMapM_asStrJ, hpne, hinj, e3, hparse, optionMapM_asArr,
        hcfg, hmeta, hver, hpri, hw, if_false]
    · simp only [Option.isSome_none, Bool.false_eq_true, false_iff]
      intro hmem
      exact hw ((contains_iff_mem params "weights").mpr hmem)

theorem npTranspose_row_length (cols : List (List ℚ)) :
    ∀ r ∈ npTranspose cols, r.length = cols.length := by
  intro r hr
  cases cols with
  | nil => simp [npTranspose] at hr
  | cons c cs =>
    simp only [npTranspose, List.mem_map] at hr
    obtain ⟨i, _, hr⟩ := hr
    rw [← hr]
    simp

theorem readLabel_roundtrip (inp : BuildInput) (pv : String)
    (rc : PyVal → PyVal)
    (hnd : inp.labels.Nodup) (hv : "version" ∉ inp.labels)
    (dkvs0 : List (String × JSON))
    (hdkvs : jsonDumpKVs (makeDictionary inp pv rc) = some dkvs0)
    (num : ℕ) (hnum : num < inp.labels.length)
    (hp : keysOf ((inp.samples.lookup (inp.labels.getD num "")).getD []) ≠ [])
    (hinj : ∀ p ∈ keysOf ((inp.samples.lookup (inp.labels.getD num "")).getD []),
      injScalar ((((inp.injection_data.lookup
        (inp.labels.getD num "")).getD []).lookup p).getD PyVal.none)) :
    ∃ b, readLabelData (sortPairs dkvs0) (inp.labels.getD num "") = some b ∧
      b.parameters
        = keysOf ((inp.samples.lookup (inp.labels.getD num "")).getD []) ∧
      b.samples = (npTranspose (((inp.samples.lookup
          (inp.labels.getD num "")).getD []).map Prod.snd)).map
        (fun r => r.map JSON.num) ∧
      b.injection = some (b.parameters.zip (b.parameters.map (fun p =>
        injScalarJSON ((((inp.injection_data.lookup
          (inp.labels.getD num "")).getD []).lookup p).getD PyVal.none)))) ∧
      (∃ cJ, b.config = some cJ ∧
        jsonDump (configValueFor rc (inp.config.getD num PyVal.none))
          = some cJ) ∧
      (b.weights.isSome = true ↔ "weights" ∈ b.parameters) ∧
      b.version
        = .arr [.str ((inp.file_versions.lookup
            (inp.labels.getD num "")).getD "")] := by
  set L := inp.labels.getD num "" with hL
  set SD := (inp.samples.lookup L).getD [] with hSD
  set params := keysOf SD with hparams
  set rows := npTranspose (SD.map Prod.snd) with hrows0
  have hkeysD : keysOf dkvs0 = inp.labels ++ ["version"] :=
    (jsonDumpKVs_keys _ _ hdkvs).trans (keysOf_makeDictionary inp pv rc hv)
  have hndD : (keysOf dkvs0).Nodup := by
    rw [hkeysD]
    refine List.Nodup.append hnd (List.nodup_singleton _) ?_
    intro a ha hb
    rw [List.mem_singleton] at hb
    subst hb
    exact hv ha
  have hmemL : L ∈ keysOf dkvs0 := by
    rw [hkeysD]
    exact List.mem_append_left _ (getD_mem inp.labels num hnum)
  have hbind := jsonDumpKVs_lookup _ _ hdkvs L
  rw [lookup_makeDictionary_label inp pv rc hnd hv num hnum] at hbind
  obtain ⟨nodeJ, hnodeJ⟩ := lookup_isSome_of_mem_keys dkvs0 _ hmemL
  rw [hnodeJ] at hbind
  have hdumpNode : jsonDump (PyVal.dict (coreNodeFor inp rc num))
      = some nodeJ := hbind.symm
  rw [jsonDump] at hdumpNode
  cases hkd : jsonDumpKVs (coreNodeFor inp rc num) with
  | none =>
    rw [hkd] at hdumpNode
    simp at hdumpNode
  | some nodeD =>
    rw [hkd] at hdumpNode
    simp only [Option.some.injEq] at hdumpNode
    subst hdumpNode
    have hkD : keysOf nodeD = ["posterior_samples", "injection_data",
        "version", "meta_data", "priors", "config_file"] := by
      rw [jsonDumpKVs_keys _ _ hkd]
      rfl
    have hndN : (keysOf nodeD).Nodup := by
      rw [hkD]
      decide
    have hlookup1 : List.lookup L (sortPairs dkvs0)
        = some (.obj (sortPairs nodeD)) := by
      rw [lookup_sortPairs dkvs0 hndD, hnodeJ]
    have hNlook : ∀ k, List.lookup k (sortPairs nodeD)
        = (List.lookup k (coreNodeFor inp rc num)).bind jsonDump := by
      intro k
      rw [lookup_sortPairs nodeD hndN, jsonDumpKVs_lookup _ _ hkd]
    have hmc : (keysOf (sortPairs nodeD)).contains "mcmc_chains" = false := by
      refine Bool.eq_false_iff.mpr ?_
      intro hc
      have hm2 := (keysOf_sortPairs_perm nodeD).mem_iff.mp
        ((contains_iff_mem _ _).mp hc)
      rw [hkD] at hm2
      simp at hm2
    have hsampEq : (rows.map (fun r => r.map JSON.num)).map JSON.arr
        = rows.map (fun r => JSON.arr (r.map JSON.num)) := by
      rw [List.map_map]
      rfl
    have hps0 : List.lookup "posterior_samples" (sortPairs nodeD)
        = some (.obj [("parameter_names", .arr (params.map JSON.str)),
            ("samples",
             .arr ((rows.map (fun r => r.map JSON.num)).map JSON.arr))]) := by
      rw [hNlook, show List.lookup "posterior_samples" (coreNodeFor inp rc num)
        = some (PyVal.dict
            [("parameter_names", .list (params.map PyVal.str)),
             ("samples", .list (rows.map (fun r =>
                PyVal.list (r.map PyVal.num))))]) from rfl, hsampEq]
      exact dump_psNode params rows
    have hinj0 : List.lookup "injection_data" (sortPairs nodeD)
        = some (.obj [("injection_values", .arr (params.map (fun p =>
            injScalarJSON ((((inp.injection_data.lookup L).getD
              []).lookup p).getD PyVal.none))))]) := by
      rw [hNlook, show List.lookup "injection_data" (coreNodeFor inp rc num)
        = some (PyVal.dict [("injection_values", .list (params.map (fun p =>
            (((inp.injection_data.lookup L).getD
              []).lookup p).getD PyVal.none)))]) from rfl]
      exact dump_injNode params _ hinj
    obtain ⟨cJ, hcJ⟩ := lookup_isSome_of_mem_keys nodeD "config_file"
      (by rw [hkD]; decide)
    have hcfg0 : List.lookup "config_file" (sortPairs nodeD) = some cJ := by
      rw [lookup_sortPairs nodeD hndN]
      exact hcJ
    have hcdump : jsonDump (configValueFor rc (inp.config.getD num PyVal.none))
        = some cJ := by
      have h2 := hNlook "config_file"
      rw [hcfg0, show List.lookup "config_file" (coreNodeFor inp rc num)
        = some (configValueFor rc (inp.config.getD num PyVal.none))
        from rfl] at h2
      exact h2.symm
    obtain ⟨mJ, hmJ⟩ := lookup_isSome_of_mem_keys (sortPairs nodeD) "meta_data"
      (by
        refine ((keysOf_sortPairs_perm nodeD).mem_iff).mpr ?_
        rw [hkD]
        decide)
    obtain ⟨pJ, hpJ⟩ := lookup_isSome_of_mem_keys (sortPairs nodeD) "priors"
      (by
        refine ((keysOf_sortPairs_perm nodeD).mem_iff).mpr ?_
        rw [hkD]
        decide)
    have hver0 : List.lookup "version" (sortPairs nodeD)
        = some (.arr [.str ((inp.file_versions.lookup L).getD "")]) := by
      rw [hNlook, show List.lookup "version" (coreNodeFor inp rc num)
        = some (PyVal.list [.str ((inp.file_versions.lookup L).getD "")])
        from rfl]
      rfl
    have hpne : params.isEmpty = false := by
      cases hq : params with
      | nil => exact absurd hq hp
      | cons a as => rfl
    have hparse := optionMapM_parse_scalars params _ hinj
    have hrlen : ∀ r ∈ rows.map (fun r => r.map JSON.num),
        params.length ≤ r.length := by
      intro r2 hr2
      rw [List.mem_map] at hr2
      obtain ⟨r, hr, hr2⟩ := hr2
      rw [← hr2, List.length_map,
        npTranspose_row_length (SD.map Prod.snd) r hr, List.length_map,
        hparams, keysOf, List.length_map]
    obtain ⟨w, hread, hwiff⟩ := readLabelData_eval (sortPairs dkvs0) L
      (sortPairs nodeD) params (rows.map (fun r => r.map JSON.num)) _
      cJ mJ (.arr [.str ((inp.file_versions.lookup L).getD "")]) pJ
      hlookup1 hmc hps0 hpne hinj0 hparse hcfg0 hmJ hver0 hpJ hrlen
    exact ⟨_, hread, rfl, rfl, rfl, ⟨cJ, rfl, hcdump⟩, hwiff, rfl⟩

theorem erase_append_not_mem (l : List String) (a : String) (h : a ∉ l) :
    (l ++ [a]).erase a = l := by
  induction l with
  | nil => simp
  | cons x xs ih =>
    have hx : (x == a) = false :=
      beq_eq_false_iff_ne.mpr (fun hh => h (hh ▸ List.mem_cons_self x xs))
    rw [List.cons_append, List.erase_cons]
    simp only [hx, Bool.false_eq_true, if_false]
    rw [ih (fun hm => h (List.mem_cons_of_mem _ hm))]

/-- C1 (amended).  The JSON round trip of the builder's dictionary
reconstructs the aggregate up to the sorted-key reordering of
`json.dump(..., sort_keys=True)`, provided no analysis is labelled with
the reserved top-level key `version`: the reader's label list is a
permutation of the built labels; for every built label the loop body
succeeds and returns the parameter names in their original order, the
exact sample values, the injection values (scalars surviving verbatim),
the serialized config node, a standalone weights sequence exactly when a
`weights` column exists, and the per-label version. -/
theorem C1_amended_sorted_roundtrip (inp : BuildInput) (pv : String)
    (rc : PyVal → PyVal) (doc : JSON)
    (hnd : inp.labels.Nodup) (hv : "version" ∉ inp.labels)
    (hdump : jsonDump (PyVal.dict (makeDictionary inp pv rc)) = some doc)
    (hp : ∀ num, num < inp.labels.length →
      keysOf ((inp.samples.lookup (inp.labels.getD num "")).getD []) ≠ [])
    (hinj : ∀ num, num < inp.labels.length →
      ∀ p ∈ keysOf ((inp.samples.lookup (inp.labels.getD num "")).getD []),
        injScalar ((((inp.injection_data.lookup
          (inp.labels.getD num "")).getD []).lookup p).getD PyVal.none)) :
    ∃ dkvs out,
      asObj doc = some dkvs ∧
      _grab_data_from_dictionary doc = some out ∧
      out.labels.Perm inp.labels ∧
      out.mcmc_samples = false ∧
      optionMapM (readLabelData dkvs) out.labels = some out.bundles ∧
      ∀ num, num < inp.labels.length →
        ∃ b, readLabelData dkvs (inp.labels.getD num "") = some b ∧
          b.parameters
            = keysOf ((inp.samples.lookup (inp.labels.getD num "")).getD []) ∧
          b.samples = (npTranspose (((inp.samples.lookup
              (inp.labels.getD num "")).getD []).map Prod.snd)).map
            (fun r => r.map JSON.num) ∧
          b.injection = some (b.parameters.zip (b.parameters.map (fun p =>
            injScalarJSON ((((inp.injection_data.lookup
              (inp.labels.getD num "")).getD []).lookup p).getD
                PyVal.none)))) ∧
          (∃ cJ, b.config = some cJ ∧
            jsonDump (configValueFor rc (inp.config.getD num PyVal.none))
              = some cJ) ∧
          (b.weights.isSome = true ↔ "weights" ∈ b.parameters) ∧
          b.version
            = .arr [.str ((inp.file_versions.lookup
                (inp.labels.getD num "")).getD "")] := by
  rw [jsonDump] at hdump
  cases hkd : jsonDumpKVs (makeDictionary inp pv rc) with
  | none =>
    rw [hkd] at hdump
    simp at hdump
  | some dkvs0 =>
    rw [hkd] at hdump
    simp only [Option.some.injEq] at hdump
    subst hdump
    have hkeysD : keysOf dkvs0 = inp.labels ++ ["version"] :=
      (jsonDumpKVs_keys _ _ hkd).trans (keysOf_makeDictionary inp pv rc hv)
    have hndD : (keysOf dkvs0).Nodup := by
      rw [hkeysD]
      refine List.Nodup.append hnd (List.nodup_singleton _) ?_
      intro a ha hb
      rw [List.mem_singleton] at hb
      subst hb
      exact hv ha
    have hkeysSorted : (keysOf (sortPairs dkvs0)).Perm
        (inp.labels ++ ["version"]) :=
      (keysOf_sortPairs_perm dkvs0).trans (by rw [hkeysD])
    have hndS : (keysOf (sortPairs dkvs0)).Nodup :=
      (List.Perm.nodup_iff (keysOf_sortPairs_perm dkvs0)).mpr hndD
    have hcont : (keysOf (sortPairs dkvs0)).contains "version" = true :=
      (contains_iff_mem _ _).mpr (hkeysSorted.mem_iff.mpr
        (List.mem_append_right _ (List.mem_singleton.mpr rfl)))
    have hpermL : ((keysOf (sortPairs dkvs0)).erase "version").Perm
        inp.labels := by
      have h1 := hkeysSorted.erase "version"
      rw [erase_append_not_mem inp.labels "version" hv] at h1
      exact h1
    have hvR : "version" ∉ (keysOf (sortPairs dkvs0)).erase "version" := by
      intro hm
      exact absurd ((List.Nodup.mem_erase_iff hndS).mp hm).1 (by simp)
    have hfilter : ((keysOf (sortPairs dkvs0)).erase "version").filter
        (fun l => l ≠ "version") = (keysOf (sortPairs dkvs0)).erase "version" := by
      refine List.filter_eq_self.mpr ?_
      intro a ha
      exact decide_eq_true (fun hh => hvR (hh ▸ ha))
    have hall : ∀ l ∈ (keysOf (sortPairs dkvs0)).erase "version",
        ∃ b, readLabelData (sortPairs dkvs0) l = some b := by
      intro l hl
      obtain ⟨⟨num, hlt⟩, hget⟩ := List.mem_iff_get.mp (hpermL.mem_iff.mp hl)
      obtain ⟨b, hb, _⟩ := readLabel_roundtrip inp pv rc hnd hv dkvs0 hkd
        num hlt (hp num hlt) (hinj num hlt)
      refine ⟨b, ?_⟩
      rw [← show inp.labels.getD num "" = l from by
        rw [getD_eq_get _ _ hlt, hget]]
      exact hb
    obtain ⟨bundles, hbundles⟩ := optionMapM_isSome _ _ hall
    have hmain : _grab_data_from_dictionary (.obj (sortPairs dkvs0))
        = some ⟨(keysOf (sortPairs dkvs0)).erase "version", bundles,
            reversedPriors ((((keysOf (sortPairs dkvs0)).erase
              "version").zip bundles)), false⟩ := by
      rw [_grab_data_from_dictionary]
      simp only [asObj, Option.bind_eq_bind, Option.some_bind, hcont,
        if_true, hfilter, hbundles]
    refine ⟨sortPairs dkvs0, _, rfl, hmain, hpermL, rfl, ?_, ?_⟩
    · exact hbundles
    · intro num hnum
      exact readLabel_roundtrip inp pv rc hnd hv dkvs0 hkd num hnum
        (hp num hnum) (hinj num hnum)

/-- The aggregate for the C1 counterexample: a single analysis whose
label is `version`, the reserved top-level key. -/
def c1cInp : BuildInput :=
  { labels := ["version"],
    samples := [("version", [("a", [1])])],
    injection_data := [], file_versions := [], file_kwargs := [],
    config := [], priors := [], package_information := [] }

/-- C1.  The claim asserts that for every aggregate built from a set of
records, reading back the written JSON document reconstructs the same
labels.  Counterexample: a record labelled `version` collides with the
reserved top-level `version` node — the builder happily stores it, but
the reader removes `version` from the key list, so the aggregate built
from the single label `version` reads back with no labels at all. -/
theorem C1_counterexample :
    ((jsonDump (PyVal.dict (makeDictionary c1cInp "1.0" id))).bind
        _grab_data_from_dictionary).map ReaderOut.labels = some [] ∧
      c1cInp.labels = ["version"] := ⟨rfl, rfl⟩

/-- A concrete aggregate for the C1 witness: one label, two parameters,
two draws, a NaN injection for `a` and none for `b`. -/
def c1wInp : BuildInput :=
  { labels := ["l1"],
    samples := [("l1", [("a", [1, 2]), ("b", [3, 4])])],
    injection_data := [("l1", [("a", PyVal.nan)])],
    file_versions := [("l1", "v1")],
    file_kwargs := [], config := [], priors := [],
    package_information := [] }

/-- The JSON document the builder writes for `c1wInp`. -/
def c1wDoc : JSON :=
  (jsonDump (PyVal.dict (makeDictionary c1wInp "1.0" id))).getD .null

/-- Witness for C1 (amended): the round-trip theorem applied to the
concrete one-label aggregate `c1wInp`. -/
theorem C1_amended_sorted_roundtrip_witness :
    ∃ dkvs out,
      asObj c1wDoc = some dkvs ∧
      _grab_data_from_dictionary c1wDoc = some out ∧
      out.labels.Perm c1wInp.labels ∧
      out.mcmc_samples = false ∧
      optionMapM (readLabelData dkvs) out.labels = some out.bundles ∧
      ∀ num, num < c1wInp.labels.length →
        ∃ b, readLabelData dkvs (c1wInp.labels.getD num "") = some b ∧
          b.parameters
            = keysOf ((c1wInp.samples.lookup
                (c1wInp.labels.getD num "")).getD []) ∧
          b.samples = (npTranspose (((c1wInp.samples.lookup
              (c1wInp.labels.getD num "")).getD []).map Prod.snd)).map
            (fun r => r.map JSON.num) ∧
          b.injection = some (b.parameters.zip (b.parameters.map (fun p =>
            injScalarJSON ((((c1wInp.injection_data.lookup
              (c1wInp.labels.getD num "")).getD []).lookup p).getD
                PyVal.none)))) ∧
          (∃ cJ, b.config = some cJ ∧
            jsonDump (configValueFor id (c1wInp.config.getD num PyVal.none))
              = some cJ) ∧
          (b.weights.isSome = true ↔ "weights" ∈ b.parameters) ∧
          b.version
            = .arr [.str ((c1wInp.file_versions.lookup
                (c1wInp.labels.getD num "")).getD "")] := by
  refine C1_amended_sorted_roundtrip c1wInp "1.0" id c1wDoc ?_ ?_ ?_ ?_ ?_
  · decide
  · decide
  · rfl
  · intro num hnum
    have h1 : c1wInp.labels.length = 1 := rfl
    rw [h1] at hnum
    have h0 : num = 0 := by omega
    subst h0
    decide
  · intro num hnum p hpm
    have h1 : c1wInp.labels.length = 1 := rfl
    rw [h1] at hnum
    have h0 : num = 0 := by omega
    subst h0
    have hk : keysOf ((c1wInp.samples.lookup
        (c1wInp.labels.getD 0 "")).getD []) = ["a", "b"] := rfl
    rw [hk] at hpm
    rcases List.mem_cons.mp hpm with h | h
    · subst h
      exact Or.inl rfl
    · rw [List.mem_singleton] at h
      subst h
      exact Or.inr (Or.inl rfl)


/-! ### C5: HDF5 de-duplication via softlinks -/

mutual

/-- Structural decidable equality for `PyVal` (handwritten; the
deriving handler does not support the nested occurrences). -/
def PyVal.deq : (a b : PyVal) → Decidable (a = b)
  | .none, .none => isTrue rfl
  | .bool a, .bool b =>
    if h : a = b then isTrue (by rw [h]) else isFalse (by simp [h])
  | .npbool a, .npbool b =>
    if h : a = b then isTrue (by rw [h]) else isFalse (by simp [h])
  | .num a, .num b =>
    if h : a = b then isTrue (by rw [h]) else isFalse (by simp [h])
  | .npint a, .npint b =>
    if h : a = b then isTrue (by rw [h]) else isFalse (by simp [h])
  | .npfloat a, .npfloat b =>
    if h : a = b then isTrue (by rw [h]) else isFalse (by simp [h])
  | .nan, .nan => isTrue rfl
  | .str a, .str b =>
    if h : a = b then isTrue (by rw [h]) else isFalse (by simp [h])
  | .list a, .list b =>
    match PyVal.deqList a b with
    | isTrue h => isTrue (by rw [h])
    | isFalse h => isFalse (by simp [h])
  | .ndarray a, .ndarray b =>
    match PyVal.deqList a b with
    | isTrue h => isTrue (by rw [h])
    | isFalse h => isFalse (by simp [h])
  | .dict a, .dict b =>
    match PyVal.deqKV a b with
    | isTrue h => isTrue (by rw [h])
    | isFalse h => isFalse (by simp [h])
  | .pyfunc a, .pyfunc b =>
    if h : a = b then isTrue (by rw [h]) else isFalse (by simp [h])
  | .pyclass a, .pyclass b =>
    if h : a = b then isTrue (by rw [h]) else isFalse (by simp [h])
  | .unserializable, .unserializable => isTrue rfl
  | .none, .bool _ => isFalse (by simp)
  | .none, .npbool _ => isFalse (by simp)
  | .none, .num _ => isFalse (by simp)
  | .none, .npint _ => isFalse (by simp)
  | .none, .npfloat _ => isFalse (by simp)
  | .none, .nan => isFalse (by simp)
  | .none, .str _ => isFalse (by simp)
  | .none, .list _ => isFalse (by simp)
  | .none, .ndarray _ => isFalse (by simp)
  | .none, .dict _ => isFalse (by simp)
  | .none, .pyfunc _ => isFalse (by simp)
  | .none, .pyclass _ => isFalse (by simp)
  | .none, .unserializable => isFalse (by simp)
  | .bool _, .none => isFalse (by simp)
  | .bool _, .npbool _ => isFalse (by simp)
  | .bool _, .num _ => isFalse (by simp)
  | .bool _, .npint _ => isFalse (by simp)
  | .bool _, .npfloat _ => isFalse (by simp)
  | .bool _, .nan => isFalse (by simp)
  | .bool _, .str _ => isFalse (by simp)
  | .bool _, .list _ => isFalse (by simp)
  | .bool _, .ndarray _ => isFalse (by simp)
  | .bool _, .dict _ => isFalse (by simp)
  | .bool _, .pyfunc _ => isFalse (by simp)
  | .bool _, .pyclass _ => isFalse (by simp)
  | .bool _, .unserializable => isFalse (by simp)
  | .npbool _, .none => isFalse (by simp)
  | .npbool _, .bool _ => isFalse (by simp)
  | .npbool _, .num _ => isFalse (by simp)
  | .npbool _, .npint _ => isFalse (by simp)
  | .npbool _, .npfloat _ => isFalse (by simp)
  | .npbool _, .nan => isFalse (by simp)
  | .npbool _, .str _ => isFalse (by simp)
  | .npbool _, .list _ => isFalse (by simp)
  | .npbool _, .ndarray _ => isFalse (by simp)
  | .npbool _, .dict _ => isFalse (by simp)
  | .npbool _, .pyfunc _ => isFalse (by simp)
  | .npbool _, .pyclass _ => isFalse (by simp)
  | .npbool _, .unserializable => isFalse (by simp)
  | .num _, .none => isFalse (by simp)
  | .num _, .bool _ => isFalse (by simp)
  | .num _, .npbool _ => isFalse (by simp)
  | .num _, .npint _ => isFalse (by simp)
  | .num _, .npfloat _ => isFalse (by simp)
  | .num _, .nan => isFalse (by simp)
  | .num _, .str _ => isFalse (by simp)
  | .num _, .list _ => isFalse (by simp)
  | .num _, .ndarray _ => isFalse (by simp)
  | .num _, .dict _ => isFalse (by simp)
  | .num _, .pyfunc _ => isFalse (by simp)
  | .num _, .pyclass _ => isFalse (by simp)
  | .num _, .unserializable => isFalse (by simp)
  | .npint _, .none => isFalse (by simp)
  | .npint _, .bool _ => isFalse (by simp)
  | .npint _, .npbool _ => isFalse (by simp)
  | .npint _, .num _ => isFalse (by simp)
  | .npint _, .npfloat _ => isFalse (by simp)
  | .npint _, .nan => isFalse (by simp)
  | .npint _, .str _ => isFalse (by simp)
  | .npint _, .list _ => isFalse (by simp)
  | .npint _, .ndarray _ => isFalse (by simp)
  | .npint _, .dict _ => isFalse (by simp)
  | .npint _, .pyfunc _ => isFalse (by simp)
  | .npint _, .pyclass _ => isFalse (by simp)
  | .npint _, .unserializable => isFalse (by simp)
  | .npfloat _, .none => isFalse (by simp)
  | .npfloat _, .bool _ => isFalse (by simp)
  | .npfloat _, .npbool _ => isFalse (by simp)
  | .npfloat _, .num _ => isFalse (by simp)
  | .npfloat _, .npint _ => isFalse (by simp)
  | .npfloat _, .nan => isFalse (by simp)
  | .npfloat _, .str _ => isFalse (by simp)
  | .npfloat _, .list _ => isFalse (by simp)
  | .npfloat _, .ndarray _ => isFalse (by simp)
  | .npfloat _, .dict _ => isFalse (by simp)
  | .npfloat _, .pyfunc _ => isFalse (by simp)
  | .npfloat _, .pyclass _ => isFalse (by simp)
  | .npfloat _, .unserializable => isFalse (by simp)
  | .nan, .none => isFalse (by simp)
  | .nan, .bool _ => isFalse (by simp)
  | .nan, .npbool _ => isFalse (by simp)
  | .nan, .num _ => isFalse (by simp)
  | .nan, .npint _ => isFalse (by simp)
  | .nan, .npfloat _ => isFalse (by simp)
  | .nan, .str _ => isFalse (by simp)
  | .nan, .list _ => isFalse (by simp)
  | .nan, .ndarray _ => isFalse (by simp)
  | .nan, .dict _ => isFalse (by simp)
  | .nan, .pyfunc _ => isFalse (by simp)
  | .nan, .pyclass _ => isFalse (by simp)
  | .nan, .unserializable => isFalse (by simp)
  | .str _, .none => isFalse (by simp)
  | .str _, .bool _ => isFalse (by simp)
  | .str _, .npbool _ => isFalse (by simp)
  | .str _, .num _ => isFalse (by simp)
  | .str _, .npint _ => isFalse (by simp)
  | .str _, .npfloat _ => isFalse (by simp)
  | .str _, .nan => isFalse (by simp)
  | .str _, .list _ => isFalse (by simp)
  | .str _, .ndarray _ => isFalse (by simp)
  | .str _, .dict _ => isFalse (by simp)
  | .str _, .pyfunc _ => isFalse (by simp)
  | .str _, .pyclass _ => isFalse (by simp)
  | .str _, .unserializable => isFalse (by simp)
  | .list _, .none => isFalse (by simp)
  | .list _, .bool _ => isFalse (by simp)
  | .list _, .npbool _ => isFalse (by simp)
  | .list _, .num _ => isFalse (by simp)
  | .list _, .npint _ => isFalse (by simp)
  | .list _, .npfloat _ => isFalse (by simp)
  | .list _, .nan => isFalse (by simp)
  | .list _, .str _ => isFalse (by simp)
  | .list _, .ndarray _ => isFalse (by simp)
  | .list _, .dict _ => isFalse (by simp)
  | .list _, .pyfunc _ => isFalse (by simp)
  | .list _, .pyclass _ => isFalse (by simp)
  | .list _, .unserializable => isFalse (by simp)
  | .ndarray _, .none => isFalse (by simp)
  | .ndarray _, .bool _ => isFalse (by simp)
  | .ndarray _, .npbool _ => isFalse (by simp)
  | .ndarray _, .num _ => isFalse (by simp)
  | .ndarray _, .npint _ => isFalse (by simp)
  | .ndarray _, .npfloat _ => isFalse (by simp)
  | .ndarray _, .nan => isFalse (by simp)
  | .ndarray _, .str _ => isFalse (by simp)
  | .ndarray _, .list _ => isFalse (by simp)
  | .ndarray _, .dict _ => isFalse (by simp)
  | .ndarray _, .pyfunc _ => isFalse (by simp)
  | .ndarray _, .pyclass _ => isFalse (by simp)
  | .ndarray _, .unserializable => isFalse (by simp)
  | .dict _, .none => isFalse (by simp)
  | .dict _, .bool _ => isFalse (by simp)
  | .dict _, .npbool _ => isFalse (by simp)
  | .dict _, .num _ => isFalse (by simp)
  | .dict _, .npint _ => isFalse (by simp)
  | .dict _, .npfloat _ => isFalse (by simp)
  | .dict _, .nan => isFalse (by simp)
  | .dict _, .str _ => isFalse (by simp)
  | .dict _, .list _ => isFalse (by simp)
  | .dict _, .ndarray _ => isFalse (by simp)
  | .dict _, .pyfunc _ => isFalse (by simp)
  | .dict _, .pyclass _ => isFalse (by simp)
  | .dict _, .unserializable => isFalse (by simp)
  | .pyfunc _, .none => isFalse (by simp)
  | .pyfunc _, .bool _ => isFalse (by simp)
  | .pyfunc _, .npbool _ => isFalse (by simp)
  | .pyfunc _, .num _ => isFalse (by simp)
  | .pyfunc _, .npint _ => isFalse (by simp)
  | .pyfunc _, .npfloat _ => isFalse (by simp)
  | .pyfunc _, .nan => isFalse (by simp)
  | .pyfunc _, .str _ => isFalse (by simp)
  | .pyfunc _, .list _ => isFalse (by simp)
  | .pyfunc _, .ndarray _ => isFalse (by simp)
  | .pyfunc _, .dict _ => isFalse (by simp)
  | .pyfunc _, .pyclass _ => isFalse (by simp)
  | .pyfunc _, .unserializable => isFalse (by simp)
  | .pyclass _, .none => isFalse (by simp)
  | .pyclass _, .bool _ => isFalse (by simp)
  | .pyclass _, .npbool _ => isFalse (by simp)
  | .pyclass _, .num _ => isFalse (by simp)
  | .pyclass _, .npint _ => isFalse (by simp)
  | .pyclass _, .npfloat _ => isFalse (by simp)
  | .pyclass _, .nan => isFalse (by simp)
  | .pyclass _, .str _ => isFalse (by simp)
  | .pyclass _, .list _ => isFalse (by simp)
  | .pyclass _, .ndarray _ => isFalse (by simp)
  | .pyclass _, .dict _ => isFalse (by simp)
  | .pyclass _, .pyfunc _ => isFalse (by simp)
  | .pyclass _, .unserializable => isFalse (by simp)
  | .unserializable, .none => isFalse (by simp)
  | .unserializable, .bool _ => isFalse (by simp)
  | .unserializable, .npbool _ => isFalse (by simp)
  | .unserializable, .num _ => isFalse (by simp)
  | .unserializable, .npint _ => isFalse (by simp)
  | .unserializable, .npfloat _ => isFalse (by simp)
  | .unserializable, .nan => isFalse (by simp)
  | .unserializable, .str _ => isFalse (by simp)
  | .unserializable, .list _ => isFalse (by simp)
  | .unserializable, .ndarray _ => isFalse (by simp)
  | .unserializable, .dict _ => isFalse (by simp)
  | .unserializable, .pyfunc _ => isFalse (by simp)
  | .unserializable, .pyclass _ => isFalse (by simp)
termination_by structural a => a

def PyVal.deqList : (a b : List PyVal) → Decidable (a = b)
  | [], [] => isTrue rfl
  | [], _ :: _ => isFalse (by simp)
  | _ :: _, [] => isFalse (by simp)
  | x :: xs, y :: ys =>
    match PyVal.deq x y, PyVal.deqList xs ys with
    | isTrue h1, isTrue h2 => isTrue (by rw [h1, h2])
    | isFalse h1, _ => isFalse (by simp [h1])
    | isTrue _, isFalse h2 => isFalse (by simp [h2])
termination_by structural a => a

def PyVal.deqKV : (a b : List (String × PyVal)) → Decidable (a = b)
  | [], [] => isTrue rfl
  | [], _ :: _ => isFalse (by simp)
  | _ :: _, [] => isFalse (by simp)
  | (k1, v1) :: xs, (k2, v2) :: ys =>
    match String.decEq k1 k2, PyVal.deq v1 v2, PyVal.deqKV xs ys with
    | isTrue h0, isTrue h1, isTrue h2 => isTrue (by rw [h0, h1, h2])
    | isFalse h0, _, _ => isFalse (by simp [h0])
    | isTrue _, isFalse h1, _ => isFalse (by simp [h1])
    | isTrue _, isTrue _, isFalse h2 => isFalse (by simp [h2])
termination_by structural a => a

end

instance : DecidableEq PyVal := PyVal.deq

/-- `isinstance(v, dict)`. -/
def isDict : PyVal → Bool
  | .dict _ => true
  | _ => false

/-- The dictionary key under which `_create_softlinks` buckets a value
(`core/file/meta_file.py`, lines 358-362):
`rev_dictionary.setdefault(value, set()).add(key)` uses the value itself
as a dict key when it is hashable — Python `==`/`hash` identify `True`
with `1`/`1.0` and numpy scalars with their values — and falls back to
`str(value)` on `TypeError` for unhashable values (lists, arrays,
dicts).  `pystr` is the `str()` oracle for those unhashable values.  A
float NaN compares unequal to every value including itself, so it never
joins an existing bucket (see `buildBuckets`). -/
def softKeyOf (pystr : PyVal → String) : PyVal → PyVal
  | .list xs => .str (pystr (.list xs))
  | .ndarray xs => .str (pystr (.ndarray xs))
  | .dict kvs => .str (pystr (.dict kvs))
  | .bool b => .num (if b then 1 else 0)
  | .npbool b => .num (if b then 1 else 0)
  | .npint n => .num n
  | .npfloat q => .num q
  | other => other

mutual

/-- `pandas` `nested_to_record(..., sep="/")` on one value sitting at
flattened path `path`: a nested dict is expanded (an empty dict
vanishing entirely), anything else is a leaf. -/
def flattenVal (path : String) : PyVal → List (String × PyVal)
  | .dict kvs => flattenSub path kvs
  | other => [(path, other)]
termination_by structural a => a

/-- The sub-dictionary case of the flattening: keys are joined to the
running path with `/`. -/
def flattenSub (pre : String) : List (String × PyVal) →
    List (String × PyVal)
  | [] => []
  | (k, v) :: rest => flattenVal (pre ++ "/" ++ k) v ++ flattenSub pre rest
termination_by structural a => a

end

/-- Top level of `nested_to_record`: level-0 keys are not prefixed. -/
def nestedToRecord : List (String × PyVal) → List (String × PyVal)
  | [] => []
  | (k, v) :: rest => flattenVal k v ++ nestedToRecord rest

/-- `rev_dictionary.setdefault(value, ...).add(key)` for one hashable
key: append the path to the first bucket with an equal key, else open a
new bucket. -/
def addToBucket : List (PyVal × List String) → PyVal → String →
    List (PyVal × List String)
  | [], k, p => [(k, [p])]
  | (k1, ps) :: rest, k, p =>
    if k1 = k then (k1, ps ++ [p]) :: rest
    else (k1, ps) :: addToBucket rest k p

/-- One step of the reverse-dictionary construction.  A NaN value never
compares equal to an existing bucket key (Python `nan != nan`), so it
always opens a fresh bucket. -/
def bucketStep (pystr : PyVal → String) (acc : List (PyVal × List String))
    (pv : String × PyVal) : List (PyVal × List String) :=
  let k := softKeyOf pystr pv.2
  if k = PyVal.nan then acc ++ [(k, [pv.1])]
  else addToBucket acc k pv.1

/-- The reverse dictionary of `_create_softlinks` (lines 357-362),
bucketing flattened paths by their value. -/
def buildBuckets (pystr : PyVal → String) (flat : List (String × PyVal)) :
    List (PyVal × List String) :=
  flat.foldl (bucketStep pystr) []

/-- `modify_dict`'s destructive path assignment
(`reduce(getitem, key_list[:-1], mod)[key_list[-1]] = replace`). -/
def setPath (repl : PyVal) : List String → List (String × PyVal) →
    List (String × PyVal)
  | [], kvs => kvs
  | [k], kvs => pyAssign kvs k repl
  | k :: rest, kvs =>
    pyAssign kvs k
      (match (kvs.lookup k).getD (.dict []) with
       | .dict sub => .dict (setPath repl rest sub)
       | other => other)

def splitAux : List Char → List Char → List String
  | [], acc => [String.mk acc.reverse]
  | c :: cs, acc =>
    if c = '/' then String.mk acc.reverse :: splitAux cs []
    else splitAux cs (c :: acc)

/-- Python `key.split("/")`. -/
def splitSlash (s : String) : List String := splitAux s.data []

/-- `modify_dict(key, dictionary, replace)` (lines 344-353). -/
def modifyDict (key : String) (kvs : List (String × PyVal)) (repl : PyVal) :
    List (String × PyVal) :=
  setPath repl (splitSlash key) kvs

/-- `_MetaFile._create_softlinks` (`core/file/meta_file.py`, lines
328-369): flatten, bucket by value, and replace every path after the
first of each bucket by a `softlink:/<first path>` marker.  The order
of `tmp = list(values)` is not specified by Python's `set`; the model
takes insertion order, with the first-seen path as the link target. -/
def softlinkInner (p0 : String) (d : List (String × PyVal))
    (dup : String) : List (String × PyVal) :=
  modifyDict dup d (.str ("softlink:/" ++ p0))

def softlinkOuter (data : List (String × PyVal))
    (b : PyVal × List String) : List (String × PyVal) :=
  match b.2 with
  | [] => data
  | p0 :: dups => dups.foldl (softlinkInner p0) data

def _create_softlinks (pystr : PyVal → String)
    (kvs : List (String × PyVal)) : List (String × PyVal) :=
  let flat := nestedToRecord kvs
  let buckets := buildBuckets pystr flat
  buckets.foldl softlinkOuter kvs

/-- Lookup of a dataset at a `/`-separated HDF5 path. -/
def getPath : List String → List (String × PyVal) → Option PyVal
  | [], _ => Option.none
  | [k], kvs => kvs.lookup k
  | k :: rest, kvs =>
    match kvs.lookup k with
    | some (.dict sub) => getPath rest sub
    | _ => Option.none

/-- The characters following the first occurrence of `pat`, if any —
`value.split(pat)[1]` for a single occurrence. -/
def afterSub (pat : List Char) : List Char → Option (List Char)
  | [] => if pat = [] then some [] else Option.none
  | c :: cs =>
    if pat.isPrefixOf (c :: cs) then some ((c :: cs).drop pat.length)
    else afterSub pat cs

mutual

/-- Resolution of the written file's soft links, as `create_hdf5_dataset`
(lines 108-114) interprets them: a string value containing `softlink:`
becomes `h5py.SoftLink` of the text after it (an absolute `/...` HDF5
path); resolving it reads the dataset at that path in the written tree.
Every other leaf denotes itself; groups resolve recursively. -/
def resolveVal (root : List (String × PyVal)) : PyVal → PyVal
  | .dict kvs => .dict (resolveKVs root kvs)
  | .str s =>
    (match afterSub ("softlink:".data) s.data with
     | some cs =>
       let cs2 := match cs with
         | c :: rest => if c = '/' then rest else c :: rest
         | [] => []
       (match getPath (splitSlash (String.mk cs2)) root with
        | some v => v
        | Option.none => .str s)
     | Option.none => .str s)
  | other => other
termination_by structural a => a

def resolveKVs (root : List (String × PyVal)) :
    List (String × PyVal) → List (String × PyVal)
  | [] => []
  | (k, v) :: rest => (k, resolveVal root v) :: resolveKVs root rest
termination_by structural a => a

end

def noSlashStr (s : String) : Bool := s.data.all (fun c => c ≠ '/')

def noMarkerStr (s : String) : Bool := (afterSub ("softlink:".data) s.data).isNone

mutual

/-- Well-formedness of a tree for de-duplication: distinct keys at every
level, no `/` inside a key (so flattened paths are unambiguous), and no
pre-existing string leaf containing the `softlink:` marker. -/
def wfVal : PyVal → Bool
  | .dict kvs => wfKVs kvs
  | .str s => noMarkerStr s
  | _ => true
termination_by structural a => a

def wfKVs : List (String × PyVal) → Bool
  | [] => true
  | (k, v) :: rest =>
    noSlashStr k && !((keysOf rest).contains k) && wfVal v && wfKVs rest
termination_by structural a => a

end

/-- The `str()` oracle for the C5 counterexample (never consulted: all
leaves are hashable). -/
def c5Pystr : PyVal → String := fun _ => ""

/-- A tree whose two leaves are distinct values that Python's dictionary
lookup identifies: `True == 1.0`. -/
def c5Tree : List (String × PyVal) :=
  [("a", .dict [("x", .bool true)]), ("b", .dict [("x", .num 1)])]

/-- C5.  The claim asserts that resolving every soft link in the written
tree yields a tree logically identical to the original.  Counterexample:
the reverse dictionary of `_create_softlinks` buckets values by Python
dict-key equality (with a `str(value)` fallback for unhashable values),
which identifies distinct values — here `True` and `1.0` — so the float
leaf is replaced by a soft link to the boolean leaf and resolves to
`True`, not to the original `1.0`. -/
theorem C5_counterexample :
    _create_softlinks c5Pystr c5Tree
      = [("a", .dict [("x", .bool true)]),
         ("b", .dict [("x", .str "softlink:/a/x")])] ∧
    resolveKVs (_create_softlinks c5Pystr c5Tree) (_create_softlinks c5Pystr c5Tree)
      = [("a", .dict [("x", .bool true)]), ("b", .dict [("x", .bool true)])] ∧
    resolveKVs (_create_softlinks c5Pystr c5Tree) (_create_softlinks c5Pystr c5Tree)
      ≠ c5Tree := by
  refine ⟨rfl, rfl, ?_⟩
  decide

theorem str_data_inj {a b : String} (h : a.data = b.data) : a = b := by
  obtain ⟨da⟩ := a
  obtain ⟨db⟩ := b
  exact congrArg String.mk h

theorem mk_data : ∀ s : String, String.mk s.data = s
  | ⟨_⟩ => rfl

theorem splitAux_ne_nil (cs acc : List Char) : splitAux cs acc ≠ [] := by
  induction cs generalizing acc with
  | nil => simp [splitAux]
  | cons c cs ih =>
    rw [splitAux]
    by_cases hc : c = '/'
    · simp [hc]
    · simp only [hc, if_false]
      exact ih (c :: acc)

theorem splitAux_no_slash (cs : List Char) :
    ∀ acc, (∀ c ∈ cs, c ≠ '/') →
      splitAux cs acc = [String.mk (acc.reverse ++ cs)] := by
  induction cs with
  | nil =>
    intro acc _
    simp [splitAux]
  | cons c cs ih =>
    intro acc h
    rw [splitAux, if_neg (h c (List.mem_cons_self c cs))]
    rw [ih (c :: acc) (fun d hd => h d (List.mem_cons_of_mem _ hd))]
    simp

theorem splitAux_append (cs : List Char) :
    ∀ (ds : List Char) (acc : List Char),
      splitAux (cs ++ '/' :: ds) acc = splitAux cs acc ++ splitAux ds [] := by
  induction cs with
  | nil =>
    intro ds acc
    rw [show splitAux ([] ++ '/' :: ds) acc
        = String.mk acc.reverse :: splitAux ds [] by
      rw [List.nil_append, splitAux, if_pos rfl]]
    rfl
  | cons c cs ih =>
    intro ds acc
    by_cases hc : c = '/'
    · subst hc
      rw [show splitAux (('/' :: cs) ++ '/' :: ds) acc
          = String.mk acc.reverse :: splitAux (cs ++ '/' :: ds) [] by
        rw [List.cons_append, splitAux, if_pos rfl]]
      rw [show splitAux ('/' :: cs) acc
          = String.mk acc.reverse :: splitAux cs [] by
        rw [splitAux, if_pos rfl]]
      rw [ih ds []]
      rfl
    · rw [show splitAux ((c :: cs) ++ '/' :: ds) acc
          = splitAux (cs ++ '/' :: ds) (c :: acc) by
        rw [List.cons_append, splitAux, if_neg hc]]
      rw [show splitAux (c :: cs) acc = splitAux cs (c :: acc) by
        rw [splitAux, if_neg hc]]
      exact ih ds (c :: acc)

theorem splitSlash_no_slash (s : String) (h : noSlashStr s = true) :
    splitSlash s = [s] := by
  rw [splitSlash, splitAux_no_slash s.data [] ?_]
  · simp [mk_data]
  · intro c hc
    have := List.all_eq_true.mp h c hc
    simpa using this

theorem splitSlash_append (a b : String) :
    splitSlash (a ++ "/" ++ b) = splitSlash a ++ splitSlash b := by
  rw [splitSlash, splitSlash, splitSlash]
  rw [show (a ++ "/" ++ b).data = a.data ++ '/' :: b.data by
    rw [String.data_append, String.data_append, List.append_assoc]
    rfl]
  exact splitAux_append a.data b.data []

def joinStrings : List String → String
  | [] => ""
  | [s] => s
  | s :: rest => s ++ "/" ++ joinStrings rest

theorem joinStrings_splitAux (cs : List Char) :
    ∀ acc, (joinStrings (splitAux cs acc)).data = acc.reverse ++ cs := by
  induction cs with
  | nil =>
    intro acc
    rw [splitAux, joinStrings]
    simp
  | cons c cs ih =>
    intro acc
    by_cases hc : c = '/'
    · subst hc
      rw [splitAux, if_pos rfl]
      cases hr : splitAux cs [] with
      | nil => exact absurd hr (splitAux_ne_nil cs [])
      | cons r0 rr =>
        have ih0 := ih []
        rw [hr] at ih0
        rw [show joinStrings (String.mk acc.reverse :: r0 :: rr)
            = String.mk acc.reverse ++ "/" ++ joinStrings (r0 :: rr) from rfl]
        rw [String.data_append, String.data_append, ih0]
        simp
    · rw [splitAux, if_neg hc, ih (c :: acc)]
      simp

theorem join_splitSlash (s : String) : joinStrings (splitSlash s) = s := by
  refine str_data_inj ?_
  have := joinStrings_splitAux s.data []
  simpa using this

theorem splitSlash_inj {a b : String} (h : splitSlash a = splitSlash b) :
    a = b := by
  rw [← join_splitSlash a, ← join_splitSlash b, h]

def getPathV : List String → PyVal → Option PyVal
  | [], v => some v
  | k :: rest, .dict kvs =>
    (match kvs.lookup k with
     | some v => getPathV rest v
     | Option.none => Option.none)
  | _ :: _, _ => Option.none

theorem getPath_eq_getPathV :
    ∀ (segs : List String) (kvs : List (String × PyVal)), segs ≠ [] →
      getPath segs kvs = getPathV segs (.dict kvs) := by
  intro segs
  induction segs with
  | nil => intro kvs h; exact absurd rfl h
  | cons k rest ih =>
    intro kvs _
    cases rest with
    | nil =>
      rw [getPath, getPathV]
      cases hl : kvs.lookup k with
      | none => rfl
      | some v => rfl
    | cons r rs =>
      rw [getPath, getPathV]
      · cases hl : kvs.lookup k with
        | none => rfl
        | some v =>
          cases v with
          | dict sub => exact ih sub (List.cons_ne_nil r rs)
          | _ => rfl
      · intro hh
        exact absurd hh (List.cons_ne_nil r rs)

theorem splitSlash_ne_nil (s : String) : splitSlash s ≠ [] :=
  splitAux_ne_nil s.data []

theorem lookup_cons_self {α : Type} (k : String) (v : α)
    (rest : List (String × α)) :
    List.lookup k ((k, v) :: rest) = some v := by
  simp [List.lookup]

theorem lookup_cons_ne {α : Type} (k1 k : String) (v : α)
    (rest : List (String × α)) (h : k1 ≠ k) :
    List.lookup k1 ((k, v) :: rest) = List.lookup k1 rest := by
  simp [List.lookup, beq_eq_false_iff_ne.mpr h]

theorem lookup_some_mem_keys {α : Type} (l : List (String × α))
    (k : String) (v : α) (h : List.lookup k l = some v) : k ∈ keysOf l := by
  induction l with
  | nil => simp [List.lookup] at h
  | cons hd tl ih =>
    obtain ⟨k1, v1⟩ := hd
    by_cases hk : k = k1
    · subst hk
      simp [keysOf_cons]
    · rw [lookup_cons_ne k k1 v1 tl hk] at h
      rw [keysOf_cons]
      exact List.mem_cons_of_mem _ (ih h)

theorem getPath_cons (k : String) (segs : List String)
    (kvs : List (String × PyVal)) (v : PyVal)
    (h : List.lookup k kvs = some v) :
    getPath (k :: segs) kvs = getPathV segs v := by
  cases segs with
  | nil =>
    rw [getPath, h]
    rfl
  | cons s ss =>
    rw [getPath, h]
    · cases v with
      | dict sub =>
        exact getPath_eq_getPathV (s :: ss) sub (List.cons_ne_nil s ss)
      | _ => rfl
    · intro hh
      exact absurd hh (List.cons_ne_nil s ss)

theorem getPath_skip_head (segs : List String) (k : String) (v : PyVal)
    (rest : List (String × PyVal)) (h : segs.head? ≠ some k) :
    getPath segs ((k, v) :: rest) = getPath segs rest := by
  cases segs with
  | nil => rfl
  | cons k1 ss =>
    have hne : k1 ≠ k := by
      intro hh
      exact h (by rw [hh]; rfl)
    cases ss with
    | nil =>
      rw [getPath, getPath, lookup_cons_ne k1 k v rest hne]
    | cons s2 ss2 =>
      rw [getPath, getPath, lookup_cons_ne k1 k v rest hne]
      all_goals (intro hh; exact absurd hh (List.cons_ne_nil s2 ss2))

theorem getPath_head_mem (k1 : String) (ss : List String)
    (rest : List (String × PyVal)) (w : PyVal)
    (h : getPath (k1 :: ss) rest = some w) : k1 ∈ keysOf rest := by
  cases ss with
  | nil =>
    rw [getPath] at h
    exact lookup_some_mem_keys rest k1 w h
  | cons s2 ss2 =>
    rw [getPath] at h
    · cases hl : List.lookup k1 rest with
      | none => rw [hl] at h; simp at h
      | some v1 => exact lookup_some_mem_keys rest k1 v1 hl
    · intro hh
      exact absurd hh (List.cons_ne_nil s2 ss2)

theorem flattenVal_nondict (path : String) (v : PyVal)
    (h : isDict v = false) : flattenVal path v = [(path, v)] := by
  cases v <;> first
    | rfl
    | exact absurd h (by simp [isDict])

theorem flattenVal_mem_nondict (path p : String) (w v : PyVal)
    (hd : isDict v = false) (hwf : wfVal v = true)
    (hm : (p, w) ∈ flattenVal path v) :
    ∃ segs, splitSlash p = splitSlash path ++ segs ∧
      getPathV segs v = some w ∧ isDict w = false ∧ wfVal w = true := by
  rw [flattenVal_nondict path v hd, List.mem_singleton] at hm
  rw [Prod.mk.injEq] at hm
  obtain ⟨h1, h2⟩ := hm
  subst h1
  subst h2
  exact ⟨[], by simp, rfl, hd, hwf⟩

mutual

theorem flattenVal_mem : (v : PyVal) → ∀ (path p : String) (w : PyVal),
    wfVal v = true → (p, w) ∈ flattenVal path v →
    ∃ segs, splitSlash p = splitSlash path ++ segs ∧
      getPathV segs v = some w ∧ isDict w = false ∧ wfVal w = true
  | .dict kvs => by
    intro path p w hwf hm
    rw [flattenVal] at hm
    rw [wfVal] at hwf
    obtain ⟨segs, h1, _, h2, h3, h4⟩ := flattenSub_mem kvs path p w hwf hm
    exact ⟨segs, h1, h2, h3, h4⟩
  | .none => fun _ _ _ hwf hm =>
    flattenVal_mem_nondict _ _ _ _ rfl hwf hm
  | .bool _ => fun _ _ _ hwf hm =>
    flattenVal_mem_nondict _ _ _ _ rfl hwf hm
  | .npbool _ => fun _ _ _ hwf hm =>
    flattenVal_mem_nondict _ _ _ _ rfl hwf hm
  | .num _ => fun _ _ _ hwf hm =>
    flattenVal_mem_nondict _ _ _ _ rfl hwf hm
  | .npint _ => fun _ _ _ hwf hm =>
    flattenVal_mem_nondict _ _ _ _ rfl hwf hm
  | .npfloat _ => fun _ _ _ hwf hm =>
    flattenVal_mem_nondict _ _ _ _ rfl hwf hm
  | .nan => fun _ _ _ hwf hm =>
    flattenVal_mem_nondict _ _ _ _ rfl hwf hm
  | .str _ => fun _ _ _ hwf hm =>
    flattenVal_mem_nondict _ _ _ _ rfl hwf hm
  | .list _ => fun _ _ _ hwf hm =>
    flattenVal_mem_nondict _ _ _ _ rfl hwf hm
  | .ndarray _ => fun _ _ _ hwf hm =>
    flattenVal_mem_nondict _ _ _ _ rfl hwf hm
  | .pyfunc _ => fun _ _ _ hwf hm =>
    flattenVal_mem_nondict _ _ _ _ rfl hwf hm
  | .pyclass _ => fun _ _ _ hwf hm =>
    flattenVal_mem_nondict _ _ _ _ rfl hwf hm
  | .unserializable => fun _ _ _ hwf hm =>
    flattenVal_mem_nondict _ _ _ _ rfl hwf hm
termination_by structural a => a

theorem flattenSub_mem : (kvs : List (String × PyVal)) →
    ∀ (pre p : String) (w : PyVal),
    wfKVs kvs = true → (p, w) ∈ flattenSub pre kvs →
    ∃ segs, splitSlash p = splitSlash pre ++ segs ∧ segs ≠ [] ∧
      getPathV segs (.dict kvs) = some w ∧ isDict w = false ∧
      wfVal w = true
  | [] => by
    intro pre p w _ hm
    rw [flattenSub] at hm
    simp at hm
  | (k, v) :: rest => by
    intro pre p w hwf hm
    rw [flattenSub] at hm
    rw [wfKVs] at hwf
    simp only [Bool.and_eq_true] at hwf
    obtain ⟨⟨⟨hk, hkc⟩, hv⟩, hrest⟩ := hwf
    have hkc2 : ((keysOf rest).contains k) = false := by
      cases hcc : (keysOf rest).contains k
      · rfl
      · rw [hcc] at hkc
        simp at hkc
    rcases List.mem_append.mp hm with h | h
    · obtain ⟨segs, h1, h2, h3, h4⟩ :=
        flattenVal_mem v (pre ++ "/" ++ k) p w hv h
    
      refine ⟨k :: segs, ?_, List.cons_ne_nil k segs, ?_, h3, h4⟩
      · rw [h1, splitSlash_append, splitSlash_no_slash k hk]
        simp
      · rw [getPathV, lookup_cons_self k v rest]
        exact h2
    · obtain ⟨segs, h1, h5, h2, h3, h4⟩ := flattenSub_mem rest pre p w hrest h
      refine ⟨segs, h1, h5, ?_, h3, h4⟩
      cases segs with
      | nil => exact absurd rfl h5
      | cons k1 srest =>
        have hx := h2
        rw [getPathV] at hx ⊢
        cases hl : List.lookup k1 rest with
        | none =>
          rw [hl] at hx
          simp at hx
        | some v1 =>
          rw [hl] at hx
          have hk1m : k1 ∈ keysOf rest := lookup_some_mem_keys rest k1 v1 hl
          have hne : k1 ≠ k := by
            intro hh
            subst hh
            have hcm : (keysOf rest).contains k1 = true :=
              (contains_iff_mem (keysOf rest) k1).mpr hk1m
            rw [hcm] at hkc2
            simp at hkc2
          rw [lookup_cons_ne k1 k v rest hne, hl]
          exact hx
termination_by structural a => a

end

theorem getPathV_head_mem (k1 : String) (ss : List String)
    (rest : List (String × PyVal)) (w : PyVal)
    (h : getPathV (k1 :: ss) (.dict rest) = some w) : k1 ∈ keysOf rest := by
  rw [getPathV] at h
  cases hl : List.lookup k1 rest with
  | none =>
    rw [hl] at h
    simp at h
  | some v1 => exact lookup_some_mem_keys rest k1 v1 hl

mutual

theorem flattenVal_nodup : (v : PyVal) → ∀ path, wfVal v = true →
    ((flattenVal path v).map Prod.fst).Nodup
  | .dict kvs => by
    intro path hwf
    rw [flattenVal]
    rw [wfVal] at hwf
    exact flattenSub_nodup kvs path hwf
  | .none => fun path _ => List.nodup_singleton path
  | .bool _ => fun path _ => List.nodup_singleton path
  | .npbool _ => fun path _ => List.nodup_singleton path
  | .num _ => fun path _ => List.nodup_singleton path
  | .npint _ => fun path _ => List.nodup_singleton path
  | .npfloat _ => fun path _ => List.nodup_singleton path
  | .nan => fun path _ => List.nodup_singleton path
  | .str _ => fun path _ => List.nodup_singleton path
  | .list _ => fun path _ => List.nodup_singleton path
  | .ndarray _ => fun path _ => List.nodup_singleton path
  | .pyfunc _ => fun path _ => List.nodup_singleton path
  | .pyclass _ => fun path _ => List.nodup_singleton path
  | .unserializable => fun path _ => List.nodup_singleton path
termination_by structural a => a

theorem flattenSub_nodup : (kvs : List (String × PyVal)) → ∀ pre,
    wfKVs kvs = true → ((flattenSub pre kvs).map Prod.fst).Nodup
  | [] => by
    intro pre _
    rw [flattenSub]
    simp
  | (k, v) :: rest => by
    intro pre hwf
    rw [flattenSub]
    rw [wfKVs] at hwf
    simp only [Bool.and_eq_true] at hwf
    obtain ⟨⟨⟨hk, hkc⟩, hv⟩, hrest⟩ := hwf
    have hkc2 : ((keysOf rest).contains k) = false := by
      cases hcc : (keysOf rest).contains k
      · rfl
      · rw [hcc] at hkc
        simp at hkc
    rw [List.map_append]
    refine List.Nodup.append (flattenVal_nodup v _ hv)
      (flattenSub_nodup rest pre hrest) ?_
    intro p hp1 hp2
    rw [List.mem_map] at hp1 hp2
    obtain ⟨⟨p1, w1⟩, hm1, he1⟩ := hp1
    obtain ⟨⟨p2, w2⟩, hm2, he2⟩ := hp2
    obtain ⟨s1, hs1, _, _, _⟩ := flattenVal_mem v (pre ++ "/" ++ k) p1 w1 hv hm1
    obtain ⟨s2, hs2, hs2ne, hg2, _, _⟩ :=
      flattenSub_mem rest pre p2 w2 hrest hm2
    have hpe : p1 = p2 := by
      have he1b : p1 = p := he1
      have he2b : p2 = p := he2
      rw [he1b, he2b]
    rw [splitSlash_append, splitSlash_no_slash k hk, List.append_assoc] at hs1
    rw [hpe, hs2] at hs1
    have hcancel : s2 = [k] ++ s1 := List.append_cancel_left hs1
    cases s2 with
    | nil => exact absurd rfl hs2ne
    | cons k1 srest =>
      rw [show ([k] ++ s1) = k :: s1 from rfl, List.cons.injEq] at hcancel
      obtain ⟨hk1, _⟩ := hcancel
      subst hk1
      have hcm : (keysOf rest).contains k1 = true :=
        (contains_iff_mem _ _).mpr (getPathV_head_mem k1 srest rest w2 hg2)
      rw [hcm] at hkc2
      simp at hkc2
termination_by structural a => a

end

theorem nestedToRecord_mem :
    ∀ (kvs : List (String × PyVal)) (p : String) (w : PyVal),
      wfKVs kvs = true → (p, w) ∈ nestedToRecord kvs →
      getPath (splitSlash p) kvs = some w ∧ isDict w = false ∧
        wfVal w = true := by
  intro kvs
  induction kvs with
  | nil =>
    intro p w _ hm
    rw [nestedToRecord] at hm
    simp at hm
  | cons hd rest ih =>
    obtain ⟨k, v⟩ := hd
    intro p w hwf hm
    rw [nestedToRecord] at hm
    rw [wfKVs] at hwf
    simp only [Bool.and_eq_true] at hwf
    obtain ⟨⟨⟨hk, hkc⟩, hv⟩, hrest⟩ := hwf
    have hkc2 : ((keysOf rest).contains k) = false := by
      cases hcc : (keysOf rest).contains k
      · rfl
      · rw [hcc] at hkc
        simp at hkc
    rcases List.mem_append.mp hm with h | h
    · obtain ⟨segs, h1, h2, h3, h4⟩ := flattenVal_mem v k p w hv h
      rw [splitSlash_no_slash k hk] at h1
      rw [h1]
      refine ⟨?_, h3, h4⟩
      rw [show ([k] ++ segs) = k :: segs from rfl]
      rw [getPath_cons k segs _ v (lookup_cons_self k v rest)]
      exact h2
    · obtain ⟨hg, h3, h4⟩ := ih p w hrest h
      refine ⟨?_, h3, h4⟩
      cases hsp : splitSlash p with
      | nil => exact absurd hsp (splitSlash_ne_nil p)
      | cons k1 ss =>
        rw [hsp] at hg
        have hk1m := getPath_head_mem k1 ss rest w hg
        have hne : k1 ≠ k := by
          intro hh
          subst hh
          have hcm : (keysOf rest).contains k1 = true :=
            (contains_iff_mem _ _).mpr hk1m
          rw [hcm] at hkc2
          simp at hkc2
        rw [getPath_skip_head (k1 :: ss) k v rest (by
          simp only [List.head?_cons, Ne, Option.some.injEq]
          exact hne)]
        exact hg

theorem nestedToRecord_nodup :
    ∀ (kvs : List (String × PyVal)), wfKVs kvs = true →
      ((nestedToRecord kvs).map Prod.fst).Nodup := by
  intro kvs
  induction kvs with
  | nil =>
    intro _
    rw [nestedToRecord]
    simp
  | cons hd rest ih =>
    obtain ⟨k, v⟩ := hd
    intro hwf
    rw [nestedToRecord]
    rw [wfKVs] at hwf
    simp only [Bool.and_eq_true] at hwf
    obtain ⟨⟨⟨hk, hkc⟩, hv⟩, hrest⟩ := hwf
    have hkc2 : ((keysOf rest).contains k) = false := by
      cases hcc : (keysOf rest).contains k
      · rfl
      · rw [hcc] at hkc
        simp at hkc
    rw [List.map_append]
    refine List.Nodup.append (flattenVal_nodup v _ hv) (ih hrest) ?_
    intro p hp1 hp2
    rw [List.mem_map] at hp1 hp2
    obtain ⟨⟨p1, w1⟩, hm1, he1⟩ := hp1
    obtain ⟨⟨p2, w2⟩, hm2, he2⟩ := hp2
    obtain ⟨s1, hs1, _, _, _⟩ := flattenVal_mem v k p1 w1 hv hm1
    rw [splitSlash_no_slash k hk] at hs1
    obtain ⟨hg2, _, _⟩ := nestedToRecord_mem rest p2 w2 hrest hm2
    have hpe : p1 = p2 := by
      have he1b : p1 = p := he1
      have he2b : p2 = p := he2
      rw [he1b, he2b]
    cases hsp : splitSlash p2 with
    | nil => exact absurd hsp (splitSlash_ne_nil p2)
    | cons k1 ss =>
      rw [hsp] at hg2
      have hk1m := getPath_head_mem k1 ss rest w2 hg2
      rw [hpe, hsp, show ([k] ++ s1) = k :: s1 from rfl,
        List.cons.injEq] at hs1
      obtain ⟨hk1, _⟩ := hs1
      subst hk1
      have hcm : (keysOf rest).contains k1 = true :=
        (contains_iff_mem _ _).mpr hk1m
      rw [hcm] at hkc2
      simp at hkc2

theorem getPath_pyAssign_other (q : List String)
    (kvs : List (String × PyVal)) (kp : String) (x : PyVal)
    (hne : q.head? ≠ some kp) :
    getPath q (pyAssign kvs kp x) = getPath q kvs := by
  cases q with
  | nil => rfl
  | cons k1 qrest =>
    have hk : k1 ≠ kp := by
      intro hh
      exact hne (by rw [hh]; rfl)
    cases qrest with
    | nil =>
      rw [getPath, getPath, lookup_pyAssign_other kvs k1 kp x hk]
    | cons q2 qs =>
      rw [getPath, getPath, lookup_pyAssign_other kvs k1 kp x hk]
      all_goals (intro hh; exact absurd hh (List.cons_ne_nil q2 qs))

theorem setPath_cons_eq (repl : PyVal) (kp : String) (prest : List String)
    (kvs : List (String × PyVal)) :
    ∃ x, setPath repl (kp :: prest) kvs = pyAssign kvs kp x := by
  cases prest with
  | nil => exact ⟨repl, rfl⟩
  | cons p2 ps =>
    refine ⟨(match (kvs.lookup kp).getD (.dict []) with
             | .dict sub => .dict (setPath repl (p2 :: ps) sub)
             | other => other), ?_⟩
    rw [setPath]
    intro hh
    exact absurd hh (List.cons_ne_nil p2 ps)

theorem setPath_cons_dict (repl : PyVal) (kp p2 : String) (ps : List String)
    (kvs sub : List (String × PyVal))
    (hl : List.lookup kp kvs = some (.dict sub)) :
    setPath repl (kp :: p2 :: ps) kvs
      = pyAssign kvs kp (.dict (setPath repl (p2 :: ps) sub)) := by
  rw [setPath]
  · rw [hl]
    rfl
  · intro hh
    exact absurd hh (List.cons_ne_nil p2 ps)

theorem setPath_self (p : List String) :
    ∀ (kvs : List (String × PyVal)) (v repl : PyVal),
      getPath p kvs = some v → isDict v = false →
      getPath p (setPath repl p kvs) = some repl := by
  induction p with
  | nil =>
    intro kvs v repl h _
    rw [getPath] at h
    exact Option.noConfusion h
  | cons k rest ih =>
    intro kvs v repl h hd
    cases rest with
    | nil =>
      rw [show setPath repl [k] kvs = pyAssign kvs k repl from rfl]
      rw [getPath, lookup_pyAssign_self]
    | cons r rs =>
      rw [getPath] at h
      · cases hl : List.lookup k kvs with
        | none =>
          rw [hl] at h
          exact Option.noConfusion h
        | some v1 =>
          rw [hl] at h
          cases v1 with
          | dict sub =>
            rw [setPath_cons_dict repl k r rs kvs sub hl]
            rw [getPath_cons k (r :: rs) _ _ (lookup_pyAssign_self kvs k _)]
            rw [← getPath_eq_getPathV (r :: rs) _ (List.cons_ne_nil r rs)]
            exact ih sub v repl h hd
          | _ => exact Option.noConfusion h
      · intro hh
        exact absurd hh (List.cons_ne_nil r rs)

theorem setPath_other (p : List String) :
    ∀ (q : List String) (kvs : List (String × PyVal)) (v w repl : PyVal),
      getPath p kvs = some v → isDict v = false →
      getPath q kvs = some w → isDict w = false → q ≠ p →
      getPath q (setPath repl p kvs) = some w := by
  induction p with
  | nil =>
    intro q kvs v w repl hp _ _ _ _
    rw [getPath] at hp
    exact Option.noConfusion hp
  | cons kp prest ih =>
    intro q kvs v w repl hp hdp hq hdw hne
    cases q with
    | nil =>
      rw [getPath] at hq
      exact Option.noConfusion hq
    | cons kq qrest =>
      by_cases hkk : kq = kp
      · subst hkk
        cases prest with
        | nil =>
          cases qrest with
          | nil => exact absurd rfl hne
          | cons q2 qs =>
            rw [getPath] at hp
            rw [getPath] at hq
            · rw [hp] at hq
              cases v with
              | dict sub => simp [isDict] at hdp
              | _ => exact Option.noConfusion hq
            · intro hh
              exact absurd hh (List.cons_ne_nil q2 qs)
        | cons p2 ps =>
          rw [getPath] at hp
          · cases hl : List.lookup kq kvs with
            | none =>
              rw [hl] at hp
              exact Option.noConfusion hp
            | some v1 =>
              rw [hl] at hp
              cases v1 with
              | dict sub =>
                rw [setPath_cons_dict repl kq p2 ps kvs sub hl]
                cases qrest with
                | nil =>
                  rw [getPath] at hq
                  rw [hl] at hq
                  simp only [Option.some.injEq] at hq
                  rw [← hq] at hdw
                  simp [isDict] at hdw
                | cons q2 qs =>
                  have hqr : (q2 :: qs) ≠ (p2 :: ps) := by
                    intro hh
                    exact hne (by rw [hh])
                  rw [getPath_cons kq (q2 :: qs) _ _
                    (lookup_pyAssign_self kvs kq _)]
                  rw [← getPath_eq_getPathV (q2 :: qs) _
                    (List.cons_ne_nil q2 qs)]
                  rw [getPath] at hq
                  · rw [hl] at hq
                    exact ih (q2 :: qs) sub v w repl hp hdp hq hdw hqr
                  · intro hh
                    exact absurd hh (List.cons_ne_nil q2 qs)
              | _ =>
                exact Option.noConfusion hp
          · intro hh
            exact absurd hh (List.cons_ne_nil p2 ps)
      · obtain ⟨x, hx⟩ := setPath_cons_eq repl kp prest kvs
        rw [hx, getPath_pyAssign_other (kq :: qrest) kvs kp x (by
          simp only [List.head?_cons, Ne, Option.some.injEq]
          exact hkk)]
        exact hq

theorem addToBucket_join (acc : List (PyVal × List String)) (k : PyVal)
    (p : String) :
    ((addToBucket acc k p).map Prod.snd).join.Perm
      ((acc.map Prod.snd).join ++ [p]) := by
  induction acc with
  | nil => simp [addToBucket]
  | cons b rest ih =>
    obtain ⟨k1, ps⟩ := b
    rw [addToBucket]
    by_cases h1 : k1 = k
    · rw [if_pos h1]
      simp only [List.map_cons, List.join_cons]
      rw [List.append_assoc, List.append_assoc]
      exact List.Perm.append_left ps
        (List.perm_append_comm.trans (List.Perm.refl _)).symm
    · rw [if_neg h1]
      simp only [List.map_cons, List.join_cons]
      rw [List.append_assoc]
      exact (List.Perm.append_left ps ih).trans
        (by rw [← List.append_assoc])

theorem buildBuckets_join_aux (pystr : PyVal → String) :
    ∀ (flat : List (String × PyVal)) (acc : List (PyVal × List String)),
      ((flat.foldl (bucketStep pystr) acc).map Prod.snd).join.Perm
        ((acc.map Prod.snd).join ++ flat.map Prod.fst) := by
  intro flat
  induction flat with
  | nil =>
    intro acc
    simp
  | cons pv flat2 ih =>
    intro acc
    rw [List.foldl_cons]
    refine (ih (bucketStep pystr acc pv)).trans ?_
    have hstep : ((bucketStep pystr acc pv).map Prod.snd).join.Perm
        ((acc.map Prod.snd).join ++ [pv.1]) := by
      rw [bucketStep]
      by_cases hn : softKeyOf pystr pv.2 = PyVal.nan
      · rw [if_pos hn]
        simp
      · rw [if_neg hn]
        exact addToBucket_join acc (softKeyOf pystr pv.2) pv.1
    refine (List.Perm.append_right (flat2.map Prod.fst) hstep).trans ?_
    rw [List.append_assoc]
    simp

theorem buildBuckets_join (pystr : PyVal → String)
    (flat : List (String × PyVal)) :
    ((buildBuckets pystr flat).map Prod.snd).join.Perm
      (flat.map Prod.fst) := by
  have := buildBuckets_join_aux pystr flat []
  simpa using this

theorem addToBucket_assoc (pystr : PyVal → String) (F : List (String × PyVal))
    (key : PyVal) (p0 : String)
    (hkey : ∃ v, (p0, v) ∈ F ∧ softKeyOf pystr v = key) :
    ∀ (acc : List (PyVal × List String)),
      (∀ b ∈ acc, ∀ p ∈ b.2, ∃ v, (p, v) ∈ F ∧ softKeyOf pystr v = b.1) →
      ∀ b ∈ addToBucket acc key p0, ∀ p ∈ b.2,
        ∃ v, (p, v) ∈ F ∧ softKeyOf pystr v = b.1 := by
  intro acc
  induction acc with
  | nil =>
    intro _ b hb p hp
    rw [addToBucket] at hb
    rw [List.mem_singleton] at hb
    subst hb
    rw [List.mem_singleton] at hp
    subst hp
    exact hkey
  | cons b1 rest ih =>
    intro hacc b hb p hp
    obtain ⟨k1, ps⟩ := b1
    rw [addToBucket] at hb
    by_cases h1 : k1 = key
    · rw [if_pos h1] at hb
      rcases List.mem_cons.mp hb with hb | hb
      · subst hb
        rcases List.mem_append.mp hp with hp | hp
        · exact hacc (k1, ps) (List.mem_cons_self _ _) p hp
        · rw [List.mem_singleton] at hp
          subst hp
          subst h1
          exact hkey
      · exact hacc b (List.mem_cons_of_mem _ hb) p hp
    · rw [if_neg h1] at hb
      rcases List.mem_cons.mp hb with hb | hb
      · subst hb
        exact hacc (k1, ps) (List.mem_cons_self _ _) p hp
      · exact ih (fun b2 hb2 => hacc b2 (List.mem_cons_of_mem _ hb2)) b hb p hp

theorem buildBuckets_assoc_aux (pystr : PyVal → String)
    (F : List (String × PyVal)) :
    ∀ (flat : List (String × PyVal)) (acc : List (PyVal × List String)),
      (∀ pv ∈ flat, pv ∈ F) →
      (∀ b ∈ acc, ∀ p ∈ b.2, ∃ v, (p, v) ∈ F ∧ softKeyOf pystr v = b.1) →
      ∀ b ∈ flat.foldl (bucketStep pystr) acc, ∀ p ∈ b.2,
        ∃ v, (p, v) ∈ F ∧ softKeyOf pystr v = b.1 := by
  intro flat
  induction flat with
  | nil =>
    intro acc _ hacc
    exact hacc
  | cons pv flat2 ih =>
    intro acc hF hacc
    rw [List.foldl_cons]
    refine ih (bucketStep pystr acc pv)
      (fun q hq => hF q (List.mem_cons_of_mem _ hq)) ?_
    rw [bucketStep]
    by_cases hn : softKeyOf pystr pv.2 = PyVal.nan
    · rw [if_pos hn]
      intro b hb p hp
      rcases List.mem_append.mp hb with hb | hb
      · exact hacc b hb p hp
      · rw [List.mem_singleton] at hb
        subst hb
        rw [List.mem_singleton] at hp
        subst hp
        exact ⟨pv.2, hF pv (List.mem_cons_self _ _), rfl⟩
    · rw [if_neg hn]
      exact addToBucket_assoc pystr F (softKeyOf pystr pv.2) pv.1
        ⟨pv.2, hF pv (List.mem_cons_self _ _), rfl⟩ acc hacc

theorem buildBuckets_assoc (pystr : PyVal → String)
    (flat : List (String × PyVal)) :
    ∀ b ∈ buildBuckets pystr flat, ∀ p ∈ b.2,
      ∃ v, (p, v) ∈ flat ∧ softKeyOf pystr v = b.1 := by
  rw [buildBuckets]
  refine buildBuckets_assoc_aux pystr flat flat [] (fun pv hpv => hpv) ?_
  intro b hb
  simp at hb

/-- The soft-link marker (if any) that the replacement pass assigns to a
flattened path: the path sits in the tail of some bucket whose first
path is the link target. -/
def dupAssign : List (PyVal × List String) → String → Option PyVal
  | [], _ => Option.none
  | b :: rest, p =>
    match b.2 with
    | [] => dupAssign rest p
    | p0 :: dups =>
      if p ∈ dups then some (.str ("softlink:/" ++ p0)) else dupAssign rest p

theorem lookup_of_mem_nodup {α : Type} :
    ∀ (l : List (String × α)) (p : String) (v : α), (keysOf l).Nodup →
      (p, v) ∈ l → List.lookup p l = some v := by
  intro l
  induction l with
  | nil =>
    intro p v _ hm
    simp at hm
  | cons hd tl ih =>
    obtain ⟨k1, v1⟩ := hd
    intro p v hnd hm
    rw [keysOf_cons] at hnd
    rcases List.mem_cons.mp hm with hm1 | hm2
    · rw [Prod.mk.injEq] at hm1
      obtain ⟨h1, h2⟩ := hm1
      subst h1
      subst h2
      exact lookup_cons_self p v tl
    · by_cases hpk : p = k1
      · subst hpk
        have hmk : p ∈ keysOf tl := List.mem_map.mpr ⟨(p, v), hm2, rfl⟩
        exact absurd hmk (List.nodup_cons.mp hnd).1
      · rw [lookup_cons_ne p k1 v1 tl hpk]
        exact ih p v (List.nodup_cons.mp hnd).2 hm2

theorem dupsFold_inv (flat : List (String × PyVal)) (p0 : String) :
    ∀ (dups : List String) (d : List (String × PyVal)) (f : String → PyVal),
      dups.Nodup →
      (∀ q ∈ dups, q ∈ flat.map Prod.fst) →
      (∀ pv ∈ flat, getPath (splitSlash pv.1) d = some (f pv.1) ∧
        isDict (f pv.1) = false) →
      ∀ pv ∈ flat,
        getPath (splitSlash pv.1) (dups.foldl (softlinkInner p0) d)
          = some (if pv.1 ∈ dups then PyVal.str ("softlink:/" ++ p0)
              else f pv.1) ∧
        isDict (if pv.1 ∈ dups then PyVal.str ("softlink:/" ++ p0)
          else f pv.1) = false := by
  intro dups
  induction dups with
  | nil =>
    intro d f _ _ hinv pv hpv
    simp only [List.foldl_nil, List.not_mem_nil, if_false]
    exact hinv pv hpv
  | cons dup dups2 ih =>
    intro d f hnd hsub hinv pv hpv
    rw [List.foldl_cons]
    have hnd2 := (List.nodup_cons.mp hnd).2
    have hinv2 : ∀ pv2 ∈ flat,
        getPath (splitSlash pv2.1) (softlinkInner p0 d dup)
          = some (if pv2.1 = dup then PyVal.str ("softlink:/" ++ p0)
              else f pv2.1) ∧
        isDict (if pv2.1 = dup then PyVal.str ("softlink:/" ++ p0)
          else f pv2.1) = false := by
      intro pv2 hpv2
      obtain ⟨hg2, hd2⟩ := hinv pv2 hpv2
      by_cases he : pv2.1 = dup
      · rw [if_pos he]
        refine ⟨?_, rfl⟩
        rw [softlinkInner, modifyDict, ← he]
        exact setPath_self (splitSlash pv2.1) d (f pv2.1) _ hg2 hd2
      · rw [if_neg he]
        refine ⟨?_, hd2⟩
        rw [softlinkInner, modifyDict]
        obtain ⟨⟨dp, dv⟩, hdmem, hdeq⟩ :=
          List.mem_map.mp (hsub dup (List.mem_cons_self dup dups2))
        obtain ⟨hgd, hdd⟩ := hinv (dp, dv) hdmem
        have hgd2 : getPath (splitSlash dup) d = some (f dup) := by
          rw [← hdeq]
          exact hgd
        have hdd2 : isDict (f dup) = false := by
          rw [← hdeq]
          exact hdd
        exact setPath_other (splitSlash dup) (splitSlash pv2.1) d (f dup)
          (f pv2.1) _ hgd2 hdd2 hg2 hd2
          (fun hh => he (splitSlash_inj hh))
    have hres := ih (softlinkInner p0 d dup)
      (fun p => if p = dup then PyVal.str ("softlink:/" ++ p0) else f p)
      hnd2 (fun q hq => hsub q (List.mem_cons_of_mem _ hq)) hinv2 pv hpv
    obtain ⟨hg3, hd3⟩ := hres
    have hcond : (if pv.1 ∈ dups2 then PyVal.str ("softlink:/" ++ p0)
          else if pv.1 = dup then PyVal.str ("softlink:/" ++ p0) else f pv.1)
        = (if pv.1 ∈ dup :: dups2 then PyVal.str ("softlink:/" ++ p0)
          else f pv.1) := by
      by_cases h1 : pv.1 ∈ dups2
      · rw [if_pos h1, if_pos (List.mem_cons_of_mem _ h1)]
      · rw [if_neg h1]
        by_cases h2 : pv.1 = dup
        · rw [if_pos h2, if_pos (by rw [h2]; exact List.mem_cons_self _ _)]
        · rw [if_neg h2, if_neg (by
            intro hh
            rcases List.mem_cons.mp hh with hh | hh
            · exact h2 hh
            · exact h1 hh)]
    rw [hcond] at hg3 hd3
    exact ⟨hg3, hd3⟩

theorem dupAssign_cons_nil (b : PyVal × List String)
    (rest : List (PyVal × List String)) (p : String) (h : b.2 = []) :
    dupAssign (b :: rest) p = dupAssign rest p := by
  rw [dupAssign, h]

theorem dupAssign_cons (b : PyVal × List String)
    (rest : List (PyVal × List String)) (p p0 : String) (dups : List String)
    (h : b.2 = p0 :: dups) :
    dupAssign (b :: rest) p
      = if p ∈ dups then some (.str ("softlink:/" ++ p0))
        else dupAssign rest p := by
  rw [dupAssign, h]

theorem softlinkOuter_eq_nil (d : List (String × PyVal))
    (b : PyVal × List String) (h : b.2 = []) : softlinkOuter d b = d := by
  rw [softlinkOuter, h]

theorem softlinkOuter_eq_cons (d : List (String × PyVal))
    (b : PyVal × List String) (p0 : String) (dups : List String)
    (h : b.2 = p0 :: dups) :
    softlinkOuter d b = dups.foldl (softlinkInner p0) d := by
  rw [softlinkOuter, h]

theorem dupAssign_none_of_not_mem :
    ∀ (bs : List (PyVal × List String)) (p : String),
      p ∉ (bs.map Prod.snd).flatten → dupAssign bs p = Option.none := by
  intro bs
  induction bs with
  | nil => intro p _; rfl
  | cons b rest ih =>
    intro p hp
    simp only [List.map_cons, List.flatten_cons, List.mem_append] at hp
    cases hb2 : b.2 with
    | nil =>
      rw [dupAssign_cons_nil b rest p hb2]
      exact ih p (fun hh => hp (Or.inr hh))
    | cons p0 dups =>
      rw [dupAssign_cons b rest p p0 dups hb2]
      rw [if_neg (fun hh => hp (Or.inl (by
        rw [hb2]
        exact List.mem_cons_of_mem _ hh)))]
      exact ih p (fun hh => hp (Or.inr hh))

theorem dupAssign_head_none :
    ∀ (bs : List (PyVal × List String)),
      ((bs.map Prod.snd).flatten).Nodup →
      ∀ b ∈ bs, ∀ (p0 : String) (dups : List String), b.2 = p0 :: dups →
        dupAssign bs p0 = Option.none := by
  intro bs
  induction bs with
  | nil =>
    intro _ b hb
    simp at hb
  | cons b1 rest ih =>
    intro hnd b hb p0 dups hb2
    simp only [List.map_cons, List.flatten_cons] at hnd
    have hdisj := List.disjoint_of_nodup_append hnd
    rcases List.mem_cons.mp hb with hb | hb
    · subst hb
      rw [dupAssign_cons b rest p0 p0 dups hb2]
      rw [if_neg ?_]
      · refine dupAssign_none_of_not_mem rest p0 ?_
        intro hh
        exact hdisj (by rw [hb2]; exact List.mem_cons_self _ _) hh
      · intro hh
        have hbnd : (p0 :: dups).Nodup := by
          rw [← hb2]
          exact hnd.of_append_left
        exact (List.nodup_cons.mp hbnd).1 hh
    · have hmem : p0 ∈ (rest.map Prod.snd).flatten := by
        refine List.mem_flatten.mpr ⟨b.2, ?_, ?_⟩
        · exact List.mem_map.mpr ⟨b, hb, rfl⟩
        · rw [hb2]
          exact List.mem_cons_self _ _
      cases hb12 : b1.2 with
      | nil =>
        rw [dupAssign_cons_nil b1 rest p0 hb12]
        exact ih hnd.of_append_right b hb p0 dups hb2
      | cons q0 qdups =>
        rw [dupAssign_cons b1 rest p0 q0 qdups hb12]
        rw [if_neg ?_]
        · exact ih hnd.of_append_right b hb p0 dups hb2
        · intro hh
          exact hdisj (by rw [hb12]; exact List.mem_cons_of_mem _ hh) hmem

theorem dupAssign_some_spec :
    ∀ (bs : List (PyVal × List String)) (p : String) (m : PyVal),
      dupAssign bs p = some m →
      ∃ b ∈ bs, ∃ (p0 : String) (dups : List String), b.2 = p0 :: dups ∧
        p ∈ dups ∧ m = .str ("softlink:/" ++ p0) := by
  intro bs
  induction bs with
  | nil =>
    intro p m h
    exact Option.noConfusion h
  | cons b rest ih =>
    intro p m h
    cases hb2 : b.2 with
    | nil =>
      rw [dupAssign_cons_nil b rest p hb2] at h
      obtain ⟨b2, hb2m, rest2⟩ := ih p m h
      exact ⟨b2, List.mem_cons_of_mem _ hb2m, rest2⟩
    | cons p0 dups =>
      rw [dupAssign_cons b rest p p0 dups hb2] at h
      by_cases hp : p ∈ dups
      · rw [if_pos hp] at h
        simp only [Option.some.injEq] at h
        exact ⟨b, List.mem_cons_self _ _, p0, dups, hb2, hp, h.symm⟩
      · rw [if_neg hp] at h
        obtain ⟨b2, hb2m, rest2⟩ := ih p m h
        exact ⟨b2, List.mem_cons_of_mem _ hb2m, rest2⟩

theorem bucketsFold_inv (flat : List (String × PyVal)) :
    ∀ (bs : List (PyVal × List String)) (d : List (String × PyVal))
      (f : String → PyVal),
      ((bs.map Prod.snd).flatten).Nodup →
      (∀ b ∈ bs, ∀ q ∈ b.2, q ∈ flat.map Prod.fst) →
      (∀ pv ∈ flat, getPath (splitSlash pv.1) d = some (f pv.1) ∧
        isDict (f pv.1) = false) →
      ∀ pv ∈ flat,
        getPath (splitSlash pv.1) (bs.foldl softlinkOuter d)
          = some ((dupAssign bs pv.1).getD (f pv.1)) ∧
        isDict ((dupAssign bs pv.1).getD (f pv.1)) = false := by
  intro bs
  induction bs with
  | nil =>
    intro d f _ _ hinv pv hpv
    exact hinv pv hpv
  | cons b rest ih =>
    intro d f hnd hsub hinv pv hpv
    simp only [List.map_cons, List.flatten_cons] at hnd
    rw [List.foldl_cons]
    cases hb2 : b.2 with
    | nil =>
      rw [softlinkOuter_eq_nil d b hb2, dupAssign_cons_nil b rest pv.1 hb2]
      exact ih d f hnd.of_append_right
        (fun b2 hb2m => hsub b2 (List.mem_cons_of_mem _ hb2m)) hinv pv hpv
    | cons p0 dups =>
      have hbnd : (p0 :: dups).Nodup := by
        rw [← hb2]
        exact hnd.of_append_left
      have hdisj := List.disjoint_of_nodup_append hnd
      have hinner := dupsFold_inv flat p0 dups d f
        (List.nodup_cons.mp hbnd).2
        (fun q hq => hsub b (List.mem_cons_self _ _) q
          (by rw [hb2]; exact List.mem_cons_of_mem _ hq))
        hinv
      rw [softlinkOuter_eq_cons d b p0 dups hb2,
        dupAssign_cons b rest pv.1 p0 dups hb2]
      have hres := ih (dups.foldl (softlinkInner p0) d)
        (fun p => if p ∈ dups then PyVal.str ("softlink:/" ++ p0) else f p)
        hnd.of_append_right
        (fun b2 hb2m => hsub b2 (List.mem_cons_of_mem _ hb2m))
        hinner pv hpv
      obtain ⟨hg, hd⟩ := hres
      have hconv : (dupAssign rest pv.1).getD
            (if pv.1 ∈ dups then PyVal.str ("softlink:/" ++ p0) else f pv.1)
          = (if pv.1 ∈ dups then some (PyVal.str ("softlink:/" ++ p0))
              else dupAssign rest pv.1).getD (f pv.1) := by
        by_cases hpd : pv.1 ∈ dups
        · rw [if_pos hpd, if_pos hpd]
          rw [dupAssign_none_of_not_mem rest pv.1 (fun hh =>
            hdisj (by rw [hb2]; exact List.mem_cons_of_mem _ hpd) hh)]
          rfl
        · rw [if_neg hpd, if_neg hpd]
      rw [hconv] at hg hd
      exact ⟨hg, hd⟩

theorem afterSub_self (pat : List Char) (hp : pat ≠ []) (r : List Char) :
    afterSub pat (pat ++ r) = some r := by
  cases pat with
  | nil => exact absurd rfl hp
  | cons c cs =>
    rw [List.cons_append, afterSub,
      if_pos (List.isPrefixOf_iff_prefix.mpr
        (by rw [← List.cons_append]; exact List.prefix_append _ r))]
    rw [show (c :: (cs ++ r)) = (c :: cs) ++ r by rw [List.cons_append]]
    rw [List.drop_left]

theorem resolveVal_nonmarker (root : List (String × PyVal)) (w : PyVal)
    (hd : isDict w = false) (hwf : wfVal w = true) : resolveVal root w = w := by
  cases w with
  | dict kvs => simp [isDict] at hd
  | str s =>
    rw [resolveVal]
    rw [wfVal, noMarkerStr, Option.isNone_iff_eq_none] at hwf
    rw [hwf]
  | _ => rfl

theorem resolveVal_marker (root : List (String × PyVal)) (p0 : String)
    (v : PyVal) (hget : getPath (splitSlash p0) root = some v) :
    resolveVal root (.str ("softlink:/" ++ p0)) = v := by
  rw [resolveVal]
  have hdata : ("softlink:/" ++ p0).data
      = "softlink:".data ++ ('/' :: p0.data) := by
    rw [String.data_append]
    rfl
  rw [hdata, afterSub_self ("softlink:".data) (by decide) ('/' :: p0.data)]
  have h2 : (match getPath (splitSlash (String.mk p0.data)) root with
      | some w => w
      | Option.none => PyVal.str ("softlink:/" ++ p0)) = v := by
    rw [mk_data p0, hget]
  exact h2

/-- C5 (amended).  Under the flaw exposed by the counterexample, the
claim holds only when the reverse dictionary's bucketing is honest — no
two distinct leaf values share a bucket key (no `True`/`1` identification
and no `str()` collision).  Then the de-duplication pass is pointwise
correct: every flattened leaf of a well-formed tree is either stored
physically with its original value, or replaced by a `softlink:/` marker
to another path, and resolving the written value as `create_hdf5_dataset`
interprets it always recovers the original leaf value. -/
theorem C5_amended_pointwise_resolution (pystr : PyVal → String)
    (kvs : List (String × PyVal)) (hwf : wfKVs kvs = true)
    (hkey : ∀ pv1 ∈ nestedToRecord kvs, ∀ pv2 ∈ nestedToRecord kvs,
      softKeyOf pystr pv1.2 = softKeyOf pystr pv2.2 → pv1.2 = pv2.2) :
    ∀ pv ∈ nestedToRecord kvs,
      ∃ w, getPath (splitSlash pv.1) (_create_softlinks pystr kvs) = some w ∧
        resolveVal (_create_softlinks pystr kvs) w = pv.2 ∧
        (w = pv.2 ∨ ∃ p0, p0 ≠ pv.1 ∧ w = .str ("softlink:/" ++ p0)) := by
  intro pv hpv
  obtain ⟨p, v⟩ := pv
  have hflatnodup : ((nestedToRecord kvs).map Prod.fst).Nodup :=
    nestedToRecord_nodup kvs hwf
  have hbjoin := buildBuckets_join pystr (nestedToRecord kvs)
  have hjoinnodup :
      (((buildBuckets pystr (nestedToRecord kvs)).map Prod.snd).flatten).Nodup :=
    (List.Perm.nodup_iff hbjoin).mpr hflatnodup
  have hassoc := buildBuckets_assoc pystr (nestedToRecord kvs)
  have hsub : ∀ b ∈ buildBuckets pystr (nestedToRecord kvs), ∀ q ∈ b.2,
      q ∈ (nestedToRecord kvs).map Prod.fst := by
    intro b hb q hq
    obtain ⟨v2, hvm, _⟩ := hassoc b hb q hq
    exact List.mem_map.mpr ⟨(q, v2), hvm, rfl⟩
  have hinv0 : ∀ pv2 ∈ nestedToRecord kvs,
      getPath (splitSlash pv2.1) kvs
        = some (((nestedToRecord kvs).lookup pv2.1).getD PyVal.none) ∧
      isDict (((nestedToRecord kvs).lookup pv2.1).getD PyVal.none) = false := by
    intro pv2 hpv2
    obtain ⟨p2, v2⟩ := pv2
    obtain ⟨hg2, hd2, _⟩ := nestedToRecord_mem kvs p2 v2 hwf hpv2
    have hlook2 : (nestedToRecord kvs).lookup p2 = some v2 :=
      lookup_of_mem_nodup _ p2 v2 hflatnodup hpv2
    rw [hlook2]
    exact ⟨hg2, hd2⟩
  have hmain := bucketsFold_inv (nestedToRecord kvs)
    (buildBuckets pystr (nestedToRecord kvs)) kvs
    (fun q => ((nestedToRecord kvs).lookup q).getD PyVal.none)
    hjoinnodup hsub hinv0 (p, v) hpv
  obtain ⟨hg, hd⟩ := hmain
  simp only [] at hg hd
  have hlookp : (nestedToRecord kvs).lookup p = some v :=
    lookup_of_mem_nodup _ p v hflatnodup hpv
  have hF : _create_softlinks pystr kvs
      = (buildBuckets pystr (nestedToRecord kvs)).foldl softlinkOuter kvs :=
    rfl
  obtain ⟨hgp0, hdv, hwfv⟩ := nestedToRecord_mem kvs p v hwf hpv
  cases hda : dupAssign (buildBuckets pystr (nestedToRecord kvs)) p with
  | none =>
    rw [hda, hlookp] at hg
    refine ⟨v, ?_, ?_, Or.inl rfl⟩
    · rw [hF]
      exact hg
    · exact resolveVal_nonmarker _ v hdv hwfv
  | some m =>
    rw [hda] at hg
    obtain ⟨b, hbm, p0, dups, hb2, hpd, hm⟩ := dupAssign_some_spec _ p m hda
    subst hm
    obtain ⟨v0, hv0m, hk0⟩ := hassoc b hbm p0
      (by rw [hb2]; exact List.mem_cons_self _ _)
    obtain ⟨vp, hvpm, hkp⟩ := hassoc b hbm p
      (by rw [hb2]; exact List.mem_cons_of_mem _ hpd)
    have hvp : vp = v := by
      have h1 := lookup_of_mem_nodup _ p vp hflatnodup hvpm
      rw [hlookp] at h1
      exact (Option.some.inj h1).symm
    have hv0 : v0 = v := by
      have hh := hkey (p0, v0) hv0m (p, vp) hvpm (by rw [hk0, hkp])
      rw [show ((p0, v0).2 : PyVal) = v0 from rfl,
        show ((p, vp).2 : PyVal) = vp from rfl] at hh
      rw [hh, hvp]
    have hbnd : (p0 :: dups).Nodup := by
      rw [← hb2]
      exact (List.nodup_flatten.mp hjoinnodup).1 b.2
        (List.mem_map.mpr ⟨b, hbm, rfl⟩)
    have hp0ne : p0 ≠ p := fun hh => (List.nodup_cons.mp hbnd).1 (hh ▸ hpd)
    have hda0 : dupAssign (buildBuckets pystr (nestedToRecord kvs)) p0
        = Option.none :=
      dupAssign_head_none _ hjoinnodup b hbm p0 dups hb2
    have hlook0 : (nestedToRecord kvs).lookup p0 = some v0 :=
      lookup_of_mem_nodup _ p0 v0 hflatnodup hv0m
    obtain ⟨hg0, _⟩ := bucketsFold_inv (nestedToRecord kvs)
      (buildBuckets pystr (nestedToRecord kvs)) kvs
      (fun q => ((nestedToRecord kvs).lookup q).getD PyVal.none)
      hjoinnodup hsub hinv0 (p0, v0) hv0m
    simp only [] at hg0
    rw [hda0, hlook0] at hg0
    have hg0v : getPath (splitSlash p0)
        ((buildBuckets pystr (nestedToRecord kvs)).foldl softlinkOuter kvs)
        = some v := by
      rw [← hv0]
      exact hg0
    refine ⟨.str ("softlink:/" ++ p0), ?_, ?_, Or.inr ⟨p0, hp0ne, rfl⟩⟩
    · rw [hF]
      exact hg
    · rw [hF]
      exact resolveVal_marker _ p0 v hg0v

/-- The `str()` oracle for the C5 witness. -/
def c5wPystr : PyVal → String := fun _ => "psd-array"

/-- The spec's de-duplication scenario: two labels carrying identical
PSD data. -/
def c5wTree : List (String × PyVal) :=
  [("psds", .dict
    [("l1", .dict [("H1", .list [.num 1, .num 2])]),
     ("l2", .dict [("H1", .list [.num 1, .num 2])])])]

/-- Witness for C5 (amended): the pointwise resolution theorem applied
to the two-label identical-PSD aggregate, at the second label's PSD
leaf. -/
theorem C5_amended_pointwise_resolution_witness :
    wfKVs c5wTree = true ∧
    ("psds/l2/H1", PyVal.list [.num 1, .num 2]) ∈ nestedToRecord c5wTree ∧
    ∃ w, getPath (splitSlash "psds/l2/H1")
        (_create_softlinks c5wPystr c5wTree) = some w ∧
      resolveVal (_create_softlinks c5wPystr c5wTree) w
        = PyVal.list [.num 1, .num 2] ∧
      (w = PyVal.list [.num 1, .num 2] ∨
        ∃ p0, p0 ≠ "psds/l2/H1" ∧ w = .str ("softlink:/" ++ p0)) :=
  ⟨by decide, by decide,
    C5_amended_pointwise_resolution c5wPystr c5wTree (by decide) (by decide)
      ("psds/l2/H1", PyVal.list [.num 1, .num 2]) (by decide)⟩
